import Mathlib

/-!
# Trading system: shallow embedding and verified properties

The C++ sources under `src/tradingsystem` are embedded as pure Lean functions.

Conventions of the embedding
* `double` prices are exact rationals (`ℚ`).
* A `long` is an integer (`Int`); where the source adds or negates quantities that
  come from its input, the result is wrapped to 64 bits (`wrapLong`): signed
  overflow is undefined in C++ and the usual builds wrap.  The product of `int`s
  in the market data connector is wrapped to 32 bits (`wrapInt`).  Counters that
  start at 0 and clock readings are integers.  A `double` converted to `int`
  outside the range of `int` gives `INT_MIN` (`toInt`), as x86-64 builds do.
* `std::map<string, V>` is a list of entries kept in increasing key order
  (`StdMap`); `operator[]` is `StdMap.get` for the value read and
  `StdMap.touch` for the default entry it creates when the key is absent.
* `std::unordered_map<double, long>` is an association list in first-insertion
  order (`HashTable`); its iteration order is unspecified in C++, and the
  theorems about it only state order-independent facts.
* A service is a record of its private members.  A call that notifies
  listeners returns, next to the new service state, the list of
  `ProcessAdd` deliveries `(listener, value)` in the order they are made.
* Values of uninitialised locals are indeterminate in C++, and so is what is read
  through a reference to a destroyed temporary; where the source reads one, the
  embedding takes it as an explicit argument named `indet`.
* A feed read by a connector is the list of its lines, each line being the list
  of cells that the inner `getline` loop collects; reading a line gives `none`
  where the source has no defined result.
* A listener object that links two services is the function its `ProcessAdd`
  applies to the service it points to; `deliver` makes the calls of a list of
  deliveries on it.
-/

namespace TradingSystem

/-! ## Containers -/

/-- The container `std::map<string, V>`, as its entries in key order. -/
abbrev StdMap (V : Type) := List (String × V)

namespace StdMap

variable {V : Type}

/-- Lookup of a key (`std::map::find`). -/
def find : StdMap V → String → Option V
  | [], _ => none
  | (k', v) :: rest, k => if k = k' then some v else find rest k

/-- Insert-or-assign of a key, keeping the entries in key order. -/
def set : StdMap V → String → V → StdMap V
  | [], k, v => [(k, v)]
  | (k', v') :: rest, k, v =>
    if k < k' then (k, v) :: (k', v') :: rest
    else if k = k' then (k, v) :: rest
    else (k', v') :: set rest k v

/-- The value that `m[k]` denotes: the stored one, or the value-initialised default
`dflt` when the key is absent. -/
def get (m : StdMap V) (k : String) (dflt : V) : V :=
  (find m k).getD dflt

/-- The map after `m[k]` has been evaluated: an absent key gets a default entry. -/
def touch (m : StdMap V) (k : String) (dflt : V) : StdMap V :=
  match find m k with
  | some _ => m
  | none => set m k dflt

/-- Well-formedness of a `std::map`: keys strictly increasing (hence distinct). -/
def WF (m : StdMap V) : Prop :=
  (m.map Prod.fst).Pairwise (fun a b => a < b)

instance (m : StdMap V) : Decidable (WF m) := by
  unfold WF; infer_instance

end StdMap

/-- Identity of a registered `ServiceListener` object. -/
abbrev Listener := Nat

/-! ## Machine integers -/

/-- The values of `long` (64 bits, two's complement). -/
def inLong (x : Int) : Prop := -9223372036854775808 ≤ x ∧ x ≤ 9223372036854775807

instance (x : Int) : Decidable (inLong x) := by
  unfold inLong; infer_instance

/-- The `long` that the result `x` of an addition or negation of `long`s is stored as:
`x` itself when it is a value of `long`, and otherwise (signed overflow, undefined in
C++) the value congruent to `x` modulo `2^64`, which the usual builds compute. -/
def wrapLong (x : Int) : Int :=
  (x + 9223372036854775808) % 18446744073709551616 - 9223372036854775808

/-- The values of `int` (32 bits). -/
def inInt (x : Int) : Prop := -2147483648 ≤ x ∧ x ≤ 2147483647

instance (x : Int) : Decidable (inInt x) := by
  unfold inInt; infer_instance

/-- The `int` that the result `x` of a multiplication of `int`s is stored as: `x` itself
when it is a value of `int`, and otherwise (signed overflow, undefined in C++) the value
congruent to `x` modulo `2^32`, which the usual builds compute. -/
def wrapInt (x : Int) : Int :=
  (x + 2147483648) % 4294967296 - 2147483648

/-- The `int` that a `double` with integral value `x` is converted to: `x` itself when
it is a value of `int`; otherwise the conversion is undefined in C++, and the embedding
gives `INT_MIN`, the result of the conversion instruction of x86-64 builds. -/
def toInt (x : Int) : Int :=
  if inInt x then x else -2147483648

/-! ## Products (`products.hpp` is not among the sources) -/

/-- Modelled from the spec: the product type `T` (class `Bond` of `products.hpp`,
which is not among the sources).  The services only call `GetProductId`; the
ticker stands for the remaining attributes. -/
structure Product where
  productId : String
  ticker : String
  deriving DecidableEq, Repr

/-- Modelled from the spec: the default-constructed product `T()` (the default
constructor of `Bond` is in `products.hpp`, not among the sources). -/
def Product.defaultValue : Product := { productId := "", ticker := "" }

/-- The accessor `GetProductId`. -/
def Product.GetProductId (p : Product) : String := p.productId

/-! ## tradebookingservice.hpp: trades -/

/-- The enum `Side { BUY, SELL }`. -/
inductive Side where
  | BUY
  | SELL
  deriving DecidableEq, Repr, Inhabited

/-- The class `Trade<T>`. -/
structure Trade where
  product : Product
  tradeId : String
  price : ℚ
  book : String
  quantity : Int
  side : Side
  deriving DecidableEq, Repr

/-! ## positionservice.hpp -/

/-- The class `Position<T>`: a product and its net quantity per book. -/
structure Position where
  product : Product
  positions : StdMap Int
  deriving DecidableEq, Repr

/-- The defaulted constructor `Position()`: default product, no book. -/
def Position.defaultValue : Position :=
  { product := Product.defaultValue, positions := [] }

/-- The constructor `Position(const T& _product)`: no book yet. -/
def Position.new (product : Product) : Position :=
  { product := product, positions := [] }

/-- The method `Position::GetPosition`, read part of `positions[_book]`. -/
def Position.GetPosition (p : Position) (book : String) : Int :=
  StdMap.get p.positions book 0

/-- The method `Position::AddPosition`: `positions[_book] += _position`, an addition of
`long`s. -/
def Position.AddPosition (p : Position) (book : String) (position : Int) : Position :=
  { p with positions :=
      StdMap.set p.positions book (wrapLong (StdMap.get p.positions book 0 + position)) }

/-- The method `Position::GetAggregatePosition`: the loop summing all books into the
`long` `aggregatePosition`. -/
def Position.GetAggregatePosition (p : Position) : Int :=
  p.positions.foldl (fun aggregatePosition e => wrapLong (aggregatePosition + e.2)) 0

/-- The class `PositionService<T>`: the store keyed on product id and the
registered listeners. -/
structure PositionService where
  positions : StdMap Position
  listeners : List Listener
  deriving DecidableEq, Repr

/-- The constructor `PositionService()`. -/
def PositionService.new : PositionService :=
  { positions := [], listeners := [] }

/-- The method `PositionService::AddTrade`.  Returns the new service and the
`ProcessAdd` deliveries. -/
def PositionService.AddTrade (s : PositionService) (t : Trade) :
    PositionService × List (Listener × Position) :=
  let product := t.product
  let productId := product.GetProductId
  let positionTo0 := Position.new product
  let positionTo1 :=
    match t.side with
    | Side.BUY => positionTo0.AddPosition t.book t.quantity
    | Side.SELL => positionTo0.AddPosition t.book (wrapLong (-t.quantity))
  let positions1 := StdMap.touch s.positions productId Position.defaultValue
  let positionFrom := StdMap.get positions1 productId Position.defaultValue
  let positionTo :=
    positionFrom.positions.foldl (fun acc e => acc.AddPosition e.1 e.2) positionTo1
  let positions2 := StdMap.set positions1 productId positionTo
  ({ s with positions := positions2 }, s.listeners.map (fun l => (l, positionTo)))

/-- Well-formedness of a stored position: its book map is a `std::map`. -/
def Position.WF (p : Position) : Prop := StdMap.WF p.positions

/-- Well-formedness of the position store: the store and every stored book
map are `std::map`s. -/
def PositionService.WF (s : PositionService) : Prop :=
  StdMap.WF s.positions ∧ ∀ e ∈ s.positions, Position.WF e.2

/-- The net quantities of the position store are values of `long`. -/
def PositionService.InRange (s : PositionService) : Prop :=
  ∀ e ∈ s.positions, ∀ b ∈ e.2.positions, inLong b.2

/-! ## marketdataservice.hpp -/

/-- The enum `PricingSide { BID, OFFER }`. -/
inductive PricingSide where
  | BID
  | OFFER
  deriving DecidableEq, Repr

/-- The class `Order`: a market data order with price, quantity and side. -/
structure Order where
  price : ℚ
  quantity : Int
  side : PricingSide
  deriving DecidableEq, Repr

/-- The class `BidOffer`: a bid order and an offer order. -/
structure BidOffer where
  bidOrder : Order
  offerOrder : Order
  deriving DecidableEq, Repr

/-- The class `OrderBook<T>`: a product with a bid stack and an offer stack. -/
structure OrderBook where
  product : Product
  bidStack : List Order
  offerStack : List Order
  deriving DecidableEq, Repr

/-- The defaulted constructor `OrderBook()`: default product, empty stacks. -/
def OrderBook.defaultValue : OrderBook :=
  { product := Product.defaultValue, bidStack := [], offerStack := [] }

/-- The constant `INT_MIN` of `<climits>` (32-bit `int`), converted to `double`. -/
def INT_MIN : ℚ := -2147483648

/-- The constant `INT_MAX` of `<climits>` (32-bit `int`), converted to `double`. -/
def INT_MAX : ℚ := 2147483647

/-- Body of the first loop of `GetBidOffer`: the state is `(_bidPrice, _bidOrder)`. -/
def OrderBook.bidStep (st : ℚ × Order) (b : Order) : ℚ × Order :=
  if b.price > st.1 then (b.price, b) else st

/-- Body of the second loop of `GetBidOffer`: the state is `(_offerPrice, _offerOrder)`. -/
def OrderBook.offerStep (st : ℚ × Order) (o : Order) : ℚ × Order :=
  if o.price < st.1 then (o.price, o) else st

/-- The temporary `BidOffer(_bidOrder, _offerOrder)` that the return statement of
`OrderBook::GetBidOffer` constructs (line 192) after the two loops.  The locals
`_bidOrder` and `_offerOrder` are declared without initialiser; `locals` gives their
indeterminate contents, which stay when no order of the stack passes the sentinel. -/
def OrderBook.GetBidOffer.temporary (locals : BidOffer) (ob : OrderBook) : BidOffer :=
  let bid := ob.bidStack.foldl OrderBook.bidStep (INT_MIN, locals.bidOrder)
  let offer := ob.offerStack.foldl OrderBook.offerStep (INT_MAX, locals.offerOrder)
  { bidOrder := bid.2, offerOrder := offer.2 }

/-- The method `OrderBook::GetBidOffer`.  Its return type is `const BidOffer&` and the
return statement binds the reference to the temporary built by the loops, whose
lifetime ends with the call: the reference that the caller receives dangles, and
reading through it is undefined (builds of gcc return a null reference, and the read
is a segmentation fault).  Nothing of the temporary reaches the caller; the embedding
gives the caller the indeterminate contents `indet`. -/
def OrderBook.GetBidOffer (indet : BidOffer) (ob : OrderBook) : BidOffer :=
  let _temporary := OrderBook.GetBidOffer.temporary indet ob
  indet

/-- The container `std::unordered_map<double, long>`, as its entries in
first-insertion order. -/
abbrev HashTable := List (ℚ × Int)

/-- The statement `table[_price] += _quantity`, an addition of `long`s: a missing key
is created with 0. -/
def HashTable.add : HashTable → ℚ → Int → HashTable
  | [], price, quantity => [(price, wrapLong (0 + quantity))]
  | (k, v) :: rest, price, quantity =>
    if price = k then (k, wrapLong (v + quantity)) :: rest
    else (k, v) :: HashTable.add rest price quantity

/-- The class `MarketDataService<T>`: the store keyed on product id, the registered
listeners and the book depth. -/
structure MarketDataService where
  orderBooks : StdMap OrderBook
  listeners : List Listener
  bookDepth : Int
  deriving DecidableEq, Repr

/-- The constructor `MarketDataService()`. -/
def MarketDataService.new : MarketDataService :=
  { orderBooks := [], listeners := [], bookDepth := 5 }

/-- The method `MarketDataService::GetBestBidOffer`; `orderBooks[_productId]`
creates a default book for an absent product.  The result is the dangling reference
that `GetBidOffer` returns, passed on. -/
def MarketDataService.GetBestBidOffer (s : MarketDataService) (indet : BidOffer)
    (productId : String) : MarketDataService × BidOffer :=
  let orderBooks := StdMap.touch s.orderBooks productId OrderBook.defaultValue
  ({ s with orderBooks := orderBooks },
    (StdMap.get orderBooks productId OrderBook.defaultValue).GetBidOffer indet)

/-- The body of the method `MarketDataService::AggregateDepth`, with the order book
that its return statement constructs.  The second loop adds the offer quantities to
`_bidHashTable`, as the source does (line 334), after `_bidStackTo` has been built;
`_offerHashTable` is never written.  The source binds `T&` and `vector<Order>&` to the
`const` results of the getters (lines 311, 313, 328), which no compiler accepts once
the method is instantiated (the program never calls it), and returns the book as a
reference to a temporary (line 343); the embedding reads the bindings as the values
referred to and gives the book constructed. -/
def MarketDataService.AggregateDepth (s : MarketDataService) (productId : String) :
    MarketDataService × OrderBook :=
  let orderBooks := StdMap.touch s.orderBooks productId OrderBook.defaultValue
  let product := (StdMap.get orderBooks productId OrderBook.defaultValue).product
  let _bidStackFrom := (StdMap.get orderBooks productId OrderBook.defaultValue).bidStack
  let _bidHashTable : HashTable :=
    _bidStackFrom.foldl (fun table b => table.add b.price b.quantity) []
  let _bidStackTo := _bidHashTable.map (fun p => Order.mk p.1 p.2 PricingSide.BID)
  let _offerStackFrom := (StdMap.get orderBooks productId OrderBook.defaultValue).offerStack
  let _offerHashTable : HashTable := []
  let _bidHashTable : HashTable :=
    _offerStackFrom.foldl (fun table o => table.add o.price o.quantity) _bidHashTable
  let _offerStackTo := _offerHashTable.map (fun p => Order.mk p.1 p.2 PricingSide.OFFER)
  ({ s with orderBooks := orderBooks },
    { product := product, bidStack := _bidStackTo, offerStack := _offerStackTo })

/-! ## algoexecutionservice.hpp -/

/-- The enum `OrderType { FOK, IOC, MARKET, LIMIT, STOP }`. -/
inductive OrderType where
  | FOK
  | IOC
  | MARKET
  | LIMIT
  | STOP
  deriving DecidableEq, Repr

/-- The class `ExecutionOrder<T>`. -/
structure ExecutionOrder where
  product : Product
  side : PricingSide
  orderId : String
  orderType : OrderType
  price : ℚ
  visibleQuantity : Int
  hiddenQuantity : Int
  parentOrderId : String
  isChildOrder : Bool
  deriving DecidableEq, Repr

/-- The class `AlgoExecution<T>`: holds the execution order it creates. -/
structure AlgoExecution where
  executionOrder : ExecutionOrder
  deriving DecidableEq, Repr

/-- The class `AlgoExecutionService<T>`: the store keyed on product id, the
registered listeners, the spread threshold and the call counter. -/
structure AlgoExecutionService where
  algoExecutions : StdMap AlgoExecution
  listeners : List Listener
  spread : ℚ
  count : Int
  deriving DecidableEq, Repr

/-- The constructor `AlgoExecutionService()`. -/
def AlgoExecutionService.new : AlgoExecutionService :=
  { algoExecutions := [], listeners := [], spread := 1 / 128, count := 0 }

/-- The method `AlgoExecutionService::AddListener`. -/
def AlgoExecutionService.AddListener (s : AlgoExecutionService) (l : Listener) :
    AlgoExecutionService :=
  { s with listeners := s.listeners ++ [l] }

/-- Indeterminate contents read by `AlgoExecuteOrder`: what the copy through the
dangling reference returned by `GetBidOffer` reads, and the uninitialised locals
`_price`, `_quantity`, `_side` (as one order). -/
structure Indet where
  bidOffer : BidOffer
  locals : Order
  deriving DecidableEq, Repr

/-- The method `AlgoExecutionService::AlgoExecuteOrder`.  `orderId` is the result of
`GenerateId()`.  Returns the new service, the `_algoExecution` built when the spread
test passes, and the `ProcessAdd` deliveries.  `_bidOffer` is copied through the
dangling reference that `GetBidOffer` returns (line 342), so the prices and quantities
tested and executed are the indeterminate contents `indet.bidOffer`, not those of the
order book.  `count % 2` is the C++ remainder (truncated), so a negative odd counter
matches no `case` and leaves the locals as they were.  The spread test is made on exact
rationals; the rounding of the subtraction in binary64 is not modelled. -/
def AlgoExecutionService.AlgoExecuteOrder (s : AlgoExecutionService) (orderId : String)
    (indet : Indet) (orderBook : OrderBook) :
    AlgoExecutionService × Option AlgoExecution × List (Listener × AlgoExecution) :=
  let product := orderBook.product
  let productId := product.GetProductId
  let bidOffer := orderBook.GetBidOffer indet.bidOffer
  let bidOrder := bidOffer.bidOrder
  let bidPrice := bidOrder.price
  let bidQuantity := bidOrder.quantity
  let offerOrder := bidOffer.offerOrder
  let offerPrice := offerOrder.price
  let offerQuantity := offerOrder.quantity
  if offerPrice - bidPrice ≤ s.spread then
    let chosen : Order :=
      match Int.tmod s.count 2 with
      | 0 => { price := bidPrice, quantity := bidQuantity, side := PricingSide.BID }
      | 1 => { price := offerPrice, quantity := offerQuantity, side := PricingSide.OFFER }
      | _ => indet.locals
    let count := s.count + 1
    let algoExecution : AlgoExecution :=
      { executionOrder :=
          { product := product, side := chosen.side, orderId := orderId,
            orderType := OrderType.MARKET, price := chosen.price,
            visibleQuantity := chosen.quantity, hiddenQuantity := 0, parentOrderId := "",
            isChildOrder := false } }
    let algoExecutions := StdMap.set s.algoExecutions productId algoExecution
    ({ s with algoExecutions := algoExecutions, count := count }, some algoExecution,
      s.listeners.map (fun l => (l, algoExecution)))
  else
    (s, none, [])

/-! ## tradebookingservice.hpp: service and listener -/

/-- The class `TradeBookingService<T>`: the store keyed on trade id and the registered
listeners. -/
structure TradeBookingService where
  trades : StdMap Trade
  listeners : List Listener
  deriving DecidableEq, Repr

/-- The constructor `TradeBookingService()`. -/
def TradeBookingService.new : TradeBookingService :=
  { trades := [], listeners := [] }

/-- The method `TradeBookingService::AddListener`. -/
def TradeBookingService.AddListener (s : TradeBookingService) (l : Listener) :
    TradeBookingService :=
  { s with listeners := s.listeners ++ [l] }

/-- The method `TradeBookingService::OnMessage`: upsert under the trade id, then
`ProcessAdd` on every listener. -/
def TradeBookingService.OnMessage (s : TradeBookingService) (data : Trade) :
    TradeBookingService × List (Listener × Trade) :=
  ({ s with trades := StdMap.set s.trades data.tradeId data },
    s.listeners.map (fun l => (l, data)))

/-- The method `TradeBookingService::BookTrade`: `ProcessAdd` on every listener. -/
def TradeBookingService.BookTrade (s : TradeBookingService) (trade : Trade) :
    TradeBookingService × List (Listener × Trade) :=
  (s, s.listeners.map (fun l => (l, trade)))

/-- The class `TradeBookingToExecutionListener<T>`: its counter (the service it points
to is passed to `ProcessAdd`). -/
structure TradeBookingToExecutionListener where
  count : Int
  deriving DecidableEq, Repr

/-- The constructor `TradeBookingToExecutionListener(_service)`. -/
def TradeBookingToExecutionListener.new : TradeBookingToExecutionListener :=
  { count := 0 }

/-- The method `TradeBookingToExecutionListener::ProcessAdd`, acting on the service it
points to.  Returns the listener, the service, the `_trade` built and the `ProcessAdd`
deliveries of `OnMessage` followed by those of `BookTrade`.  `count % 3` is the C++
remainder (truncated); when no `case` matches, `_book` stays the empty string. -/
def TradeBookingToExecutionListener.ProcessAdd (l : TradeBookingToExecutionListener)
    (service : TradeBookingService) (data : ExecutionOrder) :
    TradeBookingToExecutionListener × TradeBookingService × Trade ×
      List (Listener × Trade) :=
  let count := l.count + 1
  let product := data.product
  let pricingSide := data.side
  let orderId := data.orderId
  let price := data.price
  let visibleQuantity := data.visibleQuantity
  let hiddenQuantity := data.hiddenQuantity
  let side :=
    match pricingSide with
    | PricingSide.BID => Side.SELL
    | PricingSide.OFFER => Side.BUY
  let book :=
    match Int.tmod count 3 with
    | 0 => "TRSY1"
    | 1 => "TRSY2"
    | 2 => "TRSY3"
    | _ => ""
  let quantity := wrapLong (visibleQuantity + hiddenQuantity)
  let trade : Trade :=
    { product := product, tradeId := orderId, price := price, book := book,
      quantity := quantity, side := side }
  let r1 := service.OnMessage trade
  let r2 := r1.1.BookTrade trade
  ({ count := count }, r2.1, trade, r1.2 ++ r2.2)

/-- Successive `ProcessAdd` calls of the listener, one per execution order, in order:
the final listener and service, and the trades built, in order. -/
def TradeBookingToExecutionListener.run (l : TradeBookingToExecutionListener)
    (service : TradeBookingService) :
    List ExecutionOrder → TradeBookingToExecutionListener × TradeBookingService × List Trade
  | [] => (l, service, [])
  | data :: rest =>
    let r := l.ProcessAdd service data
    let rs := TradeBookingToExecutionListener.run r.1 r.2.1 rest
    (rs.1, rs.2.1, r.2.2.1 :: rs.2.2)

/-! ## functions.hpp: PV01 table -/

/-- The function `GetPV01Value`: six successive tests on the CUSIP, 0 when none holds. -/
def GetPV01Value (cusip : String) : ℚ :=
  let pv01 : ℚ := 0
  let pv01 := if cusip = "9128283H1" then 0.01948992 else pv01
  let pv01 := if cusip = "9128283L2" then 0.02865304 else pv01
  let pv01 := if cusip = "912828M80" then 0.04581119 else pv01
  let pv01 := if cusip = "9128283J7" then 0.06127718 else pv01
  let pv01 := if cusip = "9128283F5" then 0.08161449 else pv01
  let pv01 := if cusip = "912810RZ3" then 0.15013155 else pv01
  pv01

/-! ## riskservice.hpp -/

/-- The class `PV01<T>`: a product, a PV01 value and the quantity it is associated
with. -/
structure PV01 (T : Type) where
  product : T
  pv01 : ℚ
  quantity : Int
  deriving DecidableEq, Repr

/-- The value-initialised `PV01<T>()` that `pv01s[key]` creates for an absent key. -/
def PV01.defaultValue : PV01 Product :=
  { product := Product.defaultValue, pv01 := 0, quantity := 0 }

/-- The class `RiskService<T>`: the store keyed on product id and the registered
listeners. -/
structure RiskService where
  pv01s : StdMap (PV01 Product)
  listeners : List Listener
  deriving DecidableEq, Repr

/-- The constructor `RiskService()`. -/
def RiskService.new : RiskService :=
  { pv01s := [], listeners := [] }

/-- The method `RiskService::AddPosition`. -/
def RiskService.AddPosition (s : RiskService) (position : Position) :
    RiskService × List (Listener × PV01 Product) :=
  let product := position.product
  let productId := product.GetProductId
  let pv01Value := GetPV01Value productId
  let quantity := position.GetAggregatePosition
  let pv01 : PV01 Product := { product := product, pv01 := pv01Value, quantity := quantity }
  ({ s with pv01s := StdMap.set s.pv01s productId pv01 },
    s.listeners.map (fun l => (l, pv01)))

/-! ## inquiryservice.hpp -/

/-- The enum `InquiryState`. -/
inductive InquiryState where
  | RECEIVED
  | QUOTED
  | DONE
  | REJECTED
  | CUSTOMER_REJECTED
  deriving DecidableEq, Repr

/-- The class `Inquiry<T>`. -/
structure Inquiry where
  inquiryId : String
  product : Product
  side : Side
  quantity : Int
  price : ℚ
  state : InquiryState
  deriving DecidableEq, Repr

/-- The value-initialised `Inquiry()` that `inquiries[key]` creates for an absent key. -/
def Inquiry.defaultValue : Inquiry :=
  { inquiryId := "", product := Product.defaultValue, side := Side.BUY, quantity := 0,
    price := 0, state := InquiryState.RECEIVED }

/-- The method `Inquiry::SetState`. -/
def Inquiry.SetState (d : Inquiry) (state : InquiryState) : Inquiry :=
  { d with state := state }

/-- The class `InquiryService<T>`: the store keyed on inquiry id and the registered
listeners (the connector is the fixed `InquiryConnector` of the service). -/
structure InquiryService where
  inquiries : StdMap Inquiry
  listeners : List Listener
  deriving DecidableEq, Repr

/-- The constructor `InquiryService()`. -/
def InquiryService.new : InquiryService :=
  { inquiries := [], listeners := [] }

/-- The method `InquiryService::AddListener`. -/
def InquiryService.AddListener (s : InquiryService) (l : Listener) : InquiryService :=
  { s with listeners := s.listeners ++ [l] }

mutual

/-- The method `InquiryService::OnMessage`.  `_data` is passed by reference: the
result holds the new service, `_data` as the call leaves it, and the `ProcessAdd`
deliveries. -/
def InquiryService.OnMessage (s : InquiryService) (data : Inquiry) :
    InquiryService × Inquiry × List (Listener × Inquiry) :=
  match _h : data.state with
  | InquiryState.RECEIVED =>
    let s1 := { s with inquiries := StdMap.set s.inquiries data.inquiryId data }
    InquiryConnector.Publish s1 data
  | InquiryState.QUOTED =>
    let data1 := data.SetState InquiryState.DONE
    let s1 := { s with inquiries := StdMap.set s.inquiries data1.inquiryId data1 }
    (s1, data1, s1.listeners.map (fun l => (l, data1)))
  | _ => (s, data, [])
termination_by 3 * (if data.state = InquiryState.RECEIVED then 1 else 0) + 1

/-- The method `InquiryConnector::Publish`, acting on the service it points to. -/
def InquiryConnector.Publish (s : InquiryService) (data : Inquiry) :
    InquiryService × Inquiry × List (Listener × Inquiry) :=
  if _h : data.state = InquiryState.RECEIVED then
    let data1 := data.SetState InquiryState.QUOTED
    InquiryConnector.Subscribe s data1
  else (s, data, [])
termination_by 3 * (if data.state = InquiryState.RECEIVED then 1 else 0)
decreasing_by simp [Inquiry.SetState, _h]

/-- The method `InquiryConnector::Subscribe(Inquiry<T>&)`: re-submission. -/
def InquiryConnector.Subscribe (s : InquiryService) (data : Inquiry) :
    InquiryService × Inquiry × List (Listener × Inquiry) :=
  InquiryService.OnMessage s data
termination_by 3 * (if data.state = InquiryState.RECEIVED then 1 else 0) + 2

end

/-- The method `Inquiry::SetPrice`: the assignment `price = _price` (the source
declares a `double` result and returns none; no caller reads it). -/
def Inquiry.SetPrice (d : Inquiry) (price : ℚ) : Inquiry :=
  { d with price := price }

/-- The method `InquiryService::SendQuote`.  `_inquiry` is a reference to
`inquiries[_inquiryId]`, so an absent id gets a default entry and `SetPrice` writes
into the store; `_state` is read and not used. -/
def InquiryService.SendQuote (s : InquiryService) (inquiryId : String) (price : ℚ) :
    InquiryService × List (Listener × Inquiry) :=
  let inquiries1 := StdMap.touch s.inquiries inquiryId Inquiry.defaultValue
  let inquiry := StdMap.get inquiries1 inquiryId Inquiry.defaultValue
  let _state := inquiry.state
  let inquiry1 := inquiry.SetPrice price
  let inquiries2 := StdMap.set inquiries1 inquiryId inquiry1
  ({ s with inquiries := inquiries2 }, s.listeners.map (fun l => (l, inquiry1)))

/-- The method `InquiryService::RejectInquiry`.  `_inquiry` is a reference to
`inquiries[_inquiryId]`; no listener is called. -/
def InquiryService.RejectInquiry (s : InquiryService) (inquiryId : String) :
    InquiryService × List (Listener × Inquiry) :=
  let inquiries1 := StdMap.touch s.inquiries inquiryId Inquiry.defaultValue
  let inquiry := StdMap.get inquiries1 inquiryId Inquiry.defaultValue
  let inquiry1 := inquiry.SetState InquiryState.REJECTED
  let inquiries2 := StdMap.set inquiries1 inquiryId inquiry1
  ({ s with inquiries := inquiries2 }, [])

/-- One call on an `InquiryService`. -/
inductive InquiryOp where
  | onMessage (data : Inquiry)
  | sendQuote (inquiryId : String) (price : ℚ)
  | rejectInquiry (inquiryId : String)
  deriving DecidableEq, Repr

/-- The service after one call, with the `ProcessAdd` deliveries of the call. -/
def InquiryService.apply (s : InquiryService) :
    InquiryOp → InquiryService × List (Listener × Inquiry)
  | InquiryOp.onMessage data => ((s.OnMessage data).1, (s.OnMessage data).2.2)
  | InquiryOp.sendQuote inquiryId price => s.SendQuote inquiryId price
  | InquiryOp.rejectInquiry inquiryId => s.RejectInquiry inquiryId

/-- Successive calls on an `InquiryService`, in order: the final service and all
`ProcessAdd` deliveries, in order. -/
def InquiryService.runOps (s : InquiryService) :
    List InquiryOp → InquiryService × List (Listener × Inquiry)
  | [] => (s, [])
  | op :: rest =>
    ((InquiryService.runOps (s.apply op).1 rest).1,
      (s.apply op).2 ++ (InquiryService.runOps (s.apply op).1 rest).2)

/-- No `SendQuote` of the sequence is made on an id whose stored inquiry is in state
REJECTED at the time of the call. -/
def InquiryService.noQuoteOnRejected (s : InquiryService) : List InquiryOp → Prop
  | [] => True
  | op :: rest =>
    (match op with
      | InquiryOp.sendQuote inquiryId _ =>
        (StdMap.get s.inquiries inquiryId Inquiry.defaultValue).state ≠ InquiryState.REJECTED
      | _ => True) ∧
    InquiryService.noQuoteOnRejected (s.apply op).1 rest

/-! ## pricingservice.hpp -/

/-- The class `Price<T>`: a product, a mid price and a bid/offer spread. -/
structure Price where
  product : Product
  mid : ℚ
  bidOfferSpread : ℚ
  deriving DecidableEq, Repr

/-- The value-initialised `Price()` that `prices[key]` creates for an absent key. -/
def Price.defaultValue : Price :=
  { product := Product.defaultValue, mid := 0, bidOfferSpread := 0 }

/-- The class `PricingService<T>`: the store keyed on product id and the registered
listeners. -/
structure PricingService where
  prices : StdMap Price
  listeners : List Listener
  deriving DecidableEq, Repr

/-- The constructor `PricingService()`. -/
def PricingService.new : PricingService :=
  { prices := [], listeners := [] }

/-- The method `PricingService::GetData`: `prices[_key]`, which creates a default
entry for an absent key. -/
def PricingService.GetData (s : PricingService) (key : String) : PricingService × Price :=
  let prices := StdMap.touch s.prices key Price.defaultValue
  ({ s with prices := prices }, StdMap.get prices key Price.defaultValue)

/-- The method `PricingService::OnMessage`: upsert under the product id, then
`ProcessAdd` on every listener. -/
def PricingService.OnMessage (s : PricingService) (data : Price) :
    PricingService × List (Listener × Price) :=
  ({ s with prices := StdMap.set s.prices data.product.GetProductId data },
    s.listeners.map (fun l => (l, data)))

/-- The method `PricingService::AddListener`. -/
def PricingService.AddListener (s : PricingService) (l : Listener) : PricingService :=
  { s with listeners := s.listeners ++ [l] }

/-- The method `PricingService::GetListeners`. -/
def PricingService.GetListeners (s : PricingService) : List Listener := s.listeners

/-! ## marketdataservice.hpp: store and listeners -/

/-- The method `MarketDataService::GetData`: `orderBooks[_key]`. -/
def MarketDataService.GetData (s : MarketDataService) (key : String) :
    MarketDataService × OrderBook :=
  let orderBooks := StdMap.touch s.orderBooks key OrderBook.defaultValue
  ({ s with orderBooks := orderBooks }, StdMap.get orderBooks key OrderBook.defaultValue)

/-- The method `MarketDataService::OnMessage`: upsert under the product id, then
`ProcessAdd` on every listener. -/
def MarketDataService.OnMessage (s : MarketDataService) (data : OrderBook) :
    MarketDataService × List (Listener × OrderBook) :=
  ({ s with orderBooks := StdMap.set s.orderBooks data.product.GetProductId data },
    s.listeners.map (fun l => (l, data)))

/-- The method `MarketDataService::AddListener`. -/
def MarketDataService.AddListener (s : MarketDataService) (l : Listener) :
    MarketDataService :=
  { s with listeners := s.listeners ++ [l] }

/-- The method `MarketDataService::GetListeners`. -/
def MarketDataService.GetListeners (s : MarketDataService) : List Listener := s.listeners

/-! ## tradebookingservice.hpp: store and listeners -/

/-- The value-initialised `Trade()` that `trades[key]` creates for an absent key. -/
def Trade.defaultValue : Trade :=
  { product := Product.defaultValue, tradeId := "", price := 0, book := "", quantity := 0,
    side := Side.BUY }

/-- The method `TradeBookingService::GetData`: `trades[_key]`. -/
def TradeBookingService.GetData (s : TradeBookingService) (key : String) :
    TradeBookingService × Trade :=
  let trades := StdMap.touch s.trades key Trade.defaultValue
  ({ s with trades := trades }, StdMap.get trades key Trade.defaultValue)

/-- The method `TradeBookingService::GetListeners`. -/
def TradeBookingService.GetListeners (s : TradeBookingService) : List Listener := s.listeners

/-! ## executionservice.hpp -/

/-- The value-initialised `ExecutionOrder()` that `executionOrders[key]` creates for
an absent key. -/
def ExecutionOrder.defaultValue : ExecutionOrder :=
  { product := Product.defaultValue, side := PricingSide.BID, orderId := "",
    orderType := OrderType.FOK, price := 0, visibleQuantity := 0, hiddenQuantity := 0,
    parentOrderId := "", isChildOrder := false }

/-- The class `ExecutionService<T>` (documented in the source as keyed on product
identifier): the store and the registered listeners. -/
structure ExecutionService where
  executionOrders : StdMap ExecutionOrder
  listeners : List Listener
  deriving DecidableEq, Repr

/-- The constructor `ExecutionService()`. -/
def ExecutionService.new : ExecutionService :=
  { executionOrders := [], listeners := [] }

/-- The method `ExecutionService::GetData`: `executionOrders[_key]`. -/
def ExecutionService.GetData (s : ExecutionService) (key : String) :
    ExecutionService × ExecutionOrder :=
  let executionOrders := StdMap.touch s.executionOrders key ExecutionOrder.defaultValue
  ({ s with executionOrders := executionOrders },
    StdMap.get executionOrders key ExecutionOrder.defaultValue)

/-- The method `ExecutionService::OnMessage`: upsert under the product id of the order;
no listener is called. -/
def ExecutionService.OnMessage (s : ExecutionService) (data : ExecutionOrder) :
    ExecutionService × List (Listener × ExecutionOrder) :=
  ({ s with executionOrders :=
      StdMap.set s.executionOrders data.product.GetProductId data }, [])

/-- The method `ExecutionService::ExecuteOrder`: upsert under the product id of the
order, then `ProcessAdd` on every listener. -/
def ExecutionService.ExecuteOrder (s : ExecutionService) (executionOrder : ExecutionOrder) :
    ExecutionService × List (Listener × ExecutionOrder) :=
  let productId := executionOrder.product.GetProductId
  ({ s with executionOrders := StdMap.set s.executionOrders productId executionOrder },
    s.listeners.map (fun l => (l, executionOrder)))

/-! ## algostreamingservice.hpp -/

/-- The class `PriceStreamOrder`: price, visible and hidden quantity, side. -/
structure PriceStreamOrder where
  price : ℚ
  visibleQuantity : Int
  hiddenQuantity : Int
  side : PricingSide
  deriving DecidableEq, Repr

/-- The class `PriceStream<T>`: a product with a bid and an offer order. -/
structure PriceStream where
  product : Product
  bidOrder : PriceStreamOrder
  offerOrder : PriceStreamOrder
  deriving DecidableEq, Repr

/-- The class `AlgoStream<T>`: holds the price stream it creates. -/
structure AlgoStream where
  priceStream : PriceStream
  deriving DecidableEq, Repr

/-- The class `AlgoStreamingService<T>`: the store keyed on product id, the registered
listeners and the call counter. -/
structure AlgoStreamingService where
  algoStreams : StdMap AlgoStream
  listeners : List Listener
  count : Int
  deriving DecidableEq, Repr

/-- The constructor `AlgoStreamingService()`. -/
def AlgoStreamingService.new : AlgoStreamingService :=
  { algoStreams := [], listeners := [], count := 0 }

/-- The method `AlgoStreamingService::AddListener`. -/
def AlgoStreamingService.AddListener (s : AlgoStreamingService) (l : Listener) :
    AlgoStreamingService :=
  { s with listeners := s.listeners ++ [l] }

/-- The method `AlgoStreamingService::AlgoPublishPrice`.  Returns the new service, the
`_algoStream` built and the `ProcessAdd` deliveries.  `count % 2` is the C++ remainder
(truncated). -/
def AlgoStreamingService.AlgoPublishPrice (s : AlgoStreamingService) (price : Price) :
    AlgoStreamingService × AlgoStream × List (Listener × AlgoStream) :=
  let product := price.product
  let productId := product.GetProductId
  let mid := price.mid
  let bidOfferSpread := price.bidOfferSpread
  let bidPrice := mid - bidOfferSpread / 2
  let offerPrice := mid + bidOfferSpread / 2
  let visibleQuantity := (Int.tmod s.count 2 + 1) * 10000000
  let hiddenQuantity := visibleQuantity * 2
  let count := s.count + 1
  let bidOrder : PriceStreamOrder :=
    { price := bidPrice, visibleQuantity := visibleQuantity, hiddenQuantity := hiddenQuantity,
      side := PricingSide.BID }
  let offerOrder : PriceStreamOrder :=
    { price := offerPrice, visibleQuantity := visibleQuantity,
      hiddenQuantity := hiddenQuantity, side := PricingSide.OFFER }
  let algoStream : AlgoStream :=
    { priceStream := { product := product, bidOrder := bidOrder, offerOrder := offerOrder } }
  ({ s with algoStreams := StdMap.set s.algoStreams productId algoStream, count := count },
    algoStream, s.listeners.map (fun l => (l, algoStream)))

/-- Successive `AlgoPublishPrice` calls, one per incoming price, in order: the final
service and the algo streams built, in order. -/
def AlgoStreamingService.run (s : AlgoStreamingService) :
    List Price → AlgoStreamingService × List AlgoStream
  | [] => (s, [])
  | price :: rest =>
    let r := s.AlgoPublishPrice price
    let rs := AlgoStreamingService.run r.1 rest
    (rs.1, r.2.1 :: rs.2)

/-! ## guiservice.hpp -/

/-- The class `GUIService<T>`: the store keyed on product id, the registered
listeners, the throttle and the time of the last forwarded update (milliseconds). -/
structure GUIService where
  guis : StdMap Price
  listeners : List Listener
  throttle : Int
  millisec : Int
  deriving DecidableEq, Repr

/-- The constructor `GUIService()`. -/
def GUIService.new : GUIService :=
  { guis := [], listeners := [], throttle := 300, millisec := 0 }

/-- The loop `while (_millisecNow < _millisec) _millisecNow += 1000;` of
`GUIConnector::Publish`: the value of `_millisecNow` when the loop ends. -/
def GUIConnector.advance (millisec millisecNow : Int) : Int :=
  if millisecNow < millisec then GUIConnector.advance millisec (millisecNow + 1000)
  else millisecNow
termination_by (millisec - millisecNow).toNat
decreasing_by omega

/-- The method `GUIConnector::Publish`, acting on the service it points to.
`millisecNow` is the reading of `GetMillisecond()`.  Returns the service and the Price
records whose line is appended to `gui.txt` (none or one). -/
def GUIConnector.Publish (service : GUIService) (millisecNow : Int) (data : Price) :
    GUIService × List Price :=
  let throttle := service.throttle
  let millisec := service.millisec
  let millisecNow := GUIConnector.advance millisec millisecNow
  if millisecNow - millisec ≥ throttle then
    ({ service with millisec := millisecNow }, [data])
  else (service, [])

/-- The method `GUIService::OnMessage`: upsert under the product id, then the
connector's `Publish`. -/
def GUIService.OnMessage (s : GUIService) (millisecNow : Int) (data : Price) :
    GUIService × List Price :=
  GUIConnector.Publish { s with guis := StdMap.set s.guis data.product.GetProductId data }
    millisecNow data

/-- Successive `GUIConnector::Publish` calls, one per (clock reading, Price), in order:
the final service and all records written, in order. -/
def GUIConnector.PublishSeq (service : GUIService) :
    List (Int × Price) → GUIService × List Price
  | [] => (service, [])
  | (millisecNow, data) :: rest =>
    let r := GUIConnector.Publish service millisecNow data
    let rs := GUIConnector.PublishSeq r.1 rest
    (rs.1, r.2 ++ rs.2)

/-! ## functions.hpp: price notation -/

/-- The standard function `std::stod`, for the arguments that well-formed price
notation gives rise to: a non-empty string of decimal digits is converted to its
value.  For any other argument (where `std::stod` parses a sign, a fraction or an
exponent, or throws) the embedding gives `none`. -/
def stod (s : String) : Option ℚ :=
  if s.data ≠ [] ∧ s.data.all Char.isDigit = true then
    some ((s.data.foldl (fun acc c => 10 * acc + (c.toNat - 48)) 0 : Nat) : ℚ)
  else none

/-- State of the scanning loop of `ConvertPrice(string)`: `count` and the three pieces
collected so far. -/
structure ConvertPrice.Scan where
  count : Nat
  stringPrice100 : String
  stringPrice32 : String
  stringPrice8 : String
  deriving DecidableEq, Repr

/-- Body of the scanning loop of `ConvertPrice(string)`, for one character. -/
def ConvertPrice.scanStep (st : ConvertPrice.Scan) (c : Char) : ConvertPrice.Scan :=
  if c = '-' then { st with count := st.count + 1 }
  else
    match st.count with
    | 0 => { st with stringPrice100 := st.stringPrice100.push c }
    | 1 => { st with stringPrice32 := st.stringPrice32.push c, count := st.count + 1 }
    | 2 => { st with stringPrice32 := st.stringPrice32.push c, count := st.count + 1 }
    | 3 => { st with stringPrice8 := st.stringPrice8.push (if c = '+' then '4' else c) }
    | _ => st

/-- The function `ConvertPrice(string)`: fractional notation to number.  The result is
`none` where `std::stod` is not modelled. -/
def ConvertPrice.fromString (stringPrice : String) : Option ℚ :=
  let st := stringPrice.data.foldl ConvertPrice.scanStep
    { count := 0, stringPrice100 := "", stringPrice32 := "", stringPrice8 := "" }
  match stod st.stringPrice100, stod st.stringPrice32, stod st.stringPrice8 with
  | some doublePrice100, some doublePrice32, some doublePrice8 =>
    some (doublePrice100 + doublePrice32 * 1 / 32 + doublePrice8 * 1 / 256)
  | _, _, _ => none

/-- The function `ConvertPrice(double)`: number to fractional notation.  The three
`floor` results are converted to `int` (`toInt`); `to_string` of an `int` is the decimal
notation of Lean's `toString`; `%` is the C++ remainder. -/
def ConvertPrice.fromDouble (doublePrice : ℚ) : String :=
  let doublePrice100 : Int := toInt ⌊doublePrice⌋
  let doublePrice256 : Int := toInt ⌊(doublePrice - (doublePrice100 : ℚ)) * 256⌋
  let doublePrice32 : Int := toInt ⌊(doublePrice256 : ℚ) / 8⌋
  let doublePrice8 : Int := Int.tmod doublePrice256 8
  let stringPrice100 := toString doublePrice100
  let stringPrice32 := toString doublePrice32
  let stringPrice8 := toString doublePrice8
  let stringPrice32 := if doublePrice32 < 10 then "0" ++ stringPrice32 else stringPrice32
  let stringPrice8 := if doublePrice8 = 4 then "+" else stringPrice8
  stringPrice100 ++ "-" ++ stringPrice32 ++ stringPrice8

/-- The canonical fractional notation `W-XYZ` of the spec: `W` in decimal without
leading zeros, the number `X` of 32nds on two digits, and the number `Z` of 256ths as
one digit, written `+` when it is 4. -/
def canonicalFraction (W X Z : Nat) : String :=
  toString W ++ "-" ++ (if X < 10 then "0" ++ toString X else toString X) ++
    (if Z = 4 then "+" else toString Z)

/-! ## Upsert-only `OnMessage` of the downstream services -/

/-- The method `PositionService::OnMessage`: upsert under the product id; no listener
is called. -/
def PositionService.OnMessage (s : PositionService) (data : Position) :
    PositionService × List (Listener × Position) :=
  ({ s with positions := StdMap.set s.positions data.product.GetProductId data }, [])

/-- The method `RiskService::OnMessage`: upsert under the product id; no listener is
called. -/
def RiskService.OnMessage (s : RiskService) (data : PV01 Product) :
    RiskService × List (Listener × PV01 Product) :=
  ({ s with pv01s := StdMap.set s.pv01s data.product.GetProductId data }, [])

/-- The method `AlgoExecutionService::OnMessage`: upsert under the product id of the
execution order held; no listener is called. -/
def AlgoExecutionService.OnMessage (s : AlgoExecutionService) (data : AlgoExecution) :
    AlgoExecutionService × List (Listener × AlgoExecution) :=
  ({ s with algoExecutions :=
      StdMap.set s.algoExecutions data.executionOrder.product.GetProductId data }, [])

/-- The method `AlgoStreamingService::OnMessage`: upsert under the product id of the
price stream held; no listener is called. -/
def AlgoStreamingService.OnMessage (s : AlgoStreamingService) (data : AlgoStream) :
    AlgoStreamingService × List (Listener × AlgoStream) :=
  ({ s with algoStreams :=
      StdMap.set s.algoStreams data.priceStream.product.GetProductId data }, [])

/-! ## streamingservice.hpp -/

/-- The class `StreamingService<T>`: the store keyed on product id and the registered
listeners. -/
structure StreamingService where
  priceStreams : StdMap PriceStream
  listeners : List Listener
  deriving DecidableEq, Repr

/-- The constructor `StreamingService()`. -/
def StreamingService.new : StreamingService :=
  { priceStreams := [], listeners := [] }

/-- The method `StreamingService::OnMessage`: upsert under the product id; no listener
is called. -/
def StreamingService.OnMessage (s : StreamingService) (data : PriceStream) :
    StreamingService × List (Listener × PriceStream) :=
  ({ s with priceStreams := StdMap.set s.priceStreams data.product.GetProductId data }, [])

/-- The method `StreamingService::AddListener`. -/
def StreamingService.AddListener (s : StreamingService) (l : Listener) : StreamingService :=
  { s with listeners := s.listeners ++ [l] }

/-- The method `StreamingService::PublishPrice`: `ProcessAdd` on every listener; the
store is not touched. -/
def StreamingService.PublishPrice (s : StreamingService) (priceStream : PriceStream) :
    StreamingService × List (Listener × PriceStream) :=
  (s, s.listeners.map (fun l => (l, priceStream)))

/-! ## Listeners that link one service to the next -/

/-- The method `PositionToTradeBookingListener::ProcessAdd`, acting on the service it
points to: `service->AddTrade(_data)`. -/
def PositionToTradeBookingListener.ProcessAdd (service : PositionService) (data : Trade) :
    PositionService × List (Listener × Position) :=
  service.AddTrade data

/-- The `ProcessAdd` calls that a list of deliveries makes on one listener object: the
deliveries addressed to `listener` are handed, in order, to its `processAdd`, which acts
on the service `target` the listener points to.  Returns that service after all the
calls and the deliveries it made in turn. -/
def deliver {V S W : Type} (listener : Listener)
    (processAdd : S → V → S × List (Listener × W)) (target : S) :
    List (Listener × V) → S × List (Listener × W)
  | [] => (target, [])
  | d :: rest =>
    if d.1 = listener then
      ((deliver listener processAdd (processAdd target d.2).1 rest).1,
        (processAdd target d.2).2 ++ (deliver listener processAdd (processAdd target d.2).1 rest).2)
    else deliver listener processAdd target rest

/-! ## guiservice.hpp: recorded forward times -/

/-- The function `GetBond`: six successive tests on the CUSIP, the default-constructed
bond when none holds.  Of the attributes of `Bond` (`products.hpp` is not among the
sources) the embedding keeps the product id and the ticker. -/
def GetBond (cusip : String) : Product :=
  let bond := Product.defaultValue
  let bond := if cusip = "9128283H1" then ⟨"9128283H1", "US2Y"⟩ else bond
  let bond := if cusip = "9128283L2" then ⟨"9128283L2", "US3Y"⟩ else bond
  let bond := if cusip = "912828M80" then ⟨"912828M80", "US5Y"⟩ else bond
  let bond := if cusip = "9128283J7" then ⟨"9128283J7", "US7Y"⟩ else bond
  let bond := if cusip = "9128283F5" then ⟨"9128283F5", "US10Y"⟩ else bond
  let bond := if cusip = "912810RZ3" then ⟨"912810RZ3", "US30Y"⟩ else bond
  bond

/-- The standard function `std::stol`, for the arguments that well-formed feeds give
rise to: a non-empty string of decimal digits whose value is a value of `long` is
converted to that value.  For any other argument (where `std::stol` parses white space
or a sign, stops at a trailing character, or throws `invalid_argument` or, for a value
above `LONG_MAX`, `out_of_range`) the embedding gives `none`. -/
def stol (s : String) : Option Int :=
  if s.data ≠ [] ∧ s.data.all Char.isDigit = true ∧
      s.data.foldl (fun acc c => 10 * acc + (c.toNat - 48)) 0 ≤ 9223372036854775807 then
    some ((s.data.foldl (fun acc c => 10 * acc + (c.toNat - 48)) 0 : Nat) : Int)
  else none

/-! ## pricingservice.hpp: connector -/

/-- Body of the loop of `PricingConnector::Subscribe` up to the construction of
`_price`, for one line of the feed given as the `_cells` that the inner `getline` loop
collects.  The result is `none` where the source indexes `_cells` out of range or
`std::stod` is not modelled. -/
def PricingConnector.readLine (cells : List String) : Option Price :=
  match cells with
  | productId :: bidCell :: offerCell :: _ =>
    match ConvertPrice.fromString bidCell, ConvertPrice.fromString offerCell with
    | some bidPrice, some offerPrice =>
      let midPrice := (bidPrice + offerPrice) / 2
      let spread := offerPrice - bidPrice
      let product := GetBond productId
      some { product := product, mid := midPrice, bidOfferSpread := spread }
    | _, _ => none
  | _ => none

/-- The method `PricingConnector::Subscribe`, acting on the service it points to, on a
feed given as the cells of its lines: one `OnMessage` per line.  Returns the service,
the Prices passed to `OnMessage` and the `ProcessAdd` deliveries, in order. -/
def PricingConnector.Subscribe (service : PricingService) :
    List (List String) → Option (PricingService × List Price × List (Listener × Price))
  | [] => some (service, [], [])
  | cells :: rest =>
    match PricingConnector.readLine cells with
    | none => none
    | some price =>
      match PricingConnector.Subscribe (service.OnMessage price).1 rest with
      | none => none
      | some r => some (r.1, price :: r.2.1, (service.OnMessage price).2 ++ r.2.2)

/-! ## marketdataservice.hpp: connector -/

/-- The method `MarketDataService::GetBookDepth`. -/
def MarketDataService.GetBookDepth (s : MarketDataService) : Int := s.bookDepth

/-- Body of the loop of `MarketDataConnector::Subscribe` up to the construction of
`_order`, for one line of the feed given as its `_cells`: the product id and the order.
The result is `none` where the source indexes `_cells` out of range, leaves `_side`
uninitialised (a side cell that is neither `BID` nor `OFFER`), or a standard conversion
is not modelled. -/
def MarketDataConnector.readLine (cells : List String) : Option (String × Order) :=
  match cells with
  | productId :: priceCell :: quantityCell :: sideCell :: _ =>
    match ConvertPrice.fromString priceCell, stol quantityCell with
    | some price, some quantity =>
      if sideCell = "BID" then some (productId, ⟨price, quantity, PricingSide.BID⟩)
      else if sideCell = "OFFER" then some (productId, ⟨price, quantity, PricingSide.OFFER⟩)
      else none
    | _, _ => none
  | _ => none

/-- The variables of the loop of `MarketDataConnector::Subscribe`: the service it
points to, `_count`, the two stacks being filled, and (for the result) the order books
passed to `OnMessage` and the `ProcessAdd` deliveries so far. -/
structure MarketDataConnector.Loop where
  service : MarketDataService
  count : Int
  bidStack : List Order
  offerStack : List Order
  calls : List OrderBook
  deliveries : List (Listener × OrderBook)
  deriving DecidableEq, Repr

/-- Rest of the body of the loop of `MarketDataConnector::Subscribe`, for the product
id and order read from one line.  `_count % _thread` is the C++ remainder. -/
def MarketDataConnector.step (thread : Int) (st : MarketDataConnector.Loop)
    (line : String × Order) : MarketDataConnector.Loop :=
  let bidStack :=
    match line.2.side with
    | PricingSide.BID => st.bidStack ++ [line.2]
    | PricingSide.OFFER => st.bidStack
  let offerStack :=
    match line.2.side with
    | PricingSide.BID => st.offerStack
    | PricingSide.OFFER => st.offerStack ++ [line.2]
  let count := st.count + 1
  if Int.tmod count thread = 0 then
    let orderBook : OrderBook :=
      { product := GetBond line.1, bidStack := bidStack, offerStack := offerStack }
    { service := (st.service.OnMessage orderBook).1, count := count, bidStack := [],
      offerStack := [], calls := st.calls ++ [orderBook],
      deliveries := st.deliveries ++ (st.service.OnMessage orderBook).2 }
  else
    { st with count := count, bidStack := bidStack, offerStack := offerStack }

/-- The loop of `MarketDataConnector::Subscribe` over the lines of the feed. -/
def MarketDataConnector.loop (thread : Int) (st : MarketDataConnector.Loop) :
    List (List String) → Option MarketDataConnector.Loop
  | [] => some st
  | cells :: rest =>
    match MarketDataConnector.readLine cells with
    | none => none
    | some line => MarketDataConnector.loop thread (MarketDataConnector.step thread st line) rest

/-- The method `MarketDataConnector::Subscribe`, acting on the service it points to, on
a feed given as the cells of its lines.  Returns the service, the order books passed to
`OnMessage` and the `ProcessAdd` deliveries, in order.  `_bookDepth * 2` is a
multiplication of `int`s.  (For a book depth of 0 the remainder `_count % _thread` is
undefined in C++.) -/
def MarketDataConnector.Subscribe (service : MarketDataService) (data : List (List String)) :
    Option (MarketDataService × List OrderBook × List (Listener × OrderBook)) :=
  let bookDepth := service.GetBookDepth
  let thread := wrapInt (bookDepth * 2)
  (MarketDataConnector.loop thread
    { service := service, count := 0, bidStack := [], offerStack := [], calls := [],
      deliveries := [] } data).map (fun st => (st.service, st.calls, st.deliveries))

/-- Successive `AddTrade` calls, one per trade of the sequence, in order. -/
def PositionService.AddTradeSeq (s : PositionService) (ts : List Trade) : PositionService :=
  ts.foldl (fun s t => (s.AddTrade t).1) s

/-- The net quantity stored for a product id and a book, when there is one. -/
def PositionService.bookQuantity (s : PositionService) (productId book : String) : Option Int :=
  (StdMap.find s.positions productId).bind (fun p => StdMap.find p.positions book)

/-- The quantity `AddTrade` passes to `AddPosition` for the trade's book:
`_quantity` for a BUY, `-_quantity` (a negation of a `long`) for a SELL. -/
def Trade.signedQuantity (t : Trade) : Int :=
  match t.side with
  | Side.BUY => t.quantity
  | Side.SELL => wrapLong (-t.quantity)

/-- Whether a trade is on the given product id and book. -/
def Trade.hits (t : Trade) (productId book : String) : Bool :=
  decide (t.product.GetProductId = productId ∧ t.book = book)

/-! ## Concrete inputs -/

/-- An inquiry service with two registered listeners and an empty store. -/
def Examples.inquiryService : InquiryService :=
  (InquiryService.new.AddListener 7).AddListener 8

/-- An inquiry as the feed delivers it, in state RECEIVED. -/
def Examples.inquiry : Inquiry :=
  { inquiryId := "I1", product := ⟨"P", "US2Y"⟩, side := Side.BUY, quantity := 5,
    price := 100, state := InquiryState.RECEIVED }

/-- Calls that reject inquiry I1 after its completion and then quote it. -/
def Examples.rejectThenQuote : List InquiryOp :=
  [InquiryOp.onMessage Examples.inquiry, InquiryOp.rejectInquiry "I1",
    InquiryOp.sendQuote "I1" 101]

/-- Calls that quote inquiry I1 after its completion and then reject it. -/
def Examples.quoteThenReject : List InquiryOp :=
  [InquiryOp.onMessage Examples.inquiry, InquiryOp.sendQuote "I1" 101,
    InquiryOp.rejectInquiry "I1"]

/-- An inquiry service whose store holds inquiry I1 in state DONE and inquiry I2 in
state REJECTED. -/
def Examples.settledInquiries : InquiryService :=
  { inquiries := [("I1", ⟨"I1", ⟨"P", "US2Y"⟩, .BUY, 5, 100, .DONE⟩),
      ("I2", ⟨"I2", ⟨"P", "US2Y"⟩, .SELL, 3, 99, .REJECTED⟩)],
    listeners := [7] }

/-- A position store holding positions of two products, with one listener. -/
def Examples.twoProducts : PositionService :=
  { positions := [("P", ⟨⟨"P", "US2Y"⟩, [("TRSY1", 10), ("TRSY2", 3)]⟩),
      ("Q", ⟨⟨"Q", "US3Y"⟩, [("TRSY1", -7)]⟩)],
    listeners := [0] }

/-- An execution order on the BID side with visible quantity 2 and hidden quantity 4. -/
def Examples.executionOrder : ExecutionOrder :=
  { product := ⟨"P", "US2Y"⟩, side := PricingSide.BID, orderId := "ID1",
    orderType := OrderType.MARKET, price := 100, visibleQuantity := 2, hiddenQuantity := 4,
    parentOrderId := "", isChildOrder := false }

/-- A price for product Q. -/
def Examples.price : Price :=
  { product := ⟨"Q", "US3Y"⟩, mid := 99 + 1 / 2, bidOfferSpread := 1 / 64 }

/-- A second execution order on the product of `Examples.executionOrder`, with
another order id. -/
def Examples.executionOrder2 : ExecutionOrder :=
  { product := ⟨"P", "US2Y"⟩, side := PricingSide.OFFER, orderId := "ID2",
    orderType := OrderType.MARKET, price := 101, visibleQuantity := 3, hiddenQuantity := 0,
    parentOrderId := "", isChildOrder := false }

/-- A position store holding two books of one product, with one listener. -/
def Examples.positionService : PositionService :=
  { positions := [("P", ⟨⟨"P", "US2Y"⟩, [("TRSY1", 10), ("TRSY2", 3)]⟩)], listeners := [0] }

/-- A SELL of 4 in book TRSY1. -/
def Examples.trade : Trade :=
  { product := ⟨"P", "US2Y"⟩, tradeId := "T1", price := 100, book := "TRSY1", quantity := 4,
    side := Side.SELL }

/-- A position store holding one book of one product, with one listener. -/
def Examples.oneBookService : PositionService :=
  { positions := [("P", ⟨⟨"P", "US2Y"⟩, [("TRSY1", 10)]⟩)], listeners := [0] }

/-- A BUY of `LONG_MAX` in book TRSY1. -/
def Examples.longMaxBuy : Trade :=
  { product := ⟨"P", "US2Y"⟩, tradeId := "T9", price := 100, book := "TRSY1",
    quantity := 9223372036854775807, side := Side.BUY }

/-- A BUY of `2^62` in book TRSY1. -/
def Examples.bigBuy : Trade :=
  { product := ⟨"P", "US2Y"⟩, tradeId := "T8", price := 100, book := "TRSY1",
    quantity := 4611686018427387904, side := Side.BUY }

/-- An execution order with visible quantity `LONG_MAX` and hidden quantity 1. -/
def Examples.longMaxOrder : ExecutionOrder :=
  { product := ⟨"P", "US2Y"⟩, side := PricingSide.BID, orderId := "ID3",
    orderType := OrderType.MARKET, price := 100, visibleQuantity := 9223372036854775807,
    hiddenQuantity := 1, parentOrderId := "", isChildOrder := false }

/-! ## Proofs: machine integers -/

theorem wrapLong_of_inLong {x : Int} (h : inLong x) : wrapLong x = x := by
  unfold inLong at h
  unfold wrapLong
  omega

theorem inLong_wrapLong (x : Int) : inLong (wrapLong x) := by
  unfold inLong wrapLong
  omega

theorem wrapLong_wrapLong (x : Int) : wrapLong (wrapLong x) = wrapLong x := by
  unfold wrapLong
  omega

theorem wrapLong_add_left (a b : Int) : wrapLong (wrapLong a + b) = wrapLong (a + b) := by
  unfold wrapLong
  omega

theorem wrapLong_add_right (a b : Int) : wrapLong (a + wrapLong b) = wrapLong (a + b) := by
  unfold wrapLong
  omega

theorem wrapLong_zero : wrapLong 0 = 0 := by
  unfold wrapLong
  omega

theorem toInt_of_inInt {x : Int} (h : inInt x) : toInt x = x := by
  unfold toInt
  rw [if_pos h]

/-! ## Proofs: containers -/

namespace StdMap

variable {V : Type}

theorem find_set_self (m : StdMap V) (k : String) (v : V) :
    find (set m k v) k = some v := by
  induction m with
  | nil => simp [set, find]
  | cons e rest ih =>
    obtain ⟨k', v'⟩ := e
    unfold set
    by_cases h1 : k < k'
    · simp [h1, find]
    · by_cases h2 : k = k'
      · simp [h1, h2, find]
      · simp [h1, h2, find, ih]

theorem find_set_ne (m : StdMap V) (k j : String) (v : V) (h : j ≠ k) :
    find (set m k v) j = find m j := by
  induction m with
  | nil => simp [set, find, h]
  | cons e rest ih =>
    obtain ⟨k', v'⟩ := e
    unfold set
    by_cases h1 : k < k'
    · simp [h1, find, h]
    · by_cases h2 : k = k'
      · subst h2
        simp [h1, find, h]
      · simp [h1, h2, find, ih]

theorem get_set_self (m : StdMap V) (k : String) (v d : V) :
    get (set m k v) k d = v := by
  simp [get, find_set_self]

theorem get_set_ne (m : StdMap V) (k j : String) (v d : V) (h : j ≠ k) :
    get (set m k v) j d = get m j d := by
  simp [get, find_set_ne m k j v h]

theorem get_touch_self (m : StdMap V) (k : String) (d : V) :
    get (touch m k d) k d = get m k d := by
  unfold touch
  cases h : find m k with
  | some v => simp
  | none => simp [get, find_set_self, h]

theorem find_touch_ne (m : StdMap V) (k j : String) (d : V) (h : j ≠ k) :
    find (touch m k d) j = find m j := by
  unfold touch
  cases h1 : find m k with
  | some v => simp
  | none => simp [find_set_ne m k j d h]

theorem find_eq_none_of_not_mem (m : StdMap V) (k : String)
    (h : k ∉ m.map Prod.fst) : find m k = none := by
  induction m with
  | nil => simp [find]
  | cons e rest ih =>
    obtain ⟨k', v'⟩ := e
    simp only [List.map_cons, List.mem_cons, not_or] at h
    simp [find, h.1, ih h.2]

theorem mem_of_find_eq_some (m : StdMap V) (k : String) (v : V)
    (h : find m k = some v) : (k, v) ∈ m := by
  induction m with
  | nil => simp [find] at h
  | cons e rest ih =>
    obtain ⟨k', v'⟩ := e
    unfold find at h
    by_cases h1 : k = k'
    · simp [h1] at h
      simp [h1, h]
    · simp [h1] at h
      exact List.mem_cons_of_mem _ (ih h)

theorem WF.nodup {m : StdMap V} (h : WF m) : (m.map Prod.fst).Nodup := by
  unfold WF at h
  exact h.imp (fun hab => ne_of_lt hab)

theorem WF.tail {e : String × V} {m : StdMap V} (h : WF (e :: m)) : WF m := by
  unfold WF at h ⊢
  simp only [List.map_cons, List.pairwise_cons] at h
  exact h.2

theorem mem_keys_set (m : StdMap V) (k j : String) (v : V)
    (h : j ∈ (set m k v).map Prod.fst) : j = k ∨ j ∈ m.map Prod.fst := by
  induction m with
  | nil => simpa [set] using h
  | cons e rest ih =>
    obtain ⟨k', v'⟩ := e
    unfold set at h
    by_cases h1 : k < k'
    · simpa [h1] using h
    · by_cases h2 : k = k'
      · subst h2
        simp only [h1, if_false, if_true, List.map_cons, List.mem_cons] at h
        rcases h with h | h
        · exact Or.inl h
        · exact Or.inr (by simp [h])
      · simp only [h1, h2, if_false, List.map_cons, List.mem_cons] at h
        rcases h with h | h
        · exact Or.inr (by simp [h])
        · rcases ih h with h | h
          · exact Or.inl h
          · exact Or.inr (by simp [h])

theorem mem_set (m : StdMap V) (k : String) (v : V) (e : String × V)
    (h : e ∈ set m k v) : e = (k, v) ∨ e ∈ m := by
  induction m with
  | nil => simpa [set] using h
  | cons e' rest ih =>
    obtain ⟨k', v'⟩ := e'
    unfold set at h
    by_cases h1 : k < k'
    · simpa [h1] using h
    · by_cases h2 : k = k'
      · subst h2
        simp only [h1, if_false, if_true, List.mem_cons] at h
        rcases h with h | h
        · exact Or.inl h
        · exact Or.inr (List.mem_cons_of_mem _ h)
      · simp only [h1, h2, if_false, List.mem_cons] at h
        rcases h with h | h
        · exact Or.inr (by simp [h])
        · rcases ih h with h | h
          · exact Or.inl h
          · exact Or.inr (List.mem_cons_of_mem _ h)

/-- Insert-or-assign keeps the keys strictly increasing. -/
theorem WF.set {m : StdMap V} (h : WF m) (k : String) (v : V) : WF (set m k v) := by
  induction m with
  | nil => simp [StdMap.set, WF]
  | cons e rest ih =>
    obtain ⟨k', v'⟩ := e
    have hrest : WF rest := h.tail
    unfold WF at h
    simp only [List.map_cons, List.pairwise_cons] at h
    unfold StdMap.set
    by_cases h1 : k < k'
    · simp only [h1, if_true]
      unfold WF
      simp only [List.map_cons, List.pairwise_cons, List.mem_cons]
      refine ⟨?_, h.1, h.2⟩
      intro j hj
      rcases hj with hj | hj
      · rw [hj]; exact h1
      · exact lt_trans h1 (h.1 j hj)
    · by_cases h2 : k = k'
      · subst h2
        simp only [h1, if_false, if_true]
        unfold WF
        simp only [List.map_cons, List.pairwise_cons]
        exact h
      · simp only [h1, h2, if_false]
        have h3 : k' < k := lt_of_le_of_ne (not_lt.mp h1) (Ne.symm h2)
        have ih1 := ih hrest
        unfold WF at ih1 ⊢
        simp only [List.map_cons, List.pairwise_cons]
        refine ⟨?_, ih1⟩
        intro j hj
        rcases mem_keys_set rest k j v hj with hj | hj
        · rw [hj]; exact h3
        · exact h.1 j hj

theorem WF.touch {m : StdMap V} (h : WF m) (k : String) (d : V) : WF (touch m k d) := by
  unfold StdMap.touch
  cases StdMap.find m k with
  | some v => exact h
  | none => exact h.set k d

theorem get_touch (m : StdMap V) (k j : String) (d : V) :
    get (touch m k d) j d = get m j d := by
  by_cases h : j = k
  · subst h; exact get_touch_self m j d
  · unfold get; rw [find_touch_ne m k j d h]

theorem find_touch_of_some (m : StdMap V) (k j : String) (d v : V)
    (h : find m j = some v) : find (touch m k d) j = some v := by
  by_cases hj : j = k
  · subst hj
    unfold touch
    rw [h]
    exact h
  · rw [find_touch_ne m k j d hj, h]

/-- A second insert-or-assign under the same key replaces the first. -/
theorem set_set (m : StdMap V) (k : String) (v v2 : V) :
    set (set m k v) k v2 = set m k v2 := by
  induction m with
  | nil => simp [set]
  | cons e rest ih =>
    obtain ⟨k', v'⟩ := e
    by_cases h1 : k < k'
    · simp [set, h1]
    · by_cases h2 : k = k'
      · subst h2
        simp [set]
      · simp [set, h1, h2, ih]

theorem get_eq_default_of_find_none (m : StdMap V) (k : String) (d : V)
    (h : find m k = none) : get m k d = d := by
  simp [get, h]

theorem mem_touch (m : StdMap V) (k : String) (d : V) (e : String × V)
    (h : e ∈ touch m k d) : e = (k, d) ∨ e ∈ m := by
  unfold touch at h
  cases hf : find m k with
  | some v => rw [hf] at h; exact Or.inr h
  | none => rw [hf] at h; exact mem_set m k d e h

end StdMap

/-! ## Proofs: positions -/

theorem Position.find_AddPosition (p : Position) (book j : String) (q : Int) :
    StdMap.find (p.AddPosition book q).positions j =
      if j = book then some (wrapLong (StdMap.get p.positions book 0 + q))
      else StdMap.find p.positions j := by
  unfold Position.AddPosition
  by_cases h : j = book
  · subst h
    simp [StdMap.find_set_self]
  · simp [h, StdMap.find_set_ne _ _ _ _ h]

theorem Position.product_foldl_AddPosition (l : StdMap Int) (acc : Position) :
    (l.foldl (fun acc e => acc.AddPosition e.1 e.2) acc).product = acc.product := by
  induction l generalizing acc with
  | nil => rfl
  | cons e rest ih => simp only [List.foldl_cons, ih]; rfl

/-- Merging a book map with distinct keys into an accumulating position: a
book of the merged map is credited with its quantity, every other book of the
accumulator is kept. -/
theorem Position.find_foldl_AddPosition (l : StdMap Int) (hl : (l.map Prod.fst).Nodup)
    (acc : Position) (j : String) :
    StdMap.find (l.foldl (fun acc e => acc.AddPosition e.1 e.2) acc).positions j =
      match StdMap.find l j with
      | some v => some (wrapLong (StdMap.get acc.positions j 0 + v))
      | none => StdMap.find acc.positions j := by
  induction l generalizing acc with
  | nil => simp [StdMap.find]
  | cons e rest ih =>
    obtain ⟨k, v⟩ := e
    simp only [List.map_cons, List.nodup_cons] at hl
    simp only [List.foldl_cons]
    rw [ih hl.2]
    by_cases h : j = k
    · subst h
      rw [StdMap.find_eq_none_of_not_mem rest j hl.1]
      simp [StdMap.find, Position.find_AddPosition]
    · simp [StdMap.find, h, StdMap.get, Position.find_AddPosition]

/-- The position that `AddTrade` stores for the trade's product. -/
theorem PositionService.find_AddTrade_self (s : PositionService) (t : Trade) :
    StdMap.find (s.AddTrade t).1.positions t.product.GetProductId =
      some ((StdMap.get s.positions t.product.GetProductId Position.defaultValue).positions.foldl
        (fun acc e => acc.AddPosition e.1 e.2)
        (match t.side with
          | Side.BUY => (Position.new t.product).AddPosition t.book t.quantity
          | Side.SELL => (Position.new t.product).AddPosition t.book (wrapLong (-t.quantity)))) := by
  simp only [PositionService.AddTrade, StdMap.find_set_self, StdMap.get_touch_self]

theorem PositionService.WF.get {s : PositionService} (hs : s.WF) (k : String) :
    (StdMap.get s.positions k Position.defaultValue).WF := by
  unfold StdMap.get
  cases h : StdMap.find s.positions k with
  | none => simp [Position.WF, Position.defaultValue, StdMap.WF]
  | some p => exact hs.2 _ (StdMap.mem_of_find_eq_some _ _ _ h)

theorem Position.WF.AddPosition {p : Position} (h : p.WF) (book : String) (q : Int) :
    (p.AddPosition book q).WF := by
  unfold Position.WF Position.AddPosition
  exact StdMap.WF.set h _ _

theorem Position.WF.foldl_AddPosition (l : StdMap Int) {acc : Position} (h : acc.WF) :
    (l.foldl (fun acc e => acc.AddPosition e.1 e.2) acc).WF := by
  induction l generalizing acc with
  | nil => exact h
  | cons e rest ih => exact ih (h.AddPosition e.1 e.2)

theorem PositionService.WF_new : PositionService.new.WF := by
  simp [PositionService.WF, PositionService.new, StdMap.WF]

/-- Well-formedness of the position store is kept by `AddTrade`. -/
theorem PositionService.WF.AddTrade {s : PositionService} (hs : s.WF) (t : Trade) :
    (s.AddTrade t).1.WF := by
  have hnew : (Position.new t.product).WF := by simp [Position.WF, Position.new, StdMap.WF]
  have hdef : Position.defaultValue.WF := by
    simp [Position.WF, Position.defaultValue, StdMap.WF]
  constructor
  · exact (hs.1.touch _ _).set _ _
  · intro e he
    simp only [PositionService.AddTrade] at he
    rcases StdMap.mem_set _ _ _ _ he with he | he
    · rw [he]
      apply Position.WF.foldl_AddPosition
      cases t.side
      · exact hnew.AddPosition _ _
      · exact hnew.AddPosition _ _
    · rcases StdMap.mem_touch _ _ _ _ he with he | he
      · rw [he]; exact hdef
      · exact hs.2 e he

theorem PositionService.WF.AddTradeSeq {s : PositionService} (hs : s.WF) (ts : List Trade) :
    (s.AddTradeSeq ts).WF := by
  induction ts generalizing s with
  | nil => exact hs
  | cons t rest ih => exact ih (hs.AddTrade t)

theorem PositionService.find_AddTrade_ne (s : PositionService) (t : Trade) (productId : String)
    (h : productId ≠ t.product.GetProductId) :
    StdMap.find (s.AddTrade t).1.positions productId = StdMap.find s.positions productId := by
  simp only [PositionService.AddTrade]
  rw [StdMap.find_set_ne _ _ _ _ h, StdMap.find_touch_ne _ _ _ _ h]

/-- Effect of one `AddTrade` on the net quantity stored for a product id and a book:
the book of the trade is credited, the other books of its product are added to 0, the
books of other products are not touched. -/
theorem PositionService.bookQuantity_AddTrade {s : PositionService} (hs : s.WF) (t : Trade)
    (productId book : String) :
    (s.AddTrade t).1.bookQuantity productId book =
      if t.product.GetProductId = productId then
        (if t.book = book then
          some (wrapLong ((s.bookQuantity productId book).getD 0 + t.signedQuantity))
        else (s.bookQuantity productId book).map wrapLong)
      else s.bookQuantity productId book := by
  have hwf := (hs.get t.product.GetProductId).nodup
  unfold PositionService.bookQuantity
  by_cases hp : productId = t.product.GetProductId
  · subst hp
    rw [PositionService.find_AddTrade_self, Option.some_bind,
      Position.find_foldl_AddPosition _ hwf]
    have hold : (StdMap.find s.positions t.product.GetProductId).bind
          (fun p => StdMap.find p.positions book) =
        StdMap.find (StdMap.get s.positions t.product.GetProductId
          Position.defaultValue).positions book := by
      unfold StdMap.get
      cases StdMap.find s.positions t.product.GetProductId <;>
        simp [Position.defaultValue, StdMap.find]
    rw [hold]
    generalize StdMap.get s.positions t.product.GetProductId Position.defaultValue = old
    unfold Trade.signedQuantity
    by_cases hb : book = t.book
    · subst hb
      cases hf : StdMap.find old.positions t.book <;>
        cases t.side <;>
        simp [Position.find_AddPosition, Position.new, StdMap.get, StdMap.find, hf] <;>
        (unfold wrapLong; omega)
    · have hb2 : ¬ t.book = book := fun h => hb h.symm
      cases hf : StdMap.find old.positions book <;>
        cases t.side <;>
        simp [Position.find_AddPosition, Position.new, StdMap.get, StdMap.find, hf, hb, hb2]
  · have hp2 : ¬ t.product.GetProductId = productId := fun h => hp h.symm
    rw [PositionService.find_AddTrade_ne s t productId hp]
    simp [hp2]

/-- Effect of a sequence of `AddTrade` calls on the net quantity stored for a
product id and a book: untouched when no trade is on the product; added to 0 when
trades are on the product and none on the book; otherwise the previous quantity (0 if
absent) plus the signed quantities of the trades on them, wrapped. -/
theorem PositionService.bookQuantity_AddTradeSeq {s : PositionService} (hs : s.WF)
    (ts : List Trade) (productId book : String) :
    (s.AddTradeSeq ts).bookQuantity productId book =
      if (ts.filter (fun t => decide (t.product.GetProductId = productId))) = [] then
        s.bookQuantity productId book
      else if (ts.filter (fun t => t.hits productId book)) = [] then
        (s.bookQuantity productId book).map wrapLong
      else some (wrapLong ((s.bookQuantity productId book).getD 0 +
        ((ts.filter (fun t => t.hits productId book)).map Trade.signedQuantity).sum)) := by
  induction ts generalizing s with
  | nil => simp [PositionService.AddTradeSeq]
  | cons t rest ih =>
    have h1 : PositionService.AddTradeSeq s (t :: rest)
        = PositionService.AddTradeSeq (s.AddTrade t).1 rest := rfl
    rw [h1, ih (hs.AddTrade t), PositionService.bookQuantity_AddTrade hs]
    have hgetD : ∀ o : Option Int, (o.map wrapLong).getD 0 = wrapLong (o.getD 0) := by
      intro o; cases o <;> simp [wrapLong_zero]
    have hmm : ∀ o : Option Int, (o.map wrapLong).map wrapLong = o.map wrapLong := by
      intro o; cases o <;> simp [wrapLong_wrapLong]
    by_cases hp : t.product.GetProductId = productId
    · by_cases hb : t.book = book
      · have hh : t.hits productId book = true := by simp [Trade.hits, hp, hb]
        by_cases hr1 : rest.filter (fun t => decide (t.product.GetProductId = productId)) = []
        · have hr2 : rest.filter (fun t => t.hits productId book) = [] := by
            rw [List.filter_eq_nil_iff] at hr1 ⊢
            intro x hx hxh
            apply hr1 x hx
            simp only [Trade.hits, decide_eq_true_eq] at hxh
            simp [hxh.1]
          simp [hp, hb, hh, hr1, hr2, List.filter_cons]
        · by_cases hr2 : rest.filter (fun t => t.hits productId book) = []
          · simp [hp, hb, hh, hr1, hr2, List.filter_cons, wrapLong_wrapLong]
          · simp [hp, hb, hh, hr1, hr2, List.filter_cons, wrapLong_add_left, add_assoc]
      · have hh : t.hits productId book = false := by simp [Trade.hits, hb]
        by_cases hr1 : rest.filter (fun t => decide (t.product.GetProductId = productId)) = []
        · have hr2 : rest.filter (fun t => t.hits productId book) = [] := by
            rw [List.filter_eq_nil_iff] at hr1 ⊢
            intro x hx hxh
            apply hr1 x hx
            simp only [Trade.hits, decide_eq_true_eq] at hxh
            simp [hxh.1]
          simp [hp, hb, hh, hr1, hr2, List.filter_cons]
        · by_cases hr2 : rest.filter (fun t => t.hits productId book) = []
          · simp [hp, hb, hh, hr1, hr2, List.filter_cons, hmm]
          · simp [hp, hb, hh, hr1, hr2, List.filter_cons, hgetD, wrapLong_add_left]
    · have hh : t.hits productId book = false := by simp [Trade.hits, hp]
      simp [hp, hh, List.filter_cons]

/-! ## Proofs: inquiries -/

/-- `OnMessage` on an inquiry in state RECEIVED: stored as received, then re-submitted
as QUOTED, stored as DONE and delivered once to every listener. -/
theorem InquiryService.OnMessage_RECEIVED (s : InquiryService) (d : Inquiry)
    (h : d.state = InquiryState.RECEIVED) :
    s.OnMessage d =
      (⟨StdMap.set (StdMap.set s.inquiries d.inquiryId d) d.inquiryId
          (d.SetState InquiryState.DONE), s.listeners⟩,
        d.SetState InquiryState.DONE,
        s.listeners.map (fun l => (l, d.SetState InquiryState.DONE))) := by
  rw [InquiryService.OnMessage]
  split
  · rw [InquiryConnector.Publish]
    simp only [h, dite_true]
    rw [InquiryConnector.Subscribe, InquiryService.OnMessage]
    split
    · rename_i h2; simp [Inquiry.SetState] at h2
    · rfl
    · rename_i h2 h3; exact absurd rfl h3
  · rename_i h2; rw [h] at h2; cases h2
  · rename_i h2 h3; exact absurd h h2

/-- `OnMessage` on an inquiry in state QUOTED: stored as DONE and delivered once to
every listener. -/
theorem InquiryService.OnMessage_QUOTED (s : InquiryService) (d : Inquiry)
    (h : d.state = InquiryState.QUOTED) :
    s.OnMessage d =
      (⟨StdMap.set s.inquiries d.inquiryId (d.SetState InquiryState.DONE), s.listeners⟩,
        d.SetState InquiryState.DONE,
        s.listeners.map (fun l => (l, d.SetState InquiryState.DONE))) := by
  rw [InquiryService.OnMessage]
  split
  · rename_i h2; rw [h] at h2; cases h2
  · rfl
  · rename_i h2 h3; exact absurd h h3

/-- `OnMessage` on an inquiry in any other state does nothing. -/
theorem InquiryService.OnMessage_other (s : InquiryService) (d : Inquiry)
    (h1 : d.state ≠ InquiryState.RECEIVED) (h2 : d.state ≠ InquiryState.QUOTED) :
    s.OnMessage d = (s, d, []) := by
  rw [InquiryService.OnMessage]
  split
  · rename_i h3; exact absurd h3 h1
  · rename_i h3; exact absurd h3 h2
  · rfl

/-- Every inquiry that `OnMessage` delivers is in state DONE. -/
theorem InquiryService.OnMessage_delivers_DONE (s : InquiryService) (d : Inquiry)
    (x : Listener × Inquiry) (hx : x ∈ (s.OnMessage d).2.2) :
    x.2.state = InquiryState.DONE := by
  by_cases h1 : d.state = InquiryState.RECEIVED
  · rw [InquiryService.OnMessage_RECEIVED s d h1] at hx
    obtain ⟨l, -, hl⟩ := List.mem_map.mp hx
    rw [← hl]; rfl
  · by_cases h2 : d.state = InquiryState.QUOTED
    · rw [InquiryService.OnMessage_QUOTED s d h2] at hx
      obtain ⟨l, -, hl⟩ := List.mem_map.mp hx
      rw [← hl]; rfl
    · rw [InquiryService.OnMessage_other s d h1 h2] at hx
      simp at hx

/-- `OnMessage` leaves the entries of all other inquiry ids as they are. -/
theorem InquiryService.find_OnMessage_ne (s : InquiryService) (d : Inquiry) (j : String)
    (hj : j ≠ d.inquiryId) :
    StdMap.find (s.OnMessage d).1.inquiries j = StdMap.find s.inquiries j := by
  by_cases h1 : d.state = InquiryState.RECEIVED
  · rw [InquiryService.OnMessage_RECEIVED s d h1]
    simp only
    rw [StdMap.find_set_ne _ _ _ _ hj, StdMap.find_set_ne _ _ _ _ hj]
  · by_cases h2 : d.state = InquiryState.QUOTED
    · rw [InquiryService.OnMessage_QUOTED s d h2]
      simp only
      rw [StdMap.find_set_ne _ _ _ _ hj]
    · rw [InquiryService.OnMessage_other s d h1 h2]

/-- The entry that `SendQuote` leaves under the quoted id. -/
theorem InquiryService.find_SendQuote_self (s : InquiryService) (inquiryId : String)
    (price : ℚ) :
    StdMap.find (s.SendQuote inquiryId price).1.inquiries inquiryId =
      some ((StdMap.get s.inquiries inquiryId Inquiry.defaultValue).SetPrice price) := by
  simp only [InquiryService.SendQuote, StdMap.find_set_self, StdMap.get_touch_self]

theorem InquiryService.find_SendQuote_ne (s : InquiryService) (inquiryId j : String)
    (price : ℚ) (hj : j ≠ inquiryId) :
    StdMap.find (s.SendQuote inquiryId price).1.inquiries j = StdMap.find s.inquiries j := by
  simp only [InquiryService.SendQuote]
  rw [StdMap.find_set_ne _ _ _ _ hj, StdMap.find_touch_ne _ _ _ _ hj]

/-- The entry that `RejectInquiry` leaves under the rejected id. -/
theorem InquiryService.find_RejectInquiry_self (s : InquiryService) (inquiryId : String) :
    StdMap.find (s.RejectInquiry inquiryId).1.inquiries inquiryId =
      some ((StdMap.get s.inquiries inquiryId Inquiry.defaultValue).SetState
        InquiryState.REJECTED) := by
  simp only [InquiryService.RejectInquiry, StdMap.find_set_self, StdMap.get_touch_self]

theorem InquiryService.find_RejectInquiry_ne (s : InquiryService) (inquiryId j : String)
    (hj : j ≠ inquiryId) :
    StdMap.find (s.RejectInquiry inquiryId).1.inquiries j = StdMap.find s.inquiries j := by
  simp only [InquiryService.RejectInquiry]
  rw [StdMap.find_set_ne _ _ _ _ hj, StdMap.find_touch_ne _ _ _ _ hj]

/-! ## Proofs: aggregate position and risk -/

theorem StdMap.not_mem_keys_of_lt {V : Type} {m : StdMap V} {k k2 : String} {v2 : V}
    (h : StdMap.WF ((k2, v2) :: m)) (hk : k < k2) :
    k ∉ ((k2, v2) :: m).map Prod.fst := by
  unfold StdMap.WF at h
  simp only [List.map_cons, List.pairwise_cons] at h
  simp only [List.map_cons, List.mem_cons, not_or]
  refine ⟨ne_of_lt hk, ?_⟩
  intro hmem
  exact lt_irrefl k (lt_trans hk (h.1 k hmem))

/-- Sum of the values of a well-formed map after insert-or-assign. -/
theorem StdMap.sum_set (m : StdMap Int) (h : StdMap.WF m) (k : String) (v : Int) :
    ((StdMap.set m k v).map Prod.snd).sum = (m.map Prod.snd).sum - StdMap.get m k 0 + v := by
  induction m with
  | nil => simp [StdMap.set, StdMap.get, StdMap.find]
  | cons e rest ih =>
    obtain ⟨k2, v2⟩ := e
    unfold StdMap.set
    by_cases h1 : k < k2
    · have hnone := StdMap.find_eq_none_of_not_mem _ k (StdMap.not_mem_keys_of_lt h h1)
      simp [h1, StdMap.get, hnone]
      ring
    · by_cases h2 : k = k2
      · subst h2
        simp [StdMap.get, StdMap.find]
        ring
      · have ih1 := ih h.tail
        simp only [h1, h2, if_false, List.map_cons, List.sum_cons, ih1]
        simp only [StdMap.get, StdMap.find, h2, if_false]
        ring

/-- The aggregate position is the sum of the net quantities of all books, as the
`long` that the running sum wraps to. -/
theorem Position.GetAggregatePosition_eq_sum (p : Position) :
    p.GetAggregatePosition = wrapLong (p.positions.map Prod.snd).sum := by
  have h : ∀ (l : StdMap Int) (a : Int),
      l.foldl (fun aggregatePosition e => wrapLong (aggregatePosition + e.2)) (wrapLong a) =
        wrapLong (a + (l.map Prod.snd).sum) := by
    intro l
    induction l with
    | nil => intro a; simp
    | cons e rest ih =>
      intro a
      simp only [List.foldl_cons, List.map_cons, List.sum_cons]
      rw [wrapLong_add_left, ih, add_assoc]
  have h0 := h p.positions 0
  rw [wrapLong_zero, zero_add] at h0
  exact h0

theorem Position.GetAggregatePosition_AddPosition {p : Position} (h : p.WF) (book : String)
    (q : Int) :
    (p.AddPosition book q).GetAggregatePosition = wrapLong (p.GetAggregatePosition + q) := by
  rw [Position.GetAggregatePosition_eq_sum, Position.GetAggregatePosition_eq_sum]
  have hs : ((p.AddPosition book q).positions.map Prod.snd).sum =
      (p.positions.map Prod.snd).sum - StdMap.get p.positions book 0 +
        wrapLong (StdMap.get p.positions book 0 + q) := StdMap.sum_set p.positions h book _
  rw [hs]
  unfold wrapLong
  omega

theorem Position.GetAggregatePosition_foldl_AddPosition (l : StdMap Int) {acc : Position}
    (h : acc.WF) :
    (l.foldl (fun acc e => acc.AddPosition e.1 e.2) acc).GetAggregatePosition =
      wrapLong (acc.GetAggregatePosition + (l.map Prod.snd).sum) := by
  induction l generalizing acc with
  | nil =>
    simp only [List.foldl_nil, List.map_nil, List.sum_nil, add_zero]
    rw [Position.GetAggregatePosition_eq_sum, wrapLong_wrapLong]
  | cons e rest ih =>
    simp only [List.foldl_cons, List.map_cons, List.sum_cons]
    rw [ih (h.AddPosition e.1 e.2), Position.GetAggregatePosition_AddPosition h,
      wrapLong_add_left, add_assoc]

/-- The table of `GetPV01Value`, as one chain of alternatives. -/
theorem GetPV01Value_table (cusip : String) :
    GetPV01Value cusip =
      if cusip = "9128283H1" then 0.01948992
      else if cusip = "9128283L2" then 0.02865304
      else if cusip = "912828M80" then 0.04581119
      else if cusip = "9128283J7" then 0.06127718
      else if cusip = "9128283F5" then 0.08161449
      else if cusip = "912810RZ3" then 0.15013155
      else 0 := by
  unfold GetPV01Value
  by_cases h1 : cusip = "9128283H1"
  · subst h1; simp
  by_cases h2 : cusip = "9128283L2"
  · subst h2; simp
  by_cases h3 : cusip = "912828M80"
  · subst h3; simp
  by_cases h4 : cusip = "9128283J7"
  · subst h4; simp
  by_cases h5 : cusip = "9128283F5"
  · subst h5; simp
  by_cases h6 : cusip = "912810RZ3"
  · subst h6; simp
  simp [h1, h2, h3, h4, h5, h6]

/-! ## Proofs: trade booking -/

/-- The book that `ProcessAdd` assigns and the counter it leaves, for a counter that
is not negative. -/
theorem TradeBookingToExecutionListener.ProcessAdd_book (l : TradeBookingToExecutionListener)
    (service : TradeBookingService) (data : ExecutionOrder) (hc : 0 ≤ l.count) :
    (l.ProcessAdd service data).2.2.1.book =
      (if (l.count + 1) % 3 = 0 then "TRSY1"
        else if (l.count + 1) % 3 = 1 then "TRSY2" else "TRSY3") ∧
    (l.ProcessAdd service data).1.count = l.count + 1 := by
  have ht : Int.tmod (l.count + 1) 3 = (l.count + 1) % 3 :=
    Int.tmod_eq_emod (by omega) (by decide)
  unfold TradeBookingToExecutionListener.ProcessAdd
  simp only [ht]
  have h3 : (l.count + 1) % 3 = 0 ∨ (l.count + 1) % 3 = 1 ∨ (l.count + 1) % 3 = 2 := by
    omega
  rcases h3 with h | h | h <;> rw [h] <;> simp

/-- Along a run of the listener started with a non-negative counter: one trade per
execution order, and the trade at (0-based) position `k` is booked by the remainder of
counter plus `k` plus 1. -/
theorem TradeBookingToExecutionListener.run_books (l : TradeBookingToExecutionListener)
    (service : TradeBookingService) (orders : List ExecutionOrder) (hc : 0 ≤ l.count) :
    (l.run service orders).2.2.length = orders.length ∧
    (l.run service orders).1.count = l.count + orders.length ∧
    ∀ (k : Nat) (t : Trade), (l.run service orders).2.2[k]? = some t →
      t.book = (if (l.count + k + 1) % 3 = 0 then "TRSY1"
        else if (l.count + k + 1) % 3 = 1 then "TRSY2" else "TRSY3") := by
  induction orders generalizing l service with
  | nil => simp [TradeBookingToExecutionListener.run]
  | cons data rest ih =>
    obtain ⟨hbook, hcount⟩ :=
      TradeBookingToExecutionListener.ProcessAdd_book l service data hc
    obtain ⟨ih1, ih2, ih3⟩ := ih (l.ProcessAdd service data).1
      (l.ProcessAdd service data).2.1 (by rw [hcount]; omega)
    unfold TradeBookingToExecutionListener.run
    simp only [List.length_cons]
    refine ⟨by rw [ih1], ?_, ?_⟩
    · rw [ih2, hcount]; push_cast; ring
    · intro k t hk
      cases k with
      | zero =>
        simp only [List.getElem?_cons_zero, Option.some.injEq] at hk
        rw [← hk, hbook]
        simp
      | succ k =>
        simp only [List.getElem?_cons_succ] at hk
        rw [ih3 k t hk, hcount]
        have : l.count + 1 + (k : Int) + 1 = l.count + ((k + 1 : Nat) : Int) + 1 := by
          push_cast; ring
        rw [this]

/-! ## Proofs: algo streaming -/

/-- The quantities that `AlgoPublishPrice` quotes, for a counter that is not negative. -/
theorem AlgoStreamingService.AlgoPublishPrice_quantities (s : AlgoStreamingService)
    (price : Price) (hc : 0 ≤ s.count) :
    (s.AlgoPublishPrice price).2.1.priceStream.bidOrder.visibleQuantity =
      (if s.count % 2 = 0 then 10000000 else 20000000) ∧
    (s.AlgoPublishPrice price).2.1.priceStream.offerOrder.visibleQuantity =
      (if s.count % 2 = 0 then 10000000 else 20000000) := by
  have ht : Int.tmod s.count 2 = s.count % 2 := Int.tmod_eq_emod hc (by decide)
  unfold AlgoStreamingService.AlgoPublishPrice
  simp only [ht]
  rcases Int.emod_two_eq s.count with h | h <;> rw [h] <;> simp

/-- Along a run of `AlgoPublishPrice` started with a non-negative counter: one algo
stream per price, the counter grows by the number of prices, and the stream at
(0-based) position `k` quotes 10,000,000 exactly when counter plus `k` is even. -/
theorem AlgoStreamingService.run_quantities (s : AlgoStreamingService) (prices : List Price)
    (hc : 0 ≤ s.count) :
    (s.run prices).2.length = prices.length ∧
    (s.run prices).1.count = s.count + prices.length ∧
    ∀ (k : Nat) (a : AlgoStream), (s.run prices).2[k]? = some a →
      a.priceStream.bidOrder.visibleQuantity =
        (if (s.count + k) % 2 = 0 then 10000000 else 20000000) ∧
      a.priceStream.offerOrder.visibleQuantity =
        (if (s.count + k) % 2 = 0 then 10000000 else 20000000) ∧
      a.priceStream.bidOrder.hiddenQuantity = 2 * a.priceStream.bidOrder.visibleQuantity ∧
      a.priceStream.offerOrder.hiddenQuantity =
        2 * a.priceStream.offerOrder.visibleQuantity := by
  induction prices generalizing s with
  | nil => simp [AlgoStreamingService.run]
  | cons price rest ih =>
    obtain ⟨hbid, hoffer⟩ := AlgoStreamingService.AlgoPublishPrice_quantities s price hc
    have hcount : (s.AlgoPublishPrice price).1.count = s.count + 1 := rfl
    obtain ⟨ih1, ih2, ih3⟩ := ih (s.AlgoPublishPrice price).1 (by rw [hcount]; omega)
    unfold AlgoStreamingService.run
    simp only [List.length_cons]
    refine ⟨by rw [ih1], ?_, ?_⟩
    · rw [ih2, hcount]; push_cast; ring
    · intro k a hk
      cases k with
      | zero =>
        simp only [List.getElem?_cons_zero, Option.some.injEq] at hk
        subst hk
        refine ⟨?_, ?_, ?_, ?_⟩
        · rw [hbid]; simp
        · rw [hoffer]; simp
        · simp only [AlgoStreamingService.AlgoPublishPrice]; ring
        · simp only [AlgoStreamingService.AlgoPublishPrice]; ring
      | succ k =>
        simp only [List.getElem?_cons_succ] at hk
        have h := ih3 k a hk
        rw [hcount] at h
        have e : s.count + 1 + (k : Int) = s.count + ((k + 1 : Nat) : Int) := by
          push_cast; ring
        rw [e] at h
        exact h

/-! ## Proofs: GUI throttle -/

/-- A clock reading that is not behind the last forward time is left as it is. -/
theorem GUIConnector.advance_of_le (millisec millisecNow : Int) (h : millisec ≤ millisecNow) :
    GUIConnector.advance millisec millisecNow = millisecNow := by
  rw [GUIConnector.advance]
  simp [not_lt.mpr h]

/-- Readings that are a whole number `k` of steps `D` apart are at least `T` apart
exactly when `k` is at least `T / D` rounded up. -/
theorem GUIConnector.ceil_le_iff (T D k : Nat) (hD : 0 < D) :
    (T + D - 1) / D ≤ k ↔ T ≤ k * D := by
  rw [← Nat.lt_succ_iff, Nat.div_lt_iff_lt_mul hD, Nat.succ_mul]
  omega

/-- The counting identity behind the throttle: one forward now, the next ones every
`c` updates. -/
theorem GUIConnector.count_identity (c n : Nat) (hc : 0 < c) :
    1 + (if n ≤ c - 1 then 0 else (n - (c - 1) - 1) / c + 1) = n / c + 1 := by
  by_cases h : n ≤ c - 1
  · rw [if_pos h, Nat.div_eq_of_lt (by omega)]
  · rw [if_neg h]
    have e : n - (c - 1) - 1 = n - c := by omega
    have e2 : n = (n - c) + c := by omega
    rw [e]
    conv_rhs => rw [e2, Nat.add_div_right _ hc]
    omega

/-- `Publish` on readings of the grid `t0 + i * D`: with the last forward made at index
`b`, the update of index `a` is forwarded exactly when `a - b` is at least `T / D`
rounded up. -/
theorem GUIConnector.Publish_on_grid (s : GUIService) (T D t0 a b : Nat) (p : Price)
    (hD : 0 < D) (hba : b ≤ a) (hthr : s.throttle = T)
    (hms : s.millisec = (t0 : Int) + (b : Int) * (D : Int)) :
    GUIConnector.Publish s ((t0 : Int) + (a : Int) * (D : Int)) p =
      if (T + D - 1) / D ≤ a - b then
        ({ s with millisec := (t0 : Int) + (a : Int) * (D : Int) }, [p])
      else (s, []) := by
  have hle : s.millisec ≤ (t0 : Int) + (a : Int) * (D : Int) := by
    rw [hms]
    have : b * D ≤ a * D := Nat.mul_le_mul_right D hba
    have : ((b * D : Nat) : Int) ≤ ((a * D : Nat) : Int) := by exact_mod_cast this
    push_cast at this
    linarith
  have e : (t0 : Int) + (a : Int) * (D : Int) - s.millisec = (((a - b) * D : Nat) : Int) := by
    rw [hms]
    push_cast [Nat.cast_sub hba]
    ring
  unfold GUIConnector.Publish
  simp only [GUIConnector.advance_of_le _ _ hle, hthr, ge_iff_le, e, Nat.cast_le,
    GUIConnector.ceil_le_iff T D (a - b) hD]

/-- Readings equal to the last forward time are never forwarded by a positive
throttle. -/
theorem GUIConnector.PublishSeq_quiet (s : GUIService) (l : List (Int × Price))
    (hT : 0 < s.throttle) (hl : ∀ x ∈ l, x.1 = s.millisec) :
    (GUIConnector.PublishSeq s l).2 = [] := by
  induction l with
  | nil => rfl
  | cons x rest ih =>
    obtain ⟨now, p⟩ := x
    have hnow : now = s.millisec := hl (now, p) (List.mem_cons_self _ _)
    have hp : GUIConnector.Publish s now p = (s, []) := by
      unfold GUIConnector.Publish
      simp only [hnow, GUIConnector.advance_of_le _ _ (le_refl _), sub_self, ge_iff_le,
        not_le.mpr hT, if_false]
    unfold GUIConnector.PublishSeq
    simp only [hp, List.nil_append]
    exact ih (fun x hx => hl x (List.mem_cons_of_mem _ hx))

/-- Number of updates forwarded among those of indices `a, ..., a + n - 1` of the grid
`t0 + i * D`, the last forward having been made at index `b`. -/
theorem GUIConnector.PublishSeq_grid_count (T D t0 : Nat) (prices : Nat → Price)
    (hD : 0 < D) (hT : 0 < T) (n a b : Nat) (s : GUIService) (hba : b ≤ a)
    (hthr : s.throttle = T) (hms : s.millisec = (t0 : Int) + (b : Int) * (D : Int)) :
    (GUIConnector.PublishSeq s ((List.range' a n).map
      (fun (i : Nat) => ((t0 : Int) + (i : Int) * (D : Int), prices i)))).2.length =
      if n ≤ b + (T + D - 1) / D - a then 0
      else (n - (b + (T + D - 1) / D - a) - 1) / ((T + D - 1) / D) + 1 := by
  have hc : 0 < (T + D - 1) / D := by
    rcases Nat.eq_zero_or_pos ((T + D - 1) / D) with h0 | h0
    · have := (GUIConnector.ceil_le_iff T D 0 hD).mp (by omega)
      omega
    · exact h0
  induction n generalizing a b s with
  | zero => simp [GUIConnector.PublishSeq]
  | succ n ih =>
    rw [List.range'_succ, List.map_cons]
    unfold GUIConnector.PublishSeq
    simp only
    rw [GUIConnector.Publish_on_grid s T D t0 a b (prices a) hD hba hthr hms]
    generalize hcdef : (T + D - 1) / D = c at hc ih ⊢
    by_cases hf : c ≤ a - b
    · simp only [hf, if_true, List.singleton_append, List.length_cons]
      rw [ih (a + 1) a
        ⟨s.guis, s.listeners, s.throttle, (t0 : Int) + (a : Int) * (D : Int)⟩
        (by omega) hthr rfl]
      have e1 : a + c - (a + 1) = c - 1 := by omega
      have e2 : b + c - a = 0 := by omega
      have e3 : ¬ (n + 1 ≤ 0) := by omega
      rw [e1, e2, if_neg e3]
      have := GUIConnector.count_identity c n hc
      simp only [Nat.sub_zero, Nat.add_sub_cancel]
      omega
    · simp only [hf, if_false, List.nil_append]
      rw [ih (a + 1) b s (by omega) hthr hms]
      by_cases hn : n + 1 ≤ b + c - a
      · rw [if_pos hn, if_pos (by omega)]
      · rw [if_neg hn, if_neg (by omega)]
        have e : n - (b + c - (a + 1)) - 1 = n + 1 - (b + c - a) - 1 := by omega
        rw [e]

/-! ## Proofs: price notation -/

/-- Value of a list of decimal digits, as computed by `stod`. -/
theorem stod_mk (l : List Char) (hne : l ≠ []) (hd : ∀ c ∈ l, c.isDigit = true) :
    stod ⟨l⟩ = some ((l.foldl (fun acc c => 10 * acc + (c.toNat - 48)) 0 : Nat) : ℚ) := by
  unfold stod
  rw [if_pos]
  exact ⟨hne, List.all_eq_true.mpr hd⟩

/-- The decimal digit characters: value, class, and difference from the two marks. -/
theorem digitChar_facts (k : Nat) (hk : k < 10) :
    (Nat.digitChar k).toNat - 48 = k ∧ (Nat.digitChar k).isDigit = true ∧
      Nat.digitChar k ≠ '-' ∧ Nat.digitChar k ≠ '+' := by
  interval_cases k <;> decide

/-- The digits produced by `Nat.toDigitsCore` in base ten. -/
theorem toDigitsCore_spec (fuel : Nat) : ∀ (n : Nat) (ds : List Char), n < fuel →
    ∃ X : List Char, Nat.toDigitsCore 10 fuel n ds = X ++ ds ∧ X ≠ [] ∧
      X.foldl (fun acc c => 10 * acc + (c.toNat - 48)) 0 = n ∧
      (∀ c ∈ X, c.isDigit = true ∧ c ≠ '-') := by
  induction fuel with
  | zero => intro n ds h; omega
  | succ fuel ih =>
    intro n ds h
    obtain ⟨hv, hdig, hm, _⟩ := digitChar_facts (n % 10) (Nat.mod_lt _ (by decide))
    unfold Nat.toDigitsCore
    by_cases h0 : n / 10 = 0
    · simp only [h0, if_true]
      refine ⟨[Nat.digitChar (n % 10)], rfl, by simp, ?_, ?_⟩
      · simp only [List.foldl_cons, List.foldl_nil]
        omega
      · intro c hc
        rw [List.mem_singleton] at hc
        subst hc
        exact ⟨hdig, hm⟩
    · simp only [h0, if_false]
      obtain ⟨X, hX, hne, hval, hall⟩ := ih (n / 10) (Nat.digitChar (n % 10) :: ds) (by omega)
      refine ⟨X ++ [Nat.digitChar (n % 10)], ?_, by simp, ?_, ?_⟩
      · rw [hX]; simp
      · rw [List.foldl_append, hval]
        simp only [List.foldl_cons, List.foldl_nil]
        omega
      · intro c hc
        rw [List.mem_append, List.mem_singleton] at hc
        rcases hc with hc | hc
        · exact hall c hc
        · subst hc; exact ⟨hdig, hm⟩

/-- The decimal notation of a natural number: non-empty, digits only, no dash, and of
the right value. -/
theorem toString_nat_spec (n : Nat) :
    (toString n).data ≠ [] ∧
      (toString n).data.foldl (fun acc c => 10 * acc + (c.toNat - 48)) 0 = n ∧
      (∀ c ∈ (toString n).data, c.isDigit = true ∧ c ≠ '-') := by
  obtain ⟨X, hX, hne, hval, hall⟩ := toDigitsCore_spec (n + 1) n [] (Nat.lt_succ_self n)
  have h : (toString n).data = X := by
    show (Nat.toDigits 10 n).asString.data = X
    unfold Nat.toDigits
    rw [hX]; simp [List.asString]
  rw [h]
  exact ⟨hne, hval, hall⟩

/-- Scanning the whole part: characters other than the dash are appended to the first
piece while `count` is 0. -/
theorem ConvertPrice.scan_whole (l : List Char) (hl : ∀ c ∈ l, c ≠ '-') :
    ∀ (a b c : String), l.foldl ConvertPrice.scanStep ⟨0, a, b, c⟩ = ⟨0, ⟨a.data ++ l⟩, b, c⟩ := by
  induction l with
  | nil => intro a b c; simp
  | cons x l ih =>
    intro a b c
    have hx : x ≠ '-' := hl x (List.mem_cons_self _ _)
    rw [List.foldl_cons]
    have hstep : ConvertPrice.scanStep ⟨0, a, b, c⟩ x = ⟨0, a.push x, b, c⟩ := by
      simp [ConvertPrice.scanStep, hx]
    rw [hstep, ih (fun c hc => hl c (List.mem_cons_of_mem _ hc))]
    simp [String.push]

/-- Scanning a string of the shape `whole - x1 x2 z`. -/
theorem ConvertPrice.scan_shape (l : List Char) (hl : ∀ c ∈ l, c ≠ '-') (x1 x2 z : Char)
    (h1 : x1 ≠ '-') (h2 : x2 ≠ '-') (hz : z ≠ '-') :
    (l ++ '-' :: x1 :: x2 :: [z]).foldl ConvertPrice.scanStep ⟨0, "", "", ""⟩ =
      ⟨3, ⟨l⟩, ⟨[x1, x2]⟩, ⟨[if z = '+' then '4' else z]⟩⟩ := by
  rw [List.foldl_append, ConvertPrice.scan_whole l hl]
  simp [ConvertPrice.scanStep, h1, h2, hz, String.push]

/-- The two digits of the 32nds piece. -/
theorem pad32_spec (X : Nat) (hX : X < 32) :
    ∃ x1 x2 : Char, (if X < 10 then "0" ++ toString X else toString X).data = [x1, x2] ∧
      x1.isDigit = true ∧ x2.isDigit = true ∧ x1 ≠ '-' ∧ x2 ≠ '-' ∧
      10 * (10 * 0 + (x1.toNat - 48)) + (x2.toNat - 48) = X := by
  interval_cases X <;> exact ⟨_, _, rfl, by decide, by decide, by decide, by decide, by decide⟩

/-- The character of the 256ths piece. -/
theorem last_spec (Z : Nat) (hZ : Z < 8) :
    ∃ z : Char, (if Z = 4 then "+" else toString Z).data = [z] ∧ z ≠ '-' ∧
      (if z = '+' then '4' else z).isDigit = true ∧
      10 * 0 + ((if z = '+' then '4' else z).toNat - 48) = Z := by
  interval_cases Z <;> exact ⟨_, rfl, by decide, by decide, by decide⟩

/-- Reading a string of the shape `whole - x1 x2 z` whose pieces are digits. -/
theorem ConvertPrice.fromString_shape (W X Z : Nat) (x1 x2 z : Char)
    (h1 : x1 ≠ '-') (h2 : x2 ≠ '-') (hz : z ≠ '-')
    (d1 : x1.isDigit = true) (d2 : x2.isDigit = true)
    (dz : (if z = '+' then '4' else z).isDigit = true)
    (hX : 10 * (10 * 0 + (x1.toNat - 48)) + (x2.toNat - 48) = X)
    (hZ : 10 * 0 + ((if z = '+' then '4' else z).toNat - 48) = Z) :
    ConvertPrice.fromString ⟨(toString W).data ++ '-' :: x1 :: x2 :: [z]⟩ =
      some ((W : ℚ) + (X : ℚ) * 1 / 32 + (Z : ℚ) * 1 / 256) := by
  obtain ⟨hne, hval, hall⟩ := toString_nat_spec W
  unfold ConvertPrice.fromString
  simp only []
  rw [ConvertPrice.scan_shape _ (fun c hc => (hall c hc).2) x1 x2 z h1 h2 hz]
  simp only []
  rw [stod_mk _ hne (fun c hc => (hall c hc).1), hval,
    stod_mk [x1, x2] (by simp) (by intro c hc; simp at hc; rcases hc with rfl | rfl <;> assumption),
    stod_mk [if z = '+' then '4' else z] (by simp) (by intro c hc; simp at hc; subst hc; exact dz)]
  simp only [List.foldl_cons, List.foldl_nil, hX, hZ]

/-- Reading the canonical notation gives `W + X/32 + Z/256`. -/
theorem ConvertPrice.fromString_canonical (W X Z : Nat) (hX : X < 32) (hZ : Z < 8) :
    ConvertPrice.fromString (canonicalFraction W X Z) =
      some ((W : ℚ) + (X : ℚ) * 1 / 32 + (Z : ℚ) * 1 / 256) := by
  obtain ⟨x1, x2, hx, d1, d2, h1, h2, hXv⟩ := pad32_spec X hX
  obtain ⟨z, hzd, hz, dz, hZv⟩ := last_spec Z hZ
  have hc : canonicalFraction W X Z = ⟨(toString W).data ++ '-' :: x1 :: x2 :: [z]⟩ := by
    apply String.ext
    simp only [canonicalFraction, String.data_append, hx, hzd]
    simp
  rw [hc]
  exact ConvertPrice.fromString_shape W X Z x1 x2 z h1 h2 hz d1 d2 dz hXv hZv

/-- Writing a number of the cell `[W + X/32 + Z/256, W + X/32 + Z/256 + 1/256)` gives the
canonical notation of `W`, `X`, `Z`. -/
theorem ConvertPrice.fromDouble_cell (W X Z : Nat) (hW : W < 2147483648) (hX : X < 32)
    (hZ : Z < 8) (p : ℚ)
    (hlo : (W : ℚ) + (X : ℚ) * 1 / 32 + (Z : ℚ) * 1 / 256 ≤ p)
    (hhi : p < (W : ℚ) + (X : ℚ) * 1 / 32 + (Z : ℚ) * 1 / 256 + 1 / 256) :
    ConvertPrice.fromDouble p = canonicalFraction W X Z := by
  have hXq : (X : ℚ) ≤ 31 := by exact_mod_cast Nat.lt_succ_iff.mp hX
  have hZq : (Z : ℚ) ≤ 7 := by exact_mod_cast Nat.lt_succ_iff.mp hZ
  have hX0 : (0 : ℚ) ≤ X := Nat.cast_nonneg _
  have hZ0 : (0 : ℚ) ≤ Z := Nat.cast_nonneg _
  have h100 : ⌊p⌋ = (W : ℤ) := by
    rw [Int.floor_eq_iff]; push_cast; constructor <;> linarith
  have h256 : ⌊(p - ((W : ℤ) : ℚ)) * 256⌋ = ((8 * X + Z : ℕ) : ℤ) := by
    rw [Int.floor_eq_iff]; push_cast; constructor <;> linarith
  have h32 : ⌊(((8 * X + Z : ℕ) : ℤ) : ℚ) / 8⌋ = (X : ℤ) := by
    rw [Int.floor_eq_iff]; push_cast; constructor <;> linarith
  have h8 : Int.tmod ((8 * X + Z : ℕ) : ℤ) 8 = (Z : ℤ) := by
    rw [Int.tmod_eq_emod (by positivity) (by norm_num)]; omega
  have ts : ∀ n : Nat, toString ((n : Nat) : Int) = toString n := fun n => rfl
  have c1 : ((X : ℤ) < 10) ↔ X < 10 := by omega
  have c2 : ((Z : ℤ) = 4) ↔ Z = 4 := by omega
  have t100 : toInt (W : ℤ) = (W : ℤ) := toInt_of_inInt (by unfold inInt; omega)
  have t256 : toInt ((8 * X + Z : ℕ) : ℤ) = ((8 * X + Z : ℕ) : ℤ) :=
    toInt_of_inInt (by unfold inInt; omega)
  have t32 : toInt (X : ℤ) = (X : ℤ) := toInt_of_inInt (by unfold inInt; omega)
  unfold ConvertPrice.fromDouble canonicalFraction
  simp only [h100, t100, h256, t256, h32, t32, h8, ts, c1, c2]

/-- Writing a non-negative number gives the canonical notation of its number of 256ths,
rounded down. -/
theorem ConvertPrice.fromDouble_floor (p : ℚ) (hp : 0 ≤ p) (hp2 : p < 2147483648) :
    ConvertPrice.fromDouble p =
      canonicalFraction (⌊256 * p⌋.toNat / 256) (⌊256 * p⌋.toNat % 256 / 8) (⌊256 * p⌋.toNat % 8) ∧
    ((⌊256 * p⌋.toNat / 256 : Nat) : ℚ) + ((⌊256 * p⌋.toNat % 256 / 8 : Nat) : ℚ) * 1 / 32 +
      ((⌊256 * p⌋.toNat % 8 : Nat) : ℚ) * 1 / 256 = (⌊256 * p⌋ : ℚ) / 256 := by
  have hn : (0 : ℤ) ≤ ⌊256 * p⌋ := Int.floor_nonneg.mpr (by positivity)
  have hcast : ((⌊256 * p⌋.toNat : Nat) : ℚ) = ((⌊256 * p⌋ : ℤ) : ℚ) := by
    have := Int.toNat_of_nonneg hn
    exact_mod_cast this
  have hlo : ((⌊256 * p⌋ : ℤ) : ℚ) ≤ 256 * p := Int.floor_le _
  have hhi : 256 * p < ((⌊256 * p⌋ : ℤ) : ℚ) + 1 := Int.lt_floor_add_one _
  generalize ⌊256 * p⌋.toNat = n at hcast ⊢
  have hnlt : n < 256 * 2147483648 := by
    have h1 : (n : ℚ) < 256 * 2147483648 := by rw [hcast]; linarith
    exact_mod_cast h1
  have hsplit : n = 256 * (n / 256) + 8 * (n % 256 / 8) + n % 8 := by omega
  have hq : ((n / 256 : Nat) : ℚ) + ((n % 256 / 8 : Nat) : ℚ) * 1 / 32 +
      ((n % 8 : Nat) : ℚ) * 1 / 256 = (n : ℚ) / 256 := by
    have h := congrArg (fun k : Nat => (k : ℚ)) hsplit
    simp only [Nat.cast_add, Nat.cast_mul, Nat.cast_ofNat] at h
    linarith
  refine ⟨?_, by rw [hq, hcast]⟩
  apply ConvertPrice.fromDouble_cell _ _ _ (by omega) (by omega) (by omega)
  · rw [hq, hcast]; linarith
  · rw [hq, hcast]; linarith

/-- The last character of the canonical notation. -/
theorem canonicalFraction_getLast (W X Z : Nat) (hZ : Z < 8) :
    (canonicalFraction W X Z).data.getLast? =
      some (if Z = 4 then '+' else Nat.digitChar Z) := by
  have h : (if Z = 4 then "+" else toString Z).data =
      [if Z = 4 then '+' else Nat.digitChar Z] := by
    interval_cases Z <;> rfl
  simp only [canonicalFraction, String.data_append, h]
  exact List.getLast?_concat _

/-- The characters of the canonical notation. -/
theorem canonicalFraction_data (W X Z : Nat) (hX : X < 32) (hZ : Z < 8) :
    (canonicalFraction W X Z).data =
      (toString W).data ++ '-' :: Nat.digitChar (X / 10) :: Nat.digitChar (X % 10) ::
        [if Z = 4 then '+' else Nat.digitChar Z] := by
  have hx : (if X < 10 then "0" ++ toString X else toString X).data =
      [Nat.digitChar (X / 10), Nat.digitChar (X % 10)] := by
    interval_cases X <;> rfl
  have hz : (if Z = 4 then "+" else toString Z).data =
      [if Z = 4 then '+' else Nat.digitChar Z] := by
    interval_cases Z <;> rfl
  simp only [canonicalFraction, String.data_append, hx, hz]
  simp

/-- Reading the notation that ends in the digit 4. -/
theorem ConvertPrice.fromString_digit_four (W X : Nat) (hX : X < 32) :
    ConvertPrice.fromString
        (toString W ++ "-" ++ (if X < 10 then "0" ++ toString X else toString X) ++ "4") =
      some ((W : ℚ) + (X : ℚ) * 1 / 32 + ((4 : Nat) : ℚ) * 1 / 256) := by
  obtain ⟨x1, x2, hx, d1, d2, h1, h2, hXv⟩ := pad32_spec X hX
  have hc : toString W ++ "-" ++ (if X < 10 then "0" ++ toString X else toString X) ++ "4" =
      ⟨(toString W).data ++ '-' :: x1 :: x2 :: ['4']⟩ := by
    apply String.ext
    simp only [String.data_append, hx]
    simp
  rw [hc]
  exact ConvertPrice.fromString_shape W X 4 x1 x2 '4' h1 h2 (by decide) d1 d2 (by decide) hXv
    (by decide)

/-! ## Proofs: GUI clock correction -/

/-- Two `std::map`s with the same lookups are the same map. -/
theorem StdMap.ext_of_WF {V : Type} : ∀ (m1 m2 : StdMap V), StdMap.WF m1 → StdMap.WF m2 →
    (∀ k, StdMap.find m1 k = StdMap.find m2 k) → m1 = m2
  | [], [], _, _, _ => rfl
  | [], (k2, v2) :: r2, _, _, h => by
    have := h k2
    simp [StdMap.find] at this
  | (k1, v1) :: r1, [], _, _, h => by
    have := h k1
    simp [StdMap.find] at this
  | (k1, v1) :: r1, (k2, v2) :: r2, h1, h2, h => by
    have hk1 : k1 ∉ r1.map Prod.fst := by
      have := h1.nodup
      simp only [List.map_cons, List.nodup_cons] at this
      exact this.1
    have hk2 : k2 ∉ r2.map Prod.fst := by
      have := h2.nodup
      simp only [List.map_cons, List.nodup_cons] at this
      exact this.1
    rcases lt_trichotomy k1 k2 with hlt | heq | hgt
    · have := h k1
      rw [StdMap.find_eq_none_of_not_mem _ _ (StdMap.not_mem_keys_of_lt h2 hlt)] at this
      simp [StdMap.find] at this
    · subst heq
      have hv : v1 = v2 := by
        have := h k1
        simpa [StdMap.find] using this
      subst hv
      have hr : r1 = r2 := StdMap.ext_of_WF r1 r2 h1.tail h2.tail (fun k => by
        by_cases hk : k = k1
        · subst hk
          rw [StdMap.find_eq_none_of_not_mem _ _ hk1, StdMap.find_eq_none_of_not_mem _ _ hk2]
        · have := h k
          simpa [StdMap.find, hk] using this)
      rw [hr]
    · have := h k2
      rw [StdMap.find_eq_none_of_not_mem _ _ (StdMap.not_mem_keys_of_lt h1 hgt)] at this
      simp [StdMap.find] at this

/-- Whether a product id has an entry after `AddTrade`. -/
theorem PositionService.isSome_find_AddTrade (s : PositionService) (t : Trade)
    (productId : String) :
    (StdMap.find (s.AddTrade t).1.positions productId).isSome =
      (decide (t.product.GetProductId = productId) ||
        (StdMap.find s.positions productId).isSome) := by
  by_cases h : t.product.GetProductId = productId
  · subst h
    rw [PositionService.find_AddTrade_self]
    simp
  · rw [PositionService.find_AddTrade_ne s t productId (fun h2 => h h2.symm)]
    simp [h]

/-- Whether a product id has an entry after a sequence of `AddTrade` calls. -/
theorem PositionService.isSome_find_AddTradeSeq (ts : List Trade) (s : PositionService)
    (productId : String) :
    (StdMap.find (s.AddTradeSeq ts).positions productId).isSome =
      ((StdMap.find s.positions productId).isSome ||
        ts.any (fun t => decide (t.product.GetProductId = productId))) := by
  induction ts generalizing s with
  | nil => simp [PositionService.AddTradeSeq]
  | cons t ts ih =>
    have hstep : s.AddTradeSeq (t :: ts) = (s.AddTrade t).1.AddTradeSeq ts := rfl
    rw [hstep, ih, PositionService.isSome_find_AddTrade, List.any_cons]
    cases decide (t.product.GetProductId = productId) <;>
      cases (StdMap.find s.positions productId).isSome <;> simp

/-- The book map stored for a product id after a sequence of `AddTrade` calls does not
depend on the order of the calls. -/
theorem PositionService.books_AddTradeSeq_perm {s : PositionService} (hs : s.WF)
    {ts ts2 : List Trade} (hp : ts.Perm ts2) (productId : String) :
    (StdMap.find (s.AddTradeSeq ts).positions productId).map Position.positions =
      (StdMap.find (s.AddTradeSeq ts2).positions productId).map Position.positions := by
  have hA := PositionService.WF.AddTradeSeq hs ts
  have hB := PositionService.WF.AddTradeSeq hs ts2
  have hsome := PositionService.isSome_find_AddTradeSeq ts s productId
  have hsome2 := PositionService.isSome_find_AddTradeSeq ts2 s productId
  have hany : ts.any (fun t => decide (t.product.GetProductId = productId)) =
      ts2.any (fun t => decide (t.product.GetProductId = productId)) := by
    rw [Bool.eq_iff_iff, List.any_eq_true, List.any_eq_true]
    constructor
    · rintro ⟨x, hx, h⟩; exact ⟨x, hp.mem_iff.mp hx, h⟩
    · rintro ⟨x, hx, h⟩; exact ⟨x, hp.mem_iff.mpr hx, h⟩
  have hbq : ∀ book, (s.AddTradeSeq ts).bookQuantity productId book =
      (s.AddTradeSeq ts2).bookQuantity productId book := by
    intro book
    rw [PositionService.bookQuantity_AddTradeSeq hs, PositionService.bookQuantity_AddTradeSeq hs]
    have hf := hp.filter (fun t => t.hits productId book)
    have hnil : (ts.filter (fun t => t.hits productId book)) = [] ↔
        (ts2.filter (fun t => t.hits productId book)) = [] := by
      constructor
      · intro h; rw [h] at hf; exact List.Perm.eq_nil hf.symm
      · intro h; rw [h] at hf; exact List.Perm.eq_nil hf
    have hf1 := hp.filter (fun t => decide (t.product.GetProductId = productId))
    have hnil1 : (ts.filter (fun t => decide (t.product.GetProductId = productId))) = [] ↔
        (ts2.filter (fun t => decide (t.product.GetProductId = productId))) = [] := by
      constructor
      · intro h; rw [h] at hf1; exact List.Perm.eq_nil hf1.symm
      · intro h; rw [h] at hf1; exact List.Perm.eq_nil hf1
    have hsum := (hf.map Trade.signedQuantity).sum_eq
    simp only [hnil, hnil1, hsum]
  rw [hany] at hsome
  cases hfa : StdMap.find (s.AddTradeSeq ts).positions productId with
  | none =>
    rw [hfa] at hsome
    rw [← hsome] at hsome2
    cases hfb : StdMap.find (s.AddTradeSeq ts2).positions productId with
    | none => rfl
    | some pb => rw [hfb] at hsome2; simp at hsome2
  | some pa =>
    rw [hfa] at hsome
    rw [← hsome] at hsome2
    cases hfb : StdMap.find (s.AddTradeSeq ts2).positions productId with
    | none => rw [hfb] at hsome2; simp at hsome2
    | some pb =>
      simp only [Option.map_some', Option.some.injEq]
      apply StdMap.ext_of_WF
      · exact hA.2 _ (StdMap.mem_of_find_eq_some _ _ _ hfa)
      · exact hB.2 _ (StdMap.mem_of_find_eq_some _ _ _ hfb)
      · intro book
        have := hbq book
        simpa [PositionService.bookQuantity, hfa, hfb] using this

/-- The position that `AddTrade` stores carries the trade's product. -/
theorem PositionService.product_find_AddTrade (s : PositionService) (t : Trade) (p : Position)
    (h : StdMap.find (s.AddTrade t).1.positions t.product.GetProductId = some p) :
    p.product = t.product := by
  rw [PositionService.find_AddTrade_self] at h
  simp only [Option.some.injEq] at h
  rw [← h, Position.product_foldl_AddPosition]
  cases t.side <;> rfl

/-- Two `AddTrade` calls in either order give the same store, when the trades carry the
same product whenever they carry the same product id. -/
theorem PositionService.AddTrade_comm {s : PositionService} (hs : s.WF) (t1 t2 : Trade)
    (hprod : t1.product.GetProductId = t2.product.GetProductId → t1.product = t2.product) :
    ((s.AddTrade t1).1.AddTrade t2).1 = ((s.AddTrade t2).1.AddTrade t1).1 := by
  have hA : ((s.AddTrade t1).1.AddTrade t2).1.WF := (hs.AddTrade t1).AddTrade t2
  have hB : ((s.AddTrade t2).1.AddTrade t1).1.WF := (hs.AddTrade t2).AddTrade t1
  have hpos : ((s.AddTrade t1).1.AddTrade t2).1.positions =
      ((s.AddTrade t2).1.AddTrade t1).1.positions := by
    apply StdMap.ext_of_WF _ _ hA.1 hB.1
    intro productId
    have hbooks := PositionService.books_AddTradeSeq_perm hs
      (List.Perm.swap t2 t1 []) productId
    have e1 : s.AddTradeSeq [t1, t2] = ((s.AddTrade t1).1.AddTrade t2).1 := rfl
    have e2 : s.AddTradeSeq [t2, t1] = ((s.AddTrade t2).1.AddTrade t1).1 := rfl
    rw [e1, e2] at hbooks
    have hproduct : ∀ pa pb,
        StdMap.find ((s.AddTrade t1).1.AddTrade t2).1.positions productId = some pa →
        StdMap.find ((s.AddTrade t2).1.AddTrade t1).1.positions productId = some pb →
        pa.product = pb.product := by
      intro pa pb ha hb
      by_cases h2 : productId = t2.product.GetProductId
      · subst h2
        rw [PositionService.product_find_AddTrade _ _ _ ha]
        by_cases h1 : t2.product.GetProductId = t1.product.GetProductId
        · rw [h1] at hb
          rw [PositionService.product_find_AddTrade _ _ _ hb]
          exact (hprod h1.symm).symm
        · rw [PositionService.find_AddTrade_ne _ _ _ h1] at hb
          rw [PositionService.product_find_AddTrade _ _ _ hb]
      · rw [PositionService.find_AddTrade_ne _ _ _ h2] at ha
        by_cases h1 : productId = t1.product.GetProductId
        · subst h1
          rw [PositionService.product_find_AddTrade _ _ _ ha,
            PositionService.product_find_AddTrade _ _ _ hb]
        · rw [PositionService.find_AddTrade_ne _ _ _ h1] at ha
          rw [PositionService.find_AddTrade_ne _ _ _ h1,
            PositionService.find_AddTrade_ne _ _ _ h2, ha] at hb
          simp only [Option.some.injEq] at hb
          rw [hb]
    cases ha : StdMap.find ((s.AddTrade t1).1.AddTrade t2).1.positions productId with
    | none =>
      cases hb : StdMap.find ((s.AddTrade t2).1.AddTrade t1).1.positions productId with
      | none => rfl
      | some pb => rw [ha, hb] at hbooks; simp at hbooks
    | some pa =>
      cases hb : StdMap.find ((s.AddTrade t2).1.AddTrade t1).1.positions productId with
      | none => rw [ha, hb] at hbooks; simp at hbooks
      | some pb =>
        rw [ha, hb] at hbooks
        simp only [Option.map_some', Option.some.injEq] at hbooks
        have hp := hproduct pa pb ha hb
        obtain ⟨pra, posa⟩ := pa
        obtain ⟨prb, posb⟩ := pb
        simp only at hbooks hp
        rw [hbooks, hp]
  have hls : ((s.AddTrade t1).1.AddTrade t2).1.listeners =
      ((s.AddTrade t2).1.AddTrade t1).1.listeners := rfl
  generalize ((s.AddTrade t1).1.AddTrade t2).1 = a at hpos hls
  generalize ((s.AddTrade t2).1.AddTrade t1).1 = b at hpos hls
  obtain ⟨pa, la⟩ := a
  obtain ⟨pb, lb⟩ := b
  simp only at hpos hls
  rw [hpos, hls]

/-! ## Proofs: feeds -/

/-- The book quantities of a stored position are values of `long`. -/
theorem PositionService.InRange.inLong_of_find {s : PositionService} (hr : s.InRange) (k b : String)
    (v : Int)
    (h : StdMap.find (StdMap.get s.positions k Position.defaultValue).positions b = some v) :
    inLong v := by
  unfold StdMap.get at h
  cases hf : StdMap.find s.positions k with
  | none =>
    rw [hf] at h
    simp [Position.defaultValue, StdMap.find] at h
  | some p =>
    rw [hf] at h
    exact hr _ (StdMap.mem_of_find_eq_some _ _ _ hf) _ (StdMap.mem_of_find_eq_some _ _ _ h)

/-- What `ConvertPrice(double)` writes for `2^31`, the least number whose `floor` is not
a value of `int`. -/
theorem ConvertPrice.fromDouble_two_pow_31 :
    ConvertPrice.fromDouble 2147483648 = "-2147483648-0-2684354560" := by
  have h100 : ⌊(2147483648 : ℚ)⌋ = 2147483648 := by
    rw [Int.floor_eq_iff]; norm_num
  have t100 : toInt 2147483648 = -2147483648 := by decide
  have h256 : ⌊((2147483648 : ℚ) - ((-2147483648 : ℤ) : ℚ)) * 256⌋ = 1099511627776 := by
    rw [Int.floor_eq_iff]; norm_num
  have t256 : toInt 1099511627776 = -2147483648 := by decide
  have h32 : ⌊(((-2147483648 : ℤ)) : ℚ) / 8⌋ = -268435456 := by
    rw [Int.floor_eq_iff]; norm_num
  have t32 : toInt (-268435456) = -268435456 := by decide
  unfold ConvertPrice.fromDouble
  simp only [h100, t100, h256, t256, h32, t32]
  decide

/-! ## Claims -/

/-- C4 (code at the failing input). `AggregateDepth` on a stored book whose raw offer
stack holds one offer of quantity 5 at price 101 returns an empty offer stack: the raw
offer quantities sum to 5, the aggregated ones to 0, and price 101 has no entry. -/
theorem C4_AggregateDepth_offer_stack_lost :
    (MarketDataService.AggregateDepth
      { orderBooks := [("P", ⟨⟨"P", "US2Y"⟩, [⟨99, 1, .BID⟩], [⟨101, 5, .OFFER⟩]⟩)],
        listeners := [], bookDepth := 5 } "P").2.offerStack = [] ∧
    ((MarketDataService.AggregateDepth
      { orderBooks := [("P", ⟨⟨"P", "US2Y"⟩, [⟨99, 1, .BID⟩], [⟨101, 5, .OFFER⟩]⟩)],
        listeners := [], bookDepth := 5 } "P").2.offerStack.map Order.quantity).sum = 0 ∧
    ((StdMap.get
      ([("P", ⟨⟨"P", "US2Y"⟩, [⟨99, 1, .BID⟩], [⟨101, 5, .OFFER⟩]⟩)] : StdMap OrderBook)
      "P" OrderBook.defaultValue).offerStack.map Order.quantity).sum = 5 := by
  refine ⟨?_, ?_, ?_⟩
  · simp [MarketDataService.AggregateDepth]
  · simp [MarketDataService.AggregateDepth]
  · simp [StdMap.get, StdMap.find]

/-- C10. Inquiry lifecycle: for every inquiry submitted to `InquiryService::OnMessage` in
state RECEIVED or in state QUOTED, when the call returns the `ProcessAdd` deliveries
are exactly one per registered listener, each carrying the submitted inquiry in state
DONE (inquiry id, product, side, quantity and price as submitted); the store entry
under the inquiry id is that DONE inquiry, and the listeners are as before. -/
theorem C10_inquiry_lifecycle (s : InquiryService) (d : Inquiry)
    (h : d.state = InquiryState.RECEIVED ∨ d.state = InquiryState.QUOTED) :
    ∃ done : Inquiry,
      done.state = InquiryState.DONE ∧ done.inquiryId = d.inquiryId ∧
      done.product = d.product ∧ done.side = d.side ∧ done.quantity = d.quantity ∧
      done.price = d.price ∧
      (s.OnMessage d).2.2 = s.listeners.map (fun l => (l, done)) ∧
      StdMap.find (s.OnMessage d).1.inquiries d.inquiryId = some done ∧
      (s.OnMessage d).1.listeners = s.listeners := by
  refine ⟨d.SetState InquiryState.DONE, rfl, rfl, rfl, rfl, rfl, rfl, ?_⟩
  rcases h with h | h
  · rw [InquiryService.OnMessage]
    split
    · rw [InquiryConnector.Publish]
      simp only [h, dite_true]
      rw [InquiryConnector.Subscribe, InquiryService.OnMessage]
      split
      · rename_i h2; simp [Inquiry.SetState] at h2
      · refine ⟨rfl, ?_, rfl⟩
        exact StdMap.find_set_self _ _ _
      · rename_i h2 h3; exact absurd rfl h3
    · rename_i h2; rw [h] at h2; cases h2
    · rename_i h2 h3; exact absurd h h2
  · rw [InquiryService.OnMessage]
    split
    · rename_i h2; rw [h] at h2; cases h2
    · refine ⟨rfl, ?_, rfl⟩
      exact StdMap.find_set_self _ _ _
    · rename_i h2 h3; exact absurd h h3

/-- Witness of C10: an inquiry in state RECEIVED, two listeners registered. -/
theorem C10_inquiry_lifecycle_witness :
    (Examples.inquiry.state = InquiryState.RECEIVED ∨
      Examples.inquiry.state = InquiryState.QUOTED) ∧
    ∃ done : Inquiry,
      done.state = InquiryState.DONE ∧ done.inquiryId = Examples.inquiry.inquiryId ∧
      done.product = Examples.inquiry.product ∧ done.side = Examples.inquiry.side ∧
      done.quantity = Examples.inquiry.quantity ∧ done.price = Examples.inquiry.price ∧
      (Examples.inquiryService.OnMessage Examples.inquiry).2.2 =
        Examples.inquiryService.listeners.map (fun l => (l, done)) ∧
      StdMap.find (Examples.inquiryService.OnMessage Examples.inquiry).1.inquiries
        Examples.inquiry.inquiryId = some done ∧
      (Examples.inquiryService.OnMessage Examples.inquiry).1.listeners =
        Examples.inquiryService.listeners :=
  ⟨Or.inl rfl, C10_inquiry_lifecycle Examples.inquiryService Examples.inquiry (Or.inl rfl)⟩

/-- C11 (counterexample). With two listeners registered on an empty service, the calls
`OnMessage(I1 in RECEIVED)`, `RejectInquiry(I1)`, `SendQuote(I1, 101)` end with
`SendQuote` delivering inquiry I1 in state REJECTED to a listener. -/
theorem C11_SendQuote_announces_rejected :
    ∃ x ∈ (Examples.inquiryService.runOps Examples.rejectThenQuote).2,
      x.2.state = InquiryState.REJECTED := by
  refine ⟨(7, ⟨"I1", ⟨"P", "US2Y"⟩, .BUY, 5, 101, .REJECTED⟩), ?_, rfl⟩
  have h1 := InquiryService.OnMessage_RECEIVED Examples.inquiryService Examples.inquiry rfl
  simp only [Examples.rejectThenQuote, InquiryService.runOps, InquiryService.apply, h1]
  simp [InquiryService.RejectInquiry, InquiryService.SendQuote, StdMap.touch, StdMap.get,
    StdMap.find, StdMap.set, Inquiry.SetState, Inquiry.SetPrice, Examples.inquiry,
    Examples.inquiryService, InquiryService.AddListener, InquiryService.new]

/-- C11 (amended). For every finite sequence of `OnMessage`, `SendQuote` and
`RejectInquiry` calls, from any service state, in which no `SendQuote` is made on an id
whose stored inquiry is REJECTED at that time, no `ProcessAdd` delivered to a listener
carries an inquiry in state REJECTED: `OnMessage` only delivers DONE inquiries,
`RejectInquiry` delivers nothing, `SendQuote` delivers the stored inquiry in its
current state. -/
theorem C11_no_rejected_without_quote_on_rejected (s : InquiryService)
    (ops : List InquiryOp) (h : s.noQuoteOnRejected ops) :
    ∀ x ∈ (s.runOps ops).2, x.2.state ≠ InquiryState.REJECTED := by
  induction ops generalizing s with
  | nil => intro x hx; simp [InquiryService.runOps] at hx
  | cons op rest ih =>
    obtain ⟨hop, hrest⟩ := h
    intro x hx
    simp only [InquiryService.runOps] at hx
    rcases List.mem_append.mp hx with hx | hx
    · cases op with
      | onMessage data =>
        simp only [InquiryService.apply] at hx
        rw [InquiryService.OnMessage_delivers_DONE s data x hx]
        decide
      | sendQuote inquiryId price =>
        simp only [InquiryService.apply, InquiryService.SendQuote] at hx
        obtain ⟨l, -, hl⟩ := List.mem_map.mp hx
        rw [← hl]
        simp only [Inquiry.SetPrice, StdMap.get_touch_self]
        exact hop
      | rejectInquiry inquiryId =>
        simp [InquiryService.apply, InquiryService.RejectInquiry] at hx
    · exact ih _ hrest x hx

/-- Witness of C11 (amended): inquiry I1 completed, quoted while DONE, then rejected. -/
theorem C11_no_rejected_without_quote_on_rejected_witness :
    Examples.inquiryService.noQuoteOnRejected Examples.quoteThenReject ∧
    ∀ x ∈ (Examples.inquiryService.runOps Examples.quoteThenReject).2,
      x.2.state ≠ InquiryState.REJECTED :=
  have h : Examples.inquiryService.noQuoteOnRejected Examples.quoteThenReject := by
    have h1 := InquiryService.OnMessage_RECEIVED Examples.inquiryService Examples.inquiry rfl
    simp only [Examples.quoteThenReject, InquiryService.noQuoteOnRejected,
      InquiryService.apply, h1]
    simp [StdMap.get, StdMap.find, StdMap.set, Inquiry.SetState, Examples.inquiry,
      Examples.inquiryService, InquiryService.AddListener, InquiryService.new]
  ⟨h, C11_no_rejected_without_quote_on_rejected Examples.inquiryService
    Examples.quoteThenReject h⟩

/-- C12 (counterexample). In a store holding inquiry I1 in state DONE and inquiry I2 in
state REJECTED, `RejectInquiry(I1)` leaves I1 in state REJECTED, and `OnMessage` with a
RECEIVED inquiry carrying id I2 leaves I2 in state DONE. -/
theorem C12_terminal_state_overwritten :
    (StdMap.find Examples.settledInquiries.inquiries "I1").map Inquiry.state
      = some InquiryState.DONE ∧
    (StdMap.find (Examples.settledInquiries.apply
      (InquiryOp.rejectInquiry "I1")).1.inquiries "I1").map Inquiry.state
      = some InquiryState.REJECTED ∧
    (StdMap.find Examples.settledInquiries.inquiries "I2").map Inquiry.state
      = some InquiryState.REJECTED ∧
    (StdMap.find (Examples.settledInquiries.apply
      (InquiryOp.onMessage ⟨"I2", ⟨"P", "US2Y"⟩, .SELL, 3, 99, .RECEIVED⟩)).1.inquiries
      "I2").map Inquiry.state = some InquiryState.DONE := by
  refine ⟨?_, ?_, ?_, ?_⟩
  · simp [Examples.settledInquiries, StdMap.find]
  · simp only [InquiryService.apply, InquiryService.find_RejectInquiry_self]
    rfl
  · simp [Examples.settledInquiries, StdMap.find]
  · simp only [InquiryService.apply]
    rw [InquiryService.OnMessage_RECEIVED _ _ rfl]
    simp only [StdMap.find_set_self]
    rfl

/-- C12 (amended). For every stored inquiry (in particular one in state DONE, REJECTED
or CUSTOMER_REJECTED) the stored state of its id is left unchanged by `SendQuote` with
any id, by `RejectInquiry` of another id or of an id already REJECTED, and by
`OnMessage` with an inquiry that carries another id, or is itself in state DONE,
REJECTED or CUSTOMER_REJECTED, or arrives when the stored state is DONE. -/
theorem C12_stored_state_kept (s : InquiryService) (inquiryId : String) (d : Inquiry)
    (op : InquiryOp) (hd : StdMap.find s.inquiries inquiryId = some d)
    (hop : match op with
      | InquiryOp.onMessage data =>
        data.inquiryId ≠ inquiryId ∨
        (data.state ≠ InquiryState.RECEIVED ∧ data.state ≠ InquiryState.QUOTED) ∨
        d.state = InquiryState.DONE
      | InquiryOp.sendQuote _ _ => True
      | InquiryOp.rejectInquiry j => j ≠ inquiryId ∨ d.state = InquiryState.REJECTED) :
    ∃ d2 : Inquiry, StdMap.find (s.apply op).1.inquiries inquiryId = some d2 ∧
      d2.state = d.state := by
  have hget : StdMap.get s.inquiries inquiryId Inquiry.defaultValue = d := by
    simp [StdMap.get, hd]
  cases op with
  | onMessage data =>
    simp only [InquiryService.apply]
    by_cases hid : data.inquiryId = inquiryId
    · subst hid
      simp only [ne_eq, not_true_eq_false, false_or] at hop
      by_cases h1 : data.state = InquiryState.RECEIVED
      · have hdone := hop.resolve_left (fun h => h.1 h1)
        rw [InquiryService.OnMessage_RECEIVED s data h1]
        exact ⟨_, StdMap.find_set_self _ _ _, hdone.symm⟩
      · by_cases h2 : data.state = InquiryState.QUOTED
        · have hdone := hop.resolve_left (fun h => h.2 h2)
          rw [InquiryService.OnMessage_QUOTED s data h2]
          exact ⟨_, StdMap.find_set_self _ _ _, hdone.symm⟩
        · rw [InquiryService.OnMessage_other s data h1 h2]
          exact ⟨d, hd, rfl⟩
    · rw [InquiryService.find_OnMessage_ne s data inquiryId (fun h => hid h.symm)]
      exact ⟨d, hd, rfl⟩
  | sendQuote j price =>
    simp only [InquiryService.apply]
    by_cases hj : inquiryId = j
    · subst hj
      rw [InquiryService.find_SendQuote_self, hget]
      exact ⟨_, rfl, rfl⟩
    · rw [InquiryService.find_SendQuote_ne s j inquiryId price hj]
      exact ⟨d, hd, rfl⟩
  | rejectInquiry j =>
    simp only [InquiryService.apply]
    by_cases hj : inquiryId = j
    · subst hj
      simp only [ne_eq, not_true_eq_false, false_or] at hop
      rw [InquiryService.find_RejectInquiry_self, hget]
      exact ⟨_, rfl, hop.symm⟩
    · rw [InquiryService.find_RejectInquiry_ne s j inquiryId hj]
      exact ⟨d, hd, rfl⟩

/-- Witness of C12 (amended): inquiry I1 stored in state DONE, then `SendQuote(I1, 101)`. -/
theorem C12_stored_state_kept_witness :
    StdMap.find Examples.settledInquiries.inquiries "I1"
      = some ⟨"I1", ⟨"P", "US2Y"⟩, .BUY, 5, 100, .DONE⟩ ∧
    ∃ d2 : Inquiry,
      StdMap.find (Examples.settledInquiries.apply
        (InquiryOp.sendQuote "I1" 101)).1.inquiries "I1" = some d2 ∧
      d2.state = InquiryState.DONE :=
  have hd : StdMap.find Examples.settledInquiries.inquiries "I1"
      = some ⟨"I1", ⟨"P", "US2Y"⟩, .BUY, 5, 100, .DONE⟩ := by
    simp [Examples.settledInquiries, StdMap.find]
  ⟨hd, C12_stored_state_kept Examples.settledInquiries "I1" _
    (InquiryOp.sendQuote "I1" 101) hd trivial⟩

/-- C13. `InquiryService::SendQuote(id, price)`: for every store, id and price, after the
call the inquiry stored under id has the given price and the state, inquiry id,
product, side and quantity it had before (those of the default entry that
`inquiries[id]` creates when id was absent); every registered listener receives
`ProcessAdd` exactly once with that inquiry; no other stored inquiry is modified and
the listeners are as before. -/
theorem C13_SendQuote_sets_price_and_notifies (s : InquiryService) (inquiryId : String)
    (price : ℚ) :
    ∃ q : Inquiry,
      StdMap.find (s.SendQuote inquiryId price).1.inquiries inquiryId = some q ∧
      q.price = price ∧
      q.state = (StdMap.get s.inquiries inquiryId Inquiry.defaultValue).state ∧
      q.inquiryId = (StdMap.get s.inquiries inquiryId Inquiry.defaultValue).inquiryId ∧
      q.product = (StdMap.get s.inquiries inquiryId Inquiry.defaultValue).product ∧
      q.side = (StdMap.get s.inquiries inquiryId Inquiry.defaultValue).side ∧
      q.quantity = (StdMap.get s.inquiries inquiryId Inquiry.defaultValue).quantity ∧
      (s.SendQuote inquiryId price).2 = s.listeners.map (fun l => (l, q)) ∧
      (∀ j : String, j ≠ inquiryId →
        StdMap.find (s.SendQuote inquiryId price).1.inquiries j = StdMap.find s.inquiries j) ∧
      (s.SendQuote inquiryId price).1.listeners = s.listeners := by
  refine ⟨_, InquiryService.find_SendQuote_self s inquiryId price, rfl, rfl, rfl, rfl, rfl,
    rfl, ?_, ?_, rfl⟩
  · simp only [InquiryService.SendQuote, StdMap.get_touch_self]
  · intro j hj
    exact InquiryService.find_SendQuote_ne s inquiryId j price hj

/-- C14. `InquiryService::RejectInquiry(id)`: for every store and id, after the call the
inquiry stored under id is in state REJECTED with the price, product, side, quantity
and inquiry id it had before (those of the default entry when id was absent); no
listener's `ProcessAdd` is invoked; every other stored inquiry is unchanged and the
listeners are as before. -/
theorem C14_RejectInquiry_is_silent (s : InquiryService) (inquiryId : String) :
    ∃ q : Inquiry,
      StdMap.find (s.RejectInquiry inquiryId).1.inquiries inquiryId = some q ∧
      q.state = InquiryState.REJECTED ∧
      q.price = (StdMap.get s.inquiries inquiryId Inquiry.defaultValue).price ∧
      q.product = (StdMap.get s.inquiries inquiryId Inquiry.defaultValue).product ∧
      q.side = (StdMap.get s.inquiries inquiryId Inquiry.defaultValue).side ∧
      q.quantity = (StdMap.get s.inquiries inquiryId Inquiry.defaultValue).quantity ∧
      q.inquiryId = (StdMap.get s.inquiries inquiryId Inquiry.defaultValue).inquiryId ∧
      (s.RejectInquiry inquiryId).2 = [] ∧
      (∀ j : String, j ≠ inquiryId →
        StdMap.find (s.RejectInquiry inquiryId).1.inquiries j = StdMap.find s.inquiries j) ∧
      (s.RejectInquiry inquiryId).1.listeners = s.listeners := by
  refine ⟨_, InquiryService.find_RejectInquiry_self s inquiryId, rfl, rfl, rfl, rfl, rfl,
    rfl, rfl, ?_, rfl⟩
  intro j hj
  exact InquiryService.find_RejectInquiry_ne s inquiryId j hj

/-- C16. Trade-booking book round-robin: a freshly constructed listener books the
`k`-th execution order it processes (`k` counted from 1) to TRSY1 when `k mod 3 = 0`,
to TRSY2 when `k mod 3 = 1` and to TRSY3 when `k mod 3 = 2`; it builds one trade per
execution order, and any three consecutive trades use each of the three books exactly
once. -/
theorem C16_book_round_robin (service : TradeBookingService) (orders : List ExecutionOrder) :
    (∀ (k : Nat) (t : Trade), 1 ≤ k →
      (TradeBookingToExecutionListener.new.run service orders).2.2[k - 1]? = some t →
      t.book = (if k % 3 = 0 then "TRSY1" else if k % 3 = 1 then "TRSY2" else "TRSY3")) ∧
    (TradeBookingToExecutionListener.new.run service orders).2.2.length = orders.length ∧
    (∀ (k : Nat) (t1 t2 t3 : Trade),
      (TradeBookingToExecutionListener.new.run service orders).2.2[k]? = some t1 →
      (TradeBookingToExecutionListener.new.run service orders).2.2[k + 1]? = some t2 →
      (TradeBookingToExecutionListener.new.run service orders).2.2[k + 2]? = some t3 →
      [t1.book, t2.book, t3.book].Perm ["TRSY1", "TRSY2", "TRSY3"]) := by
  obtain ⟨h1, -, h3⟩ := TradeBookingToExecutionListener.run_books
    TradeBookingToExecutionListener.new service orders (le_refl _)
  have h0 : TradeBookingToExecutionListener.new.count = 0 := rfl
  have hbook : ∀ (k : Nat) (t : Trade),
      (TradeBookingToExecutionListener.new.run service orders).2.2[k]? = some t →
      t.book = (if (k + 1) % 3 = 0 then "TRSY1"
        else if (k + 1) % 3 = 1 then "TRSY2" else "TRSY3") := by
    intro k t hk
    rw [h3 k t hk, h0]
    have e : ((0 : Int) + (k : Int) + 1) % 3 = (((k + 1) % 3 : Nat) : Int) := by omega
    rw [e]
    have h3 : (k + 1) % 3 = 0 ∨ (k + 1) % 3 = 1 ∨ (k + 1) % 3 = 2 := by omega
    rcases h3 with h | h | h <;> simp [h]
  refine ⟨?_, h1, ?_⟩
  · intro k t hk ht
    have := hbook (k - 1) t ht
    rw [Nat.sub_add_cancel hk] at this
    exact this
  · intro k t1 t2 t3 ht1 ht2 ht3
    rw [hbook k t1 ht1, hbook (k + 1) t2 ht2, hbook (k + 2) t3 ht3]
    have h3 : k % 3 = 0 ∨ k % 3 = 1 ∨ k % 3 = 2 := by omega
    rcases h3 with h | h | h
    · have a : (k + 1) % 3 = 1 := by omega
      have b : (k + 1 + 1) % 3 = 2 := by omega
      have c : (k + 2 + 1) % 3 = 0 := by omega
      simp only [a, b, c]
      decide
    · have a : (k + 1) % 3 = 2 := by omega
      have b : (k + 1 + 1) % 3 = 0 := by omega
      have c : (k + 2 + 1) % 3 = 1 := by omega
      simp only [a, b, c]
      decide
    · have a : (k + 1) % 3 = 0 := by omega
      have b : (k + 1 + 1) % 3 = 1 := by omega
      have c : (k + 2 + 1) % 3 = 2 := by omega
      simp only [a, b, c]
      decide

/-- Witness of C16: the third of three execution orders is booked to TRSY1. -/
theorem C16_book_round_robin_witness :
    1 ≤ 3 ∧
    (TradeBookingToExecutionListener.new.run TradeBookingService.new
      [Examples.executionOrder, Examples.executionOrder, Examples.executionOrder]).2.2[3 - 1]?
      = some ⟨⟨"P", "US2Y"⟩, "ID1", 100, "TRSY1", 6, Side.SELL⟩ ∧
    (⟨⟨"P", "US2Y"⟩, "ID1", 100, "TRSY1", 6, Side.SELL⟩ : Trade).book =
      (if 3 % 3 = 0 then "TRSY1" else if 3 % 3 = 1 then "TRSY2" else "TRSY3") :=
  have h1 : 1 ≤ 3 := by decide
  have h2 : (TradeBookingToExecutionListener.new.run TradeBookingService.new
      [Examples.executionOrder, Examples.executionOrder, Examples.executionOrder]).2.2[3 - 1]?
      = some ⟨⟨"P", "US2Y"⟩, "ID1", 100, "TRSY1", 6, Side.SELL⟩ := by
    have hw : wrapLong 6 = 6 := by decide
    simp [TradeBookingToExecutionListener.run, TradeBookingToExecutionListener.ProcessAdd,
      TradeBookingToExecutionListener.new, Examples.executionOrder, Int.tmod, hw]
  ⟨h1, h2, (C16_book_round_robin TradeBookingService.new
    [Examples.executionOrder, Examples.executionOrder, Examples.executionOrder]).1 3 _ h1 h2⟩

/-- C18. `RiskService::AddPosition(position)`: for every risk store and position, the
record stored afterwards under the position's product id has the position's product,
quantity equal to its aggregate position and per-unit pv01 equal to the value of the
fixed table for that id (0 for an id not in the table); every registered listener
receives `ProcessAdd` exactly once with that record; records of other product ids are
unchanged. -/
theorem C18_AddPosition_stores_risk (s : RiskService) (position : Position) :
    StdMap.find (s.AddPosition position).1.pv01s position.product.GetProductId =
      some ⟨position.product, GetPV01Value position.product.GetProductId,
        position.GetAggregatePosition⟩ ∧
    GetPV01Value position.product.GetProductId =
      (if position.product.GetProductId = "9128283H1" then 0.01948992
      else if position.product.GetProductId = "9128283L2" then 0.02865304
      else if position.product.GetProductId = "912828M80" then 0.04581119
      else if position.product.GetProductId = "9128283J7" then 0.06127718
      else if position.product.GetProductId = "9128283F5" then 0.08161449
      else if position.product.GetProductId = "912810RZ3" then 0.15013155
      else 0) ∧
    (s.AddPosition position).2 = s.listeners.map (fun l =>
      (l, ⟨position.product, GetPV01Value position.product.GetProductId,
        position.GetAggregatePosition⟩)) ∧
    (∀ j : String, j ≠ position.product.GetProductId →
      StdMap.find (s.AddPosition position).1.pv01s j = StdMap.find s.pv01s j) ∧
    (s.AddPosition position).1.listeners = s.listeners := by
  refine ⟨?_, GetPV01Value_table _, rfl, ?_, rfl⟩
  · simp only [RiskService.AddPosition]
    exact StdMap.find_set_self _ _ _
  · intro j hj
    simp only [RiskService.AddPosition]
    exact StdMap.find_set_ne _ _ _ _ hj

/-- C20. No cross-product netting: for every store and every trade `t` on product `P`,
`AddTrade(t)` leaves the entry of every product id other than `P`'s as it was: the same
stored Position, with every book and quantity, or no entry as before. -/
theorem C20_no_cross_product_netting (s : PositionService) (t : Trade) (productId : String)
    (h : productId ≠ t.product.GetProductId) :
    StdMap.find (s.AddTrade t).1.positions productId = StdMap.find s.positions productId :=
  PositionService.find_AddTrade_ne s t productId h

/-- Witness of C20: a trade on product P against a store that also holds product Q. -/
theorem C20_no_cross_product_netting_witness :
    "Q" ≠ Examples.trade.product.GetProductId ∧
    StdMap.find (Examples.twoProducts.AddTrade Examples.trade).1.positions "Q" =
      StdMap.find Examples.twoProducts.positions "Q" :=
  have h : "Q" ≠ Examples.trade.product.GetProductId := by decide
  ⟨h, C20_no_cross_product_netting Examples.twoProducts Examples.trade "Q" h⟩

/-- C21. `AlgoStreamingService::AlgoPublishPrice`, prices: for every service state and
every Price with mid `m` and bid/offer spread `s` (exact rationals), the price stream
built has the Price's product, a bid order of side BID at `m - s/2` and an offer order
of side OFFER at `m + s/2`; hence offer price minus bid price is `s` and their average
is `m`.  That stream is stored under the product id and delivered once to every
listener. -/
theorem C21_AlgoPublishPrice_prices (s : AlgoStreamingService) (price : Price) :
    (s.AlgoPublishPrice price).2.1.priceStream.product = price.product ∧
    (s.AlgoPublishPrice price).2.1.priceStream.bidOrder.side = PricingSide.BID ∧
    (s.AlgoPublishPrice price).2.1.priceStream.bidOrder.price =
      price.mid - price.bidOfferSpread / 2 ∧
    (s.AlgoPublishPrice price).2.1.priceStream.offerOrder.side = PricingSide.OFFER ∧
    (s.AlgoPublishPrice price).2.1.priceStream.offerOrder.price =
      price.mid + price.bidOfferSpread / 2 ∧
    (s.AlgoPublishPrice price).2.1.priceStream.offerOrder.price -
      (s.AlgoPublishPrice price).2.1.priceStream.bidOrder.price = price.bidOfferSpread ∧
    ((s.AlgoPublishPrice price).2.1.priceStream.bidOrder.price +
      (s.AlgoPublishPrice price).2.1.priceStream.offerOrder.price) / 2 = price.mid ∧
    StdMap.find (s.AlgoPublishPrice price).1.algoStreams price.product.GetProductId =
      some (s.AlgoPublishPrice price).2.1 ∧
    (s.AlgoPublishPrice price).2.2 =
      s.listeners.map (fun l => (l, (s.AlgoPublishPrice price).2.1)) := by
  refine ⟨rfl, rfl, rfl, rfl, rfl, ?_, ?_, ?_, rfl⟩
  · simp only [AlgoStreamingService.AlgoPublishPrice]; ring
  · simp only [AlgoStreamingService.AlgoPublishPrice]; ring
  · simp only [AlgoStreamingService.AlgoPublishPrice]
    exact StdMap.find_set_self _ _ _

/-- C22. `AlgoStreamingService` quantity alternation: a service as the constructor
leaves it (empty store, counter 0; any listeners `ls`) fed any sequence of Prices
builds one stream per Price; the `n`-th one (`n` counted from 1) has bid and offer
orders of visible quantity 10,000,000 when `n` is odd and 20,000,000 when `n` is even,
each with hidden quantity exactly twice its visible quantity; every call, in any
state, increases the counter by exactly 1. -/
theorem C22_quantity_alternation (ls : List Listener) (prices : List Price) :
    (∀ (n : Nat) (a : AlgoStream), 1 ≤ n →
      (AlgoStreamingService.run ⟨[], ls, 0⟩ prices).2[n - 1]? = some a →
      a.priceStream.bidOrder.visibleQuantity =
        (if n % 2 = 1 then 10000000 else 20000000) ∧
      a.priceStream.offerOrder.visibleQuantity =
        (if n % 2 = 1 then 10000000 else 20000000) ∧
      a.priceStream.bidOrder.hiddenQuantity = 2 * a.priceStream.bidOrder.visibleQuantity ∧
      a.priceStream.offerOrder.hiddenQuantity =
        2 * a.priceStream.offerOrder.visibleQuantity) ∧
    (AlgoStreamingService.run ⟨[], ls, 0⟩ prices).2.length = prices.length ∧
    (AlgoStreamingService.run ⟨[], ls, 0⟩ prices).1.count = prices.length ∧
    (∀ (s : AlgoStreamingService) (price : Price),
      (s.AlgoPublishPrice price).1.count = s.count + 1) := by
  obtain ⟨h1, h2, h3⟩ := AlgoStreamingService.run_quantities ⟨[], ls, 0⟩ prices (le_refl _)
  refine ⟨?_, h1, ?_, fun _ _ => rfl⟩
  · intro n a hn ha
    obtain ⟨hb, ho, hhb, hho⟩ := h3 (n - 1) a ha
    refine ⟨?_, ?_, hhb, hho⟩
    · rw [hb]
      by_cases hodd : n % 2 = 1
      · have : ((0 : Int) + ((n - 1 : Nat) : Int)) % 2 = 0 := by omega
        simp only [this, hodd, if_true]
      · have : ¬ ((0 : Int) + ((n - 1 : Nat) : Int)) % 2 = 0 := by omega
        simp only [this, hodd, if_false]
    · rw [ho]
      by_cases hodd : n % 2 = 1
      · have : ((0 : Int) + ((n - 1 : Nat) : Int)) % 2 = 0 := by omega
        simp only [this, hodd, if_true]
      · have : ¬ ((0 : Int) + ((n - 1 : Nat) : Int)) % 2 = 0 := by omega
        simp only [this, hodd, if_false]
  · rw [h2]; simp

/-- Witness of C22: the second of two prices is quoted with visible quantity
20,000,000. -/
theorem C22_quantity_alternation_witness :
    1 ≤ 2 ∧
    (AlgoStreamingService.run ⟨[], [1], 0⟩ [Examples.price, Examples.price]).2[2 - 1]?
      = some ⟨⟨⟨"Q", "US3Y"⟩, ⟨99 + 1 / 2 - 1 / 64 / 2, 20000000, 40000000, .BID⟩,
          ⟨99 + 1 / 2 + 1 / 64 / 2, 20000000, 40000000, .OFFER⟩⟩⟩ ∧
    (20000000 : Int) = (if 2 % 2 = 1 then 10000000 else 20000000) :=
  have h1 : 1 ≤ 2 := by decide
  have h2 : (AlgoStreamingService.run ⟨[], [1], 0⟩ [Examples.price, Examples.price]).2[2 - 1]?
      = some ⟨⟨⟨"Q", "US3Y"⟩, ⟨99 + 1 / 2 - 1 / 64 / 2, 20000000, 40000000, .BID⟩,
          ⟨99 + 1 / 2 + 1 / 64 / 2, 20000000, 40000000, .OFFER⟩⟩⟩ := by
    simp [AlgoStreamingService.run, AlgoStreamingService.AlgoPublishPrice, Examples.price,
      Int.tmod]
  ⟨h1, h2, ((C22_quantity_alternation [1] [Examples.price, Examples.price]).1 2 _ h1 h2).1⟩

/-- C27. Keyed store, last write wins, for `PricingService` and `MarketDataService`
(key: product id) and `TradeBookingService` (key: trade id): after `OnMessage(v)`,
`GetData` of `v`'s key returns `v` and `GetData` of any other key returns what it
returned before; a later `OnMessage` with the same key leaves the store as if only the
later value had been written (no history), so writing `v` twice equals writing it
once; `GetData` of a key without entry returns the default-constructed value. -/
theorem C27_keyed_store_last_write_wins :
    (∀ (s : PricingService) (v v2 : Price) (k : String),
      ((s.OnMessage v).1.GetData v.product.GetProductId).2 = v ∧
      (k ≠ v.product.GetProductId → ((s.OnMessage v).1.GetData k).2 = (s.GetData k).2) ∧
      (v2.product.GetProductId = v.product.GetProductId →
        ((s.OnMessage v).1.OnMessage v2).1 = (s.OnMessage v2).1) ∧
      ((s.OnMessage v).1.OnMessage v).1 = (s.OnMessage v).1 ∧
      (StdMap.find s.prices k = none → (s.GetData k).2 = Price.defaultValue)) ∧
    (∀ (s : MarketDataService) (v v2 : OrderBook) (k : String),
      ((s.OnMessage v).1.GetData v.product.GetProductId).2 = v ∧
      (k ≠ v.product.GetProductId → ((s.OnMessage v).1.GetData k).2 = (s.GetData k).2) ∧
      (v2.product.GetProductId = v.product.GetProductId →
        ((s.OnMessage v).1.OnMessage v2).1 = (s.OnMessage v2).1) ∧
      ((s.OnMessage v).1.OnMessage v).1 = (s.OnMessage v).1 ∧
      (StdMap.find s.orderBooks k = none → (s.GetData k).2 = OrderBook.defaultValue)) ∧
    (∀ (s : TradeBookingService) (v v2 : Trade) (k : String),
      ((s.OnMessage v).1.GetData v.tradeId).2 = v ∧
      (k ≠ v.tradeId → ((s.OnMessage v).1.GetData k).2 = (s.GetData k).2) ∧
      (v2.tradeId = v.tradeId →
        ((s.OnMessage v).1.OnMessage v2).1 = (s.OnMessage v2).1) ∧
      ((s.OnMessage v).1.OnMessage v).1 = (s.OnMessage v).1 ∧
      (StdMap.find s.trades k = none → (s.GetData k).2 = Trade.defaultValue)) := by
  refine ⟨?_, ?_, ?_⟩
  · intro s v v2 k
    refine ⟨?_, ?_, ?_, ?_, ?_⟩
    · simp only [PricingService.GetData, PricingService.OnMessage, StdMap.get_touch,
        StdMap.get_set_self]
    · intro hk
      simp only [PricingService.GetData, PricingService.OnMessage, StdMap.get_touch,
        StdMap.get_set_ne _ _ _ _ _ hk]
    · intro hk
      simp only [PricingService.OnMessage, hk, StdMap.set_set]
    · simp only [PricingService.OnMessage, StdMap.set_set]
    · intro hk
      simp only [PricingService.GetData, StdMap.get_touch]
      exact StdMap.get_eq_default_of_find_none _ _ _ hk
  · intro s v v2 k
    refine ⟨?_, ?_, ?_, ?_, ?_⟩
    · simp only [MarketDataService.GetData, MarketDataService.OnMessage, StdMap.get_touch,
        StdMap.get_set_self]
    · intro hk
      simp only [MarketDataService.GetData, MarketDataService.OnMessage, StdMap.get_touch,
        StdMap.get_set_ne _ _ _ _ _ hk]
    · intro hk
      simp only [MarketDataService.OnMessage, hk, StdMap.set_set]
    · simp only [MarketDataService.OnMessage, StdMap.set_set]
    · intro hk
      simp only [MarketDataService.GetData, StdMap.get_touch]
      exact StdMap.get_eq_default_of_find_none _ _ _ hk
  · intro s v v2 k
    refine ⟨?_, ?_, ?_, ?_, ?_⟩
    · simp only [TradeBookingService.GetData, TradeBookingService.OnMessage,
        StdMap.get_touch, StdMap.get_set_self]
    · intro hk
      simp only [TradeBookingService.GetData, TradeBookingService.OnMessage,
        StdMap.get_touch, StdMap.get_set_ne _ _ _ _ _ hk]
    · intro hk
      simp only [TradeBookingService.OnMessage, hk, StdMap.set_set]
    · simp only [TradeBookingService.OnMessage, StdMap.set_set]
    · intro hk
      simp only [TradeBookingService.GetData, StdMap.get_touch]
      exact StdMap.get_eq_default_of_find_none _ _ _ hk

/-- C28. Listener registration and delivery order, for `PricingService`,
`MarketDataService` and `TradeBookingService`: `AddListener(l)` leaves `GetListeners`
equal to the previous list followed by `l` (the store untouched); `OnMessage(v)` makes
exactly one `ProcessAdd(v)` delivery per registered listener, in registration order;
and no other operation (`OnMessage`, `GetData`, `GetBestBidOffer`, `AggregateDepth`,
`BookTrade`) changes the listener list. -/
theorem C28_listeners_append_only_and_ordered :
    (∀ (s : PricingService) (l : Listener) (v : Price) (k : String),
      (s.AddListener l).GetListeners = s.GetListeners ++ [l] ∧
      (s.AddListener l).prices = s.prices ∧
      (s.OnMessage v).2 = s.GetListeners.map (fun l => (l, v)) ∧
      (s.OnMessage v).1.GetListeners = s.GetListeners ∧
      (s.GetData k).1.GetListeners = s.GetListeners) ∧
    (∀ (s : MarketDataService) (l : Listener) (v : OrderBook) (k : String) (indet : BidOffer),
      (s.AddListener l).GetListeners = s.GetListeners ++ [l] ∧
      (s.AddListener l).orderBooks = s.orderBooks ∧
      (s.OnMessage v).2 = s.GetListeners.map (fun l => (l, v)) ∧
      (s.OnMessage v).1.GetListeners = s.GetListeners ∧
      (s.GetData k).1.GetListeners = s.GetListeners ∧
      (s.GetBestBidOffer indet k).1.GetListeners = s.GetListeners ∧
      (s.AggregateDepth k).1.GetListeners = s.GetListeners) ∧
    (∀ (s : TradeBookingService) (l : Listener) (v : Trade) (k : String),
      (s.AddListener l).GetListeners = s.GetListeners ++ [l] ∧
      (s.AddListener l).trades = s.trades ∧
      (s.OnMessage v).2 = s.GetListeners.map (fun l => (l, v)) ∧
      (s.OnMessage v).1.GetListeners = s.GetListeners ∧
      (s.GetData k).1.GetListeners = s.GetListeners ∧
      (s.BookTrade v).1.GetListeners = s.GetListeners) := by
  refine ⟨?_, ?_, ?_⟩
  · intro s l v k
    exact ⟨rfl, rfl, rfl, rfl, rfl⟩
  · intro s l v k indet
    exact ⟨rfl, rfl, rfl, rfl, rfl, rfl, rfl⟩
  · intro s l v k
    exact ⟨rfl, rfl, rfl, rfl, rfl, rfl⟩

/-- C29 (counterexample). Two execution orders on the same product with the distinct
order ids ID1 and ID2, stored by `OnMessage` into an empty `ExecutionService`: the store
then has one entry, under the product id and holding the second order; `GetData` of the
first order id returns the default order, not the first order. -/
theorem C29_orders_keyed_by_product_overwrite :
    Examples.executionOrder.orderId ≠ Examples.executionOrder2.orderId ∧
    ((ExecutionService.new.OnMessage Examples.executionOrder).1.OnMessage
      Examples.executionOrder2).1.executionOrders = [("P", Examples.executionOrder2)] ∧
    (((ExecutionService.new.OnMessage Examples.executionOrder).1.OnMessage
      Examples.executionOrder2).1.GetData "ID1").2 = ExecutionOrder.defaultValue ∧
    (((ExecutionService.new.OnMessage Examples.executionOrder).1.OnMessage
      Examples.executionOrder2).1.GetData "ID1").2 ≠ Examples.executionOrder := by
  refine ⟨by decide, ?_, ?_, ?_⟩
  · simp [ExecutionService.OnMessage, ExecutionService.new, StdMap.set,
      Examples.executionOrder, Examples.executionOrder2, Product.GetProductId]
  · simp [ExecutionService.OnMessage, ExecutionService.new, ExecutionService.GetData,
      StdMap.set, StdMap.get, StdMap.touch, StdMap.find, Examples.executionOrder,
      Examples.executionOrder2, Product.GetProductId]
  · simp [ExecutionService.OnMessage, ExecutionService.new, ExecutionService.GetData,
      StdMap.set, StdMap.get, StdMap.touch, StdMap.find, Examples.executionOrder,
      Examples.executionOrder2, Product.GetProductId, ExecutionOrder.defaultValue]

/-- C29 (amended). `ExecutionService::OnMessage` and `ExecuteOrder` upsert an execution
order under the product id of its product: after storing two orders on products with
the same id (whatever their order ids), `GetData` of that product id returns the later
order and the store is as if only the later one had been written; after storing two
orders on products with distinct ids, `GetData` of each product id returns the
corresponding order. -/
theorem C29_orders_keyed_by_product (s : ExecutionService) (o1 o2 : ExecutionOrder) :
    (o2.product.GetProductId = o1.product.GetProductId →
      (((s.OnMessage o1).1.OnMessage o2).1.GetData o1.product.GetProductId).2 = o2 ∧
      ((s.OnMessage o1).1.OnMessage o2).1 = (s.OnMessage o2).1 ∧
      (((s.ExecuteOrder o1).1.ExecuteOrder o2).1.GetData o1.product.GetProductId).2 = o2 ∧
      ((s.ExecuteOrder o1).1.ExecuteOrder o2).1 = (s.ExecuteOrder o2).1) ∧
    (o2.product.GetProductId ≠ o1.product.GetProductId →
      (((s.OnMessage o1).1.OnMessage o2).1.GetData o1.product.GetProductId).2 = o1 ∧
      (((s.OnMessage o1).1.OnMessage o2).1.GetData o2.product.GetProductId).2 = o2 ∧
      (((s.ExecuteOrder o1).1.ExecuteOrder o2).1.GetData o1.product.GetProductId).2 = o1 ∧
      (((s.ExecuteOrder o1).1.ExecuteOrder o2).1.GetData o2.product.GetProductId).2 = o2) := by
  constructor
  · intro h
    refine ⟨?_, ?_, ?_, ?_⟩
    · simp only [ExecutionService.GetData, ExecutionService.OnMessage, StdMap.get_touch, h,
        StdMap.set_set, StdMap.get_set_self]
    · simp only [ExecutionService.OnMessage, h, StdMap.set_set]
    · simp only [ExecutionService.GetData, ExecutionService.ExecuteOrder, StdMap.get_touch, h,
        StdMap.set_set, StdMap.get_set_self]
    · simp only [ExecutionService.ExecuteOrder, h, StdMap.set_set]
  · intro h
    have h2 : o1.product.GetProductId ≠ o2.product.GetProductId := fun e => h e.symm
    refine ⟨?_, ?_, ?_, ?_⟩
    · simp only [ExecutionService.GetData, ExecutionService.OnMessage, StdMap.get_touch,
        StdMap.get_set_ne _ _ _ _ _ h2, StdMap.get_set_self]
    · simp only [ExecutionService.GetData, ExecutionService.OnMessage, StdMap.get_touch,
        StdMap.get_set_self]
    · simp only [ExecutionService.GetData, ExecutionService.ExecuteOrder, StdMap.get_touch,
        StdMap.get_set_ne _ _ _ _ _ h2, StdMap.get_set_self]
    · simp only [ExecutionService.GetData, ExecutionService.ExecuteOrder, StdMap.get_touch,
        StdMap.get_set_self]

/-- Witness of C29 (amended): two orders with distinct order ids on the same product. -/
theorem C29_orders_keyed_by_product_witness :
    Examples.executionOrder2.product.GetProductId =
      Examples.executionOrder.product.GetProductId ∧
    (((ExecutionService.new.OnMessage Examples.executionOrder).1.OnMessage
      Examples.executionOrder2).1.GetData Examples.executionOrder.product.GetProductId).2
      = Examples.executionOrder2 :=
  ⟨rfl, ((C29_orders_keyed_by_product ExecutionService.new Examples.executionOrder
    Examples.executionOrder2).1 rfl).1⟩

/-- C30. Inquiry with no transition rule: for every store and every inquiry in state
DONE, REJECTED or CUSTOMER_REJECTED, `InquiryService::OnMessage` returns with the
service exactly as it was (store and listeners; the inquiry is not stored), the
inquiry itself unchanged, and no `ProcessAdd` delivery; the connector's `Publish`, the
only path to a re-submission, does nothing on such an inquiry either. -/
theorem C30_OnMessage_without_transition (s : InquiryService) (d : Inquiry)
    (h : d.state = InquiryState.DONE ∨ d.state = InquiryState.REJECTED ∨
      d.state = InquiryState.CUSTOMER_REJECTED) :
    s.OnMessage d = (s, d, []) ∧ InquiryConnector.Publish s d = (s, d, []) := by
  have h1 : d.state ≠ InquiryState.RECEIVED := by
    rcases h with h | h | h <;> rw [h] <;> decide
  have h2 : d.state ≠ InquiryState.QUOTED := by
    rcases h with h | h | h <;> rw [h] <;> decide
  refine ⟨InquiryService.OnMessage_other s d h1 h2, ?_⟩
  rw [InquiryConnector.Publish]
  simp only [h1, dite_false]

/-- Witness of C30: an inquiry in state REJECTED submitted to a service that holds
two inquiries. -/
theorem C30_OnMessage_without_transition_witness :
    ((⟨"I3", ⟨"P", "US2Y"⟩, .BUY, 1, 100, .REJECTED⟩ : Inquiry).state = InquiryState.DONE ∨
      (⟨"I3", ⟨"P", "US2Y"⟩, .BUY, 1, 100, .REJECTED⟩ : Inquiry).state
        = InquiryState.REJECTED ∨
      (⟨"I3", ⟨"P", "US2Y"⟩, .BUY, 1, 100, .REJECTED⟩ : Inquiry).state
        = InquiryState.CUSTOMER_REJECTED) ∧
    Examples.settledInquiries.OnMessage ⟨"I3", ⟨"P", "US2Y"⟩, .BUY, 1, 100, .REJECTED⟩ =
      (Examples.settledInquiries, ⟨"I3", ⟨"P", "US2Y"⟩, .BUY, 1, 100, .REJECTED⟩, []) :=
  ⟨Or.inr (Or.inl rfl), (C30_OnMessage_without_transition Examples.settledInquiries
    ⟨"I3", ⟨"P", "US2Y"⟩, .BUY, 1, 100, .REJECTED⟩ (Or.inr (Or.inl rfl))).1⟩

/-- C24 (counterexample). A fresh GUI service (throttle 300) receiving 4 updates at the
readings 300, 500, 700, 900 (spacing 200, below the throttle; total elapsed 600)
forwards 2 of them, those at 300 and 700, whereas `floor(600 / 300) + 1` is 3. -/
theorem C24_forward_count_below_formula :
    (GUIConnector.PublishSeq GUIService.new
      ((List.range 4).map (fun (i : Nat) => ((300 : Int) + (i : Int) * 200, Examples.price)))).2
      = [Examples.price, Examples.price] ∧
    (4 - 1) * 200 / 300 + 1 = 3 := by
  constructor
  · simp [List.range, List.range.loop, GUIConnector.PublishSeq, GUIConnector.Publish,
      GUIConnector.advance_of_le, GUIService.new]
  · decide

/-- C24 (amended). A GUI service with throttle `T > 0` and last forward time 0 receives
`N ≥ 1` updates at the readings `t0, t0 + D, ..., t0 + (N - 1) * D` with `t0 ≥ T`.
The number of updates forwarded is 1 when `D = 0`, and for `D > 0` it is
`floor((N - 1) / ceil(T / D)) + 1`: the first update and then every `ceil(T / D)`-th
one.  Hence it is `N` when `D ≥ T`, and it is `floor(total_elapsed / T) + 1`, with
`total_elapsed = (N - 1) * D`, when `D > 0` divides `T`. -/
theorem C24_forward_count (guis : StdMap Price) (ls : List Listener) (T D t0 N : Nat)
    (prices : Nat → Price) (hT : 0 < T) (ht0 : T ≤ t0) (hN : 1 ≤ N) :
    (D = 0 →
      (GUIConnector.PublishSeq ⟨guis, ls, (T : Int), 0⟩ ((List.range N).map
        (fun (i : Nat) => ((t0 : Int) + (i : Int) * (D : Int), prices i)))).2.length = 1) ∧
    (0 < D →
      (GUIConnector.PublishSeq ⟨guis, ls, (T : Int), 0⟩ ((List.range N).map
        (fun (i : Nat) => ((t0 : Int) + (i : Int) * (D : Int), prices i)))).2.length
        = (N - 1) / ((T + D - 1) / D) + 1) ∧
    (T ≤ D →
      (GUIConnector.PublishSeq ⟨guis, ls, (T : Int), 0⟩ ((List.range N).map
        (fun (i : Nat) => ((t0 : Int) + (i : Int) * (D : Int), prices i)))).2.length = N) ∧
    (0 < D → D ∣ T →
      (GUIConnector.PublishSeq ⟨guis, ls, (T : Int), 0⟩ ((List.range N).map
        (fun (i : Nat) => ((t0 : Int) + (i : Int) * (D : Int), prices i)))).2.length
        = (N - 1) * D / T + 1) := by
  obtain ⟨M, rfl⟩ : ∃ M, N = M + 1 := ⟨N - 1, by omega⟩
  -- the first update is forwarded and sets the last forward time to `t0`
  have hfirst : GUIConnector.Publish ⟨guis, ls, (T : Int), 0⟩
      ((t0 : Int) + ((0 : Nat) : Int) * (D : Int)) (prices 0) =
      (⟨guis, ls, (T : Int), (t0 : Int) + ((0 : Nat) : Int) * (D : Int)⟩, [prices 0]) := by
    have h0 : (0 : Int) ≤ (t0 : Int) + ((0 : Nat) : Int) * (D : Int) := by
      simp
    have h1 : (T : Int) ≤ (t0 : Int) + ((0 : Nat) : Int) * (D : Int) - 0 := by
      simp only [Nat.cast_zero, zero_mul, add_zero, sub_zero]
      exact_mod_cast ht0
    unfold GUIConnector.Publish
    simp only [GUIConnector.advance_of_le _ _ h0, ge_iff_le, h1, if_true]
  have hsplit : (GUIConnector.PublishSeq ⟨guis, ls, (T : Int), 0⟩ ((List.range (M + 1)).map
      (fun (i : Nat) => ((t0 : Int) + (i : Int) * (D : Int), prices i)))).2.length =
      1 + (GUIConnector.PublishSeq
        ⟨guis, ls, (T : Int), (t0 : Int) + ((0 : Nat) : Int) * (D : Int)⟩
        ((List.range' 1 M).map
          (fun (i : Nat) => ((t0 : Int) + (i : Int) * (D : Int), prices i)))).2.length := by
    rw [List.range_eq_range', List.range'_succ, List.map_cons]
    conv_lhs => unfold GUIConnector.PublishSeq
    simp only [hfirst, List.singleton_append, List.length_cons, Nat.zero_add]
    omega
  have hpos : 0 < D →
      (GUIConnector.PublishSeq ⟨guis, ls, (T : Int), 0⟩ ((List.range (M + 1)).map
        (fun (i : Nat) => ((t0 : Int) + (i : Int) * (D : Int), prices i)))).2.length
        = M / ((T + D - 1) / D) + 1 := by
    intro hD
    have hc : 0 < (T + D - 1) / D := by
      rcases Nat.eq_zero_or_pos ((T + D - 1) / D) with h0 | h0
      · have := (GUIConnector.ceil_le_iff T D 0 hD).mp (by omega)
        omega
      · exact h0
    rw [hsplit, GUIConnector.PublishSeq_grid_count T D t0 prices hD hT M 1 0 _ (by omega)
      rfl rfl]
    have := GUIConnector.count_identity ((T + D - 1) / D) M hc
    simp only [Nat.zero_add] at this ⊢
    exact this
  refine ⟨?_, ?_, ?_, ?_⟩
  · intro hD
    rw [hsplit, GUIConnector.PublishSeq_quiet _ _
      (by show (0 : Int) < (T : Int); exact_mod_cast hT)]
    · rfl
    · intro x hx
      obtain ⟨i, -, hi⟩ := List.mem_map.mp hx
      rw [← hi, hD]
      simp
  · intro hD
    simpa using hpos hD
  · intro hTD
    have hD : 0 < D := by omega
    have hc1 : (T + D - 1) / D = 1 := by
      have h1 := (GUIConnector.ceil_le_iff T D 1 hD).mpr (by omega)
      have h0 : ¬ (T + D - 1) / D ≤ 0 := by
        intro h
        have := (GUIConnector.ceil_le_iff T D 0 hD).mp h
        omega
      omega
    rw [hpos hD, hc1, Nat.div_one]
  · intro hD hdvd
    obtain ⟨q, rfl⟩ := hdvd
    have hq : 0 < q := by
      rcases Nat.eq_zero_or_pos q with h | h
      · subst h; simp at hT
      · exact h
    have hcq : (D * q + D - 1) / D = q := by
      have h1 := (GUIConnector.ceil_le_iff (D * q) D q hD).mpr (by rw [Nat.mul_comm])
      have h2 := (GUIConnector.ceil_le_iff (D * q) D ((D * q + D - 1) / D) hD).mp (le_refl _)
      generalize (D * q + D - 1) / D = c at h1 h2 ⊢
      have h3 : q * D ≤ c * D := by rw [Nat.mul_comm q D]; exact h2
      have h4 : q ≤ c := Nat.le_of_mul_le_mul_right h3 hD
      omega
    rw [hpos hD, hcq, Nat.add_sub_cancel, Nat.mul_comm D q, Nat.mul_div_mul_right _ _ hD]

/-- Witness of C24 (amended): throttle 300, updates at 300, 500, 700, 900. -/
theorem C24_forward_count_witness :
    0 < 300 ∧ 300 ≤ 300 ∧ 1 ≤ 4 ∧ 0 < 200 ∧
    (GUIConnector.PublishSeq ⟨[], [], ((300 : Nat) : Int), 0⟩ ((List.range 4).map
      (fun (i : Nat) => (((300 : Nat) : Int) + (i : Int) * ((200 : Nat) : Int),
        Examples.price)))).2.length
      = (4 - 1) / ((300 + 200 - 1) / 200) + 1 :=
  ⟨by decide, by decide, by decide, by decide,
    (C24_forward_count [] [] 300 200 300 4 (fun _ => Examples.price) (by decide) (by decide)
      (by decide)).2.1 (by decide)⟩

/-- C31 (the code at a failing input). A trade booking service with the position
listener (listener 0) as its only listener, a fresh `TradeBookingToExecutionListener`,
and a position store holding 3 for product P in book TRSY2: the BID-side execution
order with visible quantity 2 and hidden quantity 4 becomes a SELL of 6 in book TRSY2,
delivered to the position listener by `OnMessage` and again by `BookTrade`, and the
position of P in TRSY2 goes from 3 to -9, a change of -12 where -(2 + 4) is -6. -/
theorem C31_execution_booked_twice :
    Examples.positionService.bookQuantity "P" "TRSY2" = some 3 ∧
    (TradeBookingToExecutionListener.new.ProcessAdd ⟨[], [0]⟩ Examples.executionOrder).2.2.1 =
      ⟨⟨"P", "US2Y"⟩, "ID1", 100, "TRSY2", 6, Side.SELL⟩ ∧
    (TradeBookingToExecutionListener.new.ProcessAdd ⟨[], [0]⟩ Examples.executionOrder).2.2.2 =
      [(0, ⟨⟨"P", "US2Y"⟩, "ID1", 100, "TRSY2", 6, Side.SELL⟩),
        (0, ⟨⟨"P", "US2Y"⟩, "ID1", 100, "TRSY2", 6, Side.SELL⟩)] ∧
    (deliver 0 PositionToTradeBookingListener.ProcessAdd Examples.positionService
      (TradeBookingToExecutionListener.new.ProcessAdd ⟨[], [0]⟩
        Examples.executionOrder).2.2.2).1.bookQuantity "P" "TRSY2" = some (-9) := by
  have h1 : (TradeBookingToExecutionListener.new.ProcessAdd ⟨[], [0]⟩
      Examples.executionOrder).2.2.1 = ⟨⟨"P", "US2Y"⟩, "ID1", 100, "TRSY2", 6, Side.SELL⟩ := by
    have hw : wrapLong 6 = 6 := by decide
    simp [TradeBookingToExecutionListener.ProcessAdd, TradeBookingToExecutionListener.new,
      Examples.executionOrder, hw]
    rfl
  have h2 : (TradeBookingToExecutionListener.new.ProcessAdd ⟨[], [0]⟩
      Examples.executionOrder).2.2.2 =
      [(0, ⟨⟨"P", "US2Y"⟩, "ID1", 100, "TRSY2", 6, Side.SELL⟩),
        (0, ⟨⟨"P", "US2Y"⟩, "ID1", 100, "TRSY2", 6, Side.SELL⟩)] := by
    have hw : wrapLong 6 = 6 := by decide
    simp [TradeBookingToExecutionListener.ProcessAdd, TradeBookingToExecutionListener.new,
      TradeBookingService.OnMessage, TradeBookingService.BookTrade, Examples.executionOrder, hw]
    rfl
  refine ⟨?_, h1, h2, ?_⟩
  · simp [PositionService.bookQuantity, StdMap.find, Examples.positionService]
  · rw [h2]
    simp +decide [deliver, PositionToTradeBookingListener.ProcessAdd, PositionService.AddTrade,
      PositionService.bookQuantity, Position.AddPosition, Position.new, StdMap.find,
      StdMap.set, StdMap.get, StdMap.touch, Product.GetProductId, Examples.positionService]

/-- C32. Every execution order processed by
`TradeBookingToExecutionListener::ProcessAdd` is delivered to the listeners of the trade
booking service as the Trade built, once per listener by `OnMessage` and then once per
listener by `BookTrade`: a listener registered `k` times gets `2 * k` deliveries (two
when registered once), all of that Trade.  A Trade entering through `OnMessage` alone
is delivered once per registration. -/
theorem C32_ProcessAdd_delivers_twice (l : TradeBookingToExecutionListener)
    (service : TradeBookingService) (data : ExecutionOrder) (t : Trade) :
    (l.ProcessAdd service data).2.2.2 =
      (service.OnMessage (l.ProcessAdd service data).2.2.1).2 ++
        ((service.OnMessage (l.ProcessAdd service data).2.2.1).1.BookTrade
          (l.ProcessAdd service data).2.2.1).2 ∧
    (l.ProcessAdd service data).2.2.2 =
      service.listeners.map (fun x => (x, (l.ProcessAdd service data).2.2.1)) ++
        service.listeners.map (fun x => (x, (l.ProcessAdd service data).2.2.1)) ∧
    (∀ x : Listener, (l.ProcessAdd service data).2.2.2.count
      (x, (l.ProcessAdd service data).2.2.1) = 2 * service.listeners.count x) ∧
    (∀ x : Listener, service.listeners.count x = 1 →
      (l.ProcessAdd service data).2.2.2.count (x, (l.ProcessAdd service data).2.2.1) = 2) ∧
    (∀ d ∈ (l.ProcessAdd service data).2.2.2, d.2 = (l.ProcessAdd service data).2.2.1) ∧
    (service.OnMessage t).2 = service.listeners.map (fun x => (x, t)) ∧
    (∀ x : Listener, (service.OnMessage t).2.count (x, t) = service.listeners.count x) ∧
    (∀ d ∈ (service.OnMessage t).2, d.2 = t) := by
  have hcount : ∀ (ls : List Listener) (v : Trade) (x : Listener),
      (ls.map (fun y => (y, v))).count (x, v) = ls.count x := by
    intro ls v x
    induction ls with
    | nil => rfl
    | cons a ls ih =>
      by_cases ha : a = x
      · subst ha; simp [ih]
      · have hne : ((a, v) == (x, v)) = false := by simp [ha]
        have hne2 : (a == x) = false := by simp [ha]
        rw [List.map_cons, List.count_cons, List.count_cons, ih, hne, hne2]
  have hd : (l.ProcessAdd service data).2.2.2 =
      service.listeners.map (fun x => (x, (l.ProcessAdd service data).2.2.1)) ++
        service.listeners.map (fun x => (x, (l.ProcessAdd service data).2.2.1)) := rfl
  refine ⟨rfl, hd, ?_, ?_, ?_, rfl, ?_, ?_⟩
  · intro x
    rw [hd, List.count_append, hcount]; omega
  · intro x hx
    rw [hd, List.count_append, hcount]; omega
  · intro d hdm
    rw [hd] at hdm
    simp only [List.mem_append, List.mem_map, or_self] at hdm
    obtain ⟨y, -, rfl⟩ := hdm
    rfl
  · intro x
    exact hcount _ _ _
  · intro d hdm
    simp only [TradeBookingService.OnMessage, List.mem_map] at hdm
    obtain ⟨y, -, rfl⟩ := hdm
    rfl

/-- C39. `OnMessage` of `PositionService`, `RiskService`, `ExecutionService`,
`StreamingService`, `AlgoExecutionService` and `AlgoStreamingService`: for every service
state (any listeners) and every value, the call makes no `ProcessAdd` delivery, leaves
the listeners and the other members as they were, stores the value under its product
id and leaves the entry of every other key as it was.  The deliveries of these services
are made by `AddTrade`, `AddPosition`, `ExecuteOrder`, `PublishPrice`,
`AlgoExecuteOrder` (when the spread test passes) and `AlgoPublishPrice`, one per
registered listener in registration order. -/
theorem C39_OnMessage_upsert_only :
    (∀ (s : PositionService) (v : Position) (t : Trade),
      (s.OnMessage v).2 = [] ∧ (s.OnMessage v).1.listeners = s.listeners ∧
      StdMap.find (s.OnMessage v).1.positions v.product.GetProductId = some v ∧
      (∀ j, j ≠ v.product.GetProductId →
        StdMap.find (s.OnMessage v).1.positions j = StdMap.find s.positions j) ∧
      (s.AddTrade t).2.map Prod.fst = s.listeners) ∧
    (∀ (s : RiskService) (v : PV01 Product) (p : Position),
      (s.OnMessage v).2 = [] ∧ (s.OnMessage v).1.listeners = s.listeners ∧
      StdMap.find (s.OnMessage v).1.pv01s v.product.GetProductId = some v ∧
      (∀ j, j ≠ v.product.GetProductId →
        StdMap.find (s.OnMessage v).1.pv01s j = StdMap.find s.pv01s j) ∧
      (s.AddPosition p).2.map Prod.fst = s.listeners) ∧
    (∀ (s : ExecutionService) (v : ExecutionOrder),
      (s.OnMessage v).2 = [] ∧ (s.OnMessage v).1.listeners = s.listeners ∧
      StdMap.find (s.OnMessage v).1.executionOrders v.product.GetProductId = some v ∧
      (∀ j, j ≠ v.product.GetProductId →
        StdMap.find (s.OnMessage v).1.executionOrders j = StdMap.find s.executionOrders j) ∧
      (s.ExecuteOrder v).2 = s.listeners.map (fun l => (l, v))) ∧
    (∀ (s : StreamingService) (v : PriceStream),
      (s.OnMessage v).2 = [] ∧ (s.OnMessage v).1.listeners = s.listeners ∧
      StdMap.find (s.OnMessage v).1.priceStreams v.product.GetProductId = some v ∧
      (∀ j, j ≠ v.product.GetProductId →
        StdMap.find (s.OnMessage v).1.priceStreams j = StdMap.find s.priceStreams j) ∧
      (s.PublishPrice v).2 = s.listeners.map (fun l => (l, v))) ∧
    (∀ (s : AlgoExecutionService) (v : AlgoExecution) (orderId : String) (indet : Indet)
        (ob : OrderBook),
      (s.OnMessage v).2 = [] ∧ (s.OnMessage v).1.listeners = s.listeners ∧
      (s.OnMessage v).1.spread = s.spread ∧ (s.OnMessage v).1.count = s.count ∧
      StdMap.find (s.OnMessage v).1.algoExecutions v.executionOrder.product.GetProductId =
        some v ∧
      (∀ j, j ≠ v.executionOrder.product.GetProductId →
        StdMap.find (s.OnMessage v).1.algoExecutions j = StdMap.find s.algoExecutions j) ∧
      (s.AlgoExecuteOrder orderId indet ob).2.2.map Prod.fst =
        if (s.AlgoExecuteOrder orderId indet ob).2.1 = none then [] else s.listeners) ∧
    (∀ (s : AlgoStreamingService) (v : AlgoStream) (price : Price),
      (s.OnMessage v).2 = [] ∧ (s.OnMessage v).1.listeners = s.listeners ∧
      (s.OnMessage v).1.count = s.count ∧
      StdMap.find (s.OnMessage v).1.algoStreams v.priceStream.product.GetProductId =
        some v ∧
      (∀ j, j ≠ v.priceStream.product.GetProductId →
        StdMap.find (s.OnMessage v).1.algoStreams j = StdMap.find s.algoStreams j) ∧
      (s.AlgoPublishPrice price).2.2 =
        s.listeners.map (fun l => (l, (s.AlgoPublishPrice price).2.1))) := by
  have hfst : ∀ {V : Type} (ls : List Listener) (v : V),
      (ls.map (fun l => (l, v))).map Prod.fst = ls := by
    intro V ls v
    induction ls with
    | nil => rfl
    | cons a ls ih => simp [ih]
  refine ⟨?_, ?_, ?_, ?_, ?_, ?_⟩
  · intro s v t
    exact ⟨rfl, rfl, StdMap.find_set_self _ _ _,
      fun j hj => StdMap.find_set_ne _ _ _ _ hj, hfst _ _⟩
  · intro s v p
    exact ⟨rfl, rfl, StdMap.find_set_self _ _ _,
      fun j hj => StdMap.find_set_ne _ _ _ _ hj, hfst _ _⟩
  · intro s v
    exact ⟨rfl, rfl, StdMap.find_set_self _ _ _,
      fun j hj => StdMap.find_set_ne _ _ _ _ hj, rfl⟩
  · intro s v
    exact ⟨rfl, rfl, StdMap.find_set_self _ _ _,
      fun j hj => StdMap.find_set_ne _ _ _ _ hj, rfl⟩
  · intro s v orderId indet ob
    refine ⟨rfl, rfl, rfl, rfl, StdMap.find_set_self _ _ _,
      fun j hj => StdMap.find_set_ne _ _ _ _ hj, ?_⟩
    unfold AlgoExecutionService.AlgoExecuteOrder
    simp only
    split
    · simp only [reduceCtorEq, if_false]
      exact hfst _ _
    · simp
  · intro s v price
    exact ⟨rfl, rfl, rfl, StdMap.find_set_self _ _ _,
      fun j hj => StdMap.find_set_ne _ _ _ _ hj, rfl⟩

/-- C35. Position netting is order-independent: for every position store (a store of
`std::map`s) and trades `t1`, `t2`, `AddTrade(t1)` then `AddTrade(t2)` leaves, for
every product id, the same entry or absence of entry, with the same books and net
quantities, as `AddTrade(t2)` then `AddTrade(t1)`; the two stores are equal when
trades with the same product id carry the same product.  Hence the books and net
quantities stored after a sequence of trades are the same for every permutation of the
sequence. -/
theorem C35_netting_order_independent (s : PositionService) (hs : s.WF) (t1 t2 : Trade) :
    (∀ productId : String,
      (StdMap.find ((s.AddTrade t1).1.AddTrade t2).1.positions productId).map
          Position.positions =
        (StdMap.find ((s.AddTrade t2).1.AddTrade t1).1.positions productId).map
          Position.positions) ∧
    (∀ productId book : String,
      ((s.AddTrade t1).1.AddTrade t2).1.bookQuantity productId book =
        ((s.AddTrade t2).1.AddTrade t1).1.bookQuantity productId book) ∧
    ((t1.product.GetProductId = t2.product.GetProductId → t1.product = t2.product) →
      ((s.AddTrade t1).1.AddTrade t2).1 = ((s.AddTrade t2).1.AddTrade t1).1) ∧
    (∀ ts ts2 : List Trade, ts.Perm ts2 → ∀ productId : String,
      (StdMap.find (s.AddTradeSeq ts).positions productId).map Position.positions =
        (StdMap.find (s.AddTradeSeq ts2).positions productId).map Position.positions) := by
  have h12 : ∀ productId : String,
      (StdMap.find ((s.AddTrade t1).1.AddTrade t2).1.positions productId).map
          Position.positions =
        (StdMap.find ((s.AddTrade t2).1.AddTrade t1).1.positions productId).map
          Position.positions := fun productId =>
    PositionService.books_AddTradeSeq_perm hs (List.Perm.swap t2 t1 []) productId
  refine ⟨h12, ?_, PositionService.AddTrade_comm hs t1 t2,
    fun ts ts2 hp productId => PositionService.books_AddTradeSeq_perm hs hp productId⟩
  intro productId book
  have := h12 productId
  unfold PositionService.bookQuantity
  cases ha : StdMap.find ((s.AddTrade t1).1.AddTrade t2).1.positions productId <;>
    cases hb : StdMap.find ((s.AddTrade t2).1.AddTrade t1).1.positions productId <;>
    rw [ha, hb] at this <;> simp at this ⊢
  rw [this]

/-- Witness of C35: a SELL of 4 in book TRSY1 and a BUY of 6 in book TRSY3 on the
product of a store holding two books. -/
theorem C35_netting_order_independent_witness :
    Examples.positionService.WF ∧
    ((∀ productId : String,
      (StdMap.find ((Examples.positionService.AddTrade Examples.trade).1.AddTrade
          ⟨⟨"P", "US2Y"⟩, "T2", 101, "TRSY3", 6, Side.BUY⟩).1.positions productId).map
          Position.positions =
        (StdMap.find ((Examples.positionService.AddTrade
          ⟨⟨"P", "US2Y"⟩, "T2", 101, "TRSY3", 6, Side.BUY⟩).1.AddTrade
            Examples.trade).1.positions productId).map Position.positions) ∧
    (∀ productId book : String,
      ((Examples.positionService.AddTrade Examples.trade).1.AddTrade
          ⟨⟨"P", "US2Y"⟩, "T2", 101, "TRSY3", 6, Side.BUY⟩).1.bookQuantity productId book =
        ((Examples.positionService.AddTrade
          ⟨⟨"P", "US2Y"⟩, "T2", 101, "TRSY3", 6, Side.BUY⟩).1.AddTrade
            Examples.trade).1.bookQuantity productId book) ∧
    ((Examples.trade.product.GetProductId =
        (⟨⟨"P", "US2Y"⟩, "T2", 101, "TRSY3", 6, Side.BUY⟩ : Trade).product.GetProductId →
        Examples.trade.product =
          (⟨⟨"P", "US2Y"⟩, "T2", 101, "TRSY3", 6, Side.BUY⟩ : Trade).product) →
      ((Examples.positionService.AddTrade Examples.trade).1.AddTrade
          ⟨⟨"P", "US2Y"⟩, "T2", 101, "TRSY3", 6, Side.BUY⟩).1 =
        ((Examples.positionService.AddTrade
          ⟨⟨"P", "US2Y"⟩, "T2", 101, "TRSY3", 6, Side.BUY⟩).1.AddTrade Examples.trade).1) ∧
    (∀ ts ts2 : List Trade, ts.Perm ts2 → ∀ productId : String,
      (StdMap.find (Examples.positionService.AddTradeSeq ts).positions productId).map
          Position.positions =
        (StdMap.find (Examples.positionService.AddTradeSeq ts2).positions productId).map
          Position.positions)) :=
  have hwf : Examples.positionService.WF := by
    simp +decide [PositionService.WF, Position.WF, StdMap.WF, Examples.positionService]
  ⟨hwf, C35_netting_order_independent Examples.positionService hwf Examples.trade
    ⟨⟨"P", "US2Y"⟩, "T2", 101, "TRSY3", 6, Side.BUY⟩⟩

/-- C1 (counterexample). A store whose Position for `P` holds 10 in book TRSY1, and a BUY
of `LONG_MAX = 9223372036854775807` on `P` in TRSY1: the store and the trade hold
values of `long`, the previous net quantity plus the trade's quantity is
9223372036854775817, and `AddTrade` stores -9223372036854775799 for TRSY1. -/
theorem C1_AddTrade_wraps_at_long_max :
    Examples.oneBookService.WF ∧ Examples.oneBookService.InRange ∧
    inLong Examples.longMaxBuy.quantity ∧
    StdMap.find (Examples.oneBookService.AddTrade Examples.longMaxBuy).1.positions "P" =
      some ⟨⟨"P", "US2Y"⟩, [("TRSY1", -9223372036854775799)]⟩ ∧
    (StdMap.get Examples.oneBookService.positions "P" Position.defaultValue).GetPosition "TRSY1"
      + Examples.longMaxBuy.quantity = 9223372036854775817 := by
  refine ⟨?_, ?_, ?_, ?_, ?_⟩
  · simp +decide [PositionService.WF, Position.WF, StdMap.WF, Examples.oneBookService]
  · simp +decide [PositionService.InRange, Examples.oneBookService]
  · decide
  · have hw : wrapLong 9223372036854775807 = 9223372036854775807 := by decide
    have hw2 : wrapLong 9223372036854775817 = -9223372036854775799 := by decide
    simp [PositionService.AddTrade, Examples.oneBookService, Examples.longMaxBuy,
      Position.AddPosition, Position.new, Position.defaultValue, StdMap.find, StdMap.get,
      StdMap.set, StdMap.touch, Product.GetProductId, hw, hw2]
  · simp [Position.GetPosition, StdMap.get, StdMap.find, Examples.oneBookService,
      Examples.longMaxBuy]

/-- C1 (amended). `PositionService::AddTrade`: for every store (a store of `std::map`s
holding values of `long`) and every trade `t` on product `P` in book `B` with quantity
`q`, provided the previous net quantity of `B` (0 if absent) plus `q` for a BUY, minus
`q` for a SELL, is a value of `long`: the Position stored for `P` afterwards holds that
quantity for `B`, and every other book has exactly its previous entry (present with the
same quantity, or absent as before). -/
theorem C1_AddTrade_credits_book_in_range (s : PositionService) (t : Trade) (hs : s.WF)
    (hr : s.InRange) (hq : inLong t.quantity)
    (hres : inLong (match t.side with
      | Side.BUY =>
        (StdMap.get s.positions t.product.GetProductId Position.defaultValue).GetPosition t.book
          + t.quantity
      | Side.SELL =>
        (StdMap.get s.positions t.product.GetProductId Position.defaultValue).GetPosition t.book
          - t.quantity)) :
    ∃ p : Position,
      StdMap.find (s.AddTrade t).1.positions t.product.GetProductId = some p ∧
      p.product = t.product ∧
      StdMap.find p.positions t.book =
        some (match t.side with
          | Side.BUY =>
            (StdMap.get s.positions t.product.GetProductId Position.defaultValue).GetPosition t.book
              + t.quantity
          | Side.SELL =>
            (StdMap.get s.positions t.product.GetProductId Position.defaultValue).GetPosition t.book
              - t.quantity) ∧
      ∀ b : String, b ≠ t.book →
        StdMap.find p.positions b =
          StdMap.find (StdMap.get s.positions t.product.GetProductId Position.defaultValue).positions b := by
  have hwf := (hs.get t.product.GetProductId).nodup
  have hold := PositionService.InRange.inLong_of_find hr t.product.GetProductId
  refine ⟨_, PositionService.find_AddTrade_self s t, ?_, ?_, ?_⟩
  · rw [Position.product_foldl_AddPosition]
    cases t.side <;> rfl
  · rw [Position.find_foldl_AddPosition _ hwf]
    generalize StdMap.get s.positions t.product.GetProductId Position.defaultValue = old
      at hres hold
    unfold Position.GetPosition at hres ⊢
    cases hf : StdMap.find old.positions t.book with
    | none =>
      cases hside : t.side <;>
        simp only [hside, StdMap.get, hf, Option.getD_none] at hres ⊢ <;>
        simp only [Position.find_AddPosition, if_true, Position.new, StdMap.get, StdMap.find,
          Option.getD_none, Option.some.injEq]
      · exact wrapLong_of_inLong (by simpa using hres)
      · rw [wrapLong_add_right]
        have : (0 : Int) + -t.quantity = 0 - t.quantity := by ring
        rw [this]
        exact wrapLong_of_inLong hres
    | some v =>
      cases hside : t.side <;>
        simp only [hside, StdMap.get, hf, Option.getD_some] at hres ⊢ <;>
        simp only [Position.find_AddPosition, if_true, Position.new, StdMap.get, StdMap.find,
          Option.getD_none, Option.getD_some, Option.some.injEq]
      · rw [zero_add, wrapLong_of_inLong hq, add_comm]
        exact wrapLong_of_inLong hres
      · rw [wrapLong_add_right, wrapLong_add_left]
        have : (0 : Int) + -t.quantity + v = v - t.quantity := by ring
        rw [this]
        exact wrapLong_of_inLong hres
  · intro b hb
    rw [Position.find_foldl_AddPosition _ hwf]
    generalize StdMap.get s.positions t.product.GetProductId Position.defaultValue = old
      at hold
    cases hf : StdMap.find old.positions b with
    | none =>
      cases t.side <;>
        simp [Position.find_AddPosition, Position.new, StdMap.get, StdMap.find, hb]
    | some v =>
      have hv := wrapLong_of_inLong (hold b v hf)
      cases t.side <;>
        simp [Position.find_AddPosition, Position.new, StdMap.get, StdMap.find, hb, hv]

/-- Witness of C1 (amended): a SELL of 4 in book TRSY1 against a store holding 10 in
TRSY1 and 3 in TRSY2 leaves 6 in TRSY1 and 3 in TRSY2. -/
theorem C1_AddTrade_credits_book_in_range_witness :
    (Examples.positionService.WF ∧ Examples.positionService.InRange ∧
      inLong Examples.trade.quantity) ∧
    ∃ p : Position,
      StdMap.find (Examples.positionService.AddTrade Examples.trade).1.positions "P" = some p ∧
      StdMap.find p.positions "TRSY1" = some 6 ∧ StdMap.find p.positions "TRSY2" = some 3 := by
  have hwf : Examples.positionService.WF := by
    simp +decide [PositionService.WF, Position.WF, StdMap.WF, Examples.positionService]
  have hr : Examples.positionService.InRange := by
    simp +decide [PositionService.InRange, Examples.positionService]
  have hq : inLong Examples.trade.quantity := by decide
  refine ⟨⟨hwf, hr, hq⟩, ?_⟩
  obtain ⟨p, h1, -, h3, h4⟩ := C1_AddTrade_credits_book_in_range Examples.positionService
    Examples.trade hwf hr hq (by
      simp +decide [Position.GetPosition, StdMap.get, StdMap.find, Product.GetProductId,
        Examples.positionService, Examples.trade])
  refine ⟨p, h1, h3.trans ?_, (h4 "TRSY2" (by decide)).trans ?_⟩
  · simp [Position.GetPosition, StdMap.get, StdMap.find, Product.GetProductId,
      Examples.positionService, Examples.trade]
  · simp [StdMap.get, StdMap.find, Product.GetProductId, Examples.positionService,
      Examples.trade]

/-- C2 (counterexample). The sequence of one trade, a BUY of `2^62 = 4611686018427387904`
on `P` in book TRSY1, applied to the empty store: after the first pass TRSY1 holds
`2^62`, a value of `long`; after the second pass it holds `-2^63`, not twice that
(`2^63`, which is not a value of `long`). -/
theorem C2_replay_wraps_at_two_pow_62 :
    inLong Examples.bigBuy.quantity ∧
    (PositionService.AddTradeSeq PositionService.new [Examples.bigBuy]).bookQuantity "P" "TRSY1"
      = some 4611686018427387904 ∧
    ((PositionService.AddTradeSeq PositionService.new [Examples.bigBuy]).AddTradeSeq
      [Examples.bigBuy]).bookQuantity "P" "TRSY1" = some (-9223372036854775808) ∧
    ¬ ((PositionService.AddTradeSeq PositionService.new [Examples.bigBuy]).AddTradeSeq
        [Examples.bigBuy]).bookQuantity "P" "TRSY1" =
      ((PositionService.AddTradeSeq PositionService.new [Examples.bigBuy]).bookQuantity
        "P" "TRSY1").map (fun q => 2 * q) := by
  have hw : wrapLong 4611686018427387904 = 4611686018427387904 := by decide
  have hw2 : wrapLong 9223372036854775808 = -9223372036854775808 := by decide
  have h1 : (PositionService.AddTradeSeq PositionService.new [Examples.bigBuy]).bookQuantity
      "P" "TRSY1" = some 4611686018427387904 := by
    simp [PositionService.AddTradeSeq, PositionService.bookQuantity, PositionService.AddTrade,
      PositionService.new, Examples.bigBuy, Position.AddPosition, Position.new,
      Position.defaultValue, StdMap.find, StdMap.get, StdMap.set, StdMap.touch,
      Product.GetProductId, hw]
  have h2 : ((PositionService.AddTradeSeq PositionService.new [Examples.bigBuy]).AddTradeSeq
      [Examples.bigBuy]).bookQuantity "P" "TRSY1" = some (-9223372036854775808) := by
    simp [PositionService.AddTradeSeq, PositionService.bookQuantity, PositionService.AddTrade,
      PositionService.new, Examples.bigBuy, Position.AddPosition, Position.new,
      Position.defaultValue, StdMap.find, StdMap.get, StdMap.set, StdMap.touch,
      Product.GetProductId, hw, hw2]
  refine ⟨by decide, h1, h2, ?_⟩
  rw [h1, h2]
  decide

/-- C2 (amended). Position replay: applying a finite sequence of trades with `AddTrade`
to an empty position store (any listeners) and then applying the same sequence a second
time, in the same order, leaves for every product id and every book whose net quantity
after the first pass, doubled, is a value of `long`, exactly twice the net quantity held
after the first pass (a book absent after the first pass stays absent); trades are not
deduplicated by trade id. -/
theorem C2_replay_doubles_in_range (ls : List Listener) (ts : List Trade)
    (productId book : String)
    (hr : ∀ q : Int,
      (PositionService.AddTradeSeq { positions := [], listeners := ls } ts).bookQuantity
        productId book = some q → inLong (2 * q)) :
    ((PositionService.AddTradeSeq { positions := [], listeners := ls } ts).AddTradeSeq
        ts).bookQuantity productId book =
      ((PositionService.AddTradeSeq { positions := [], listeners := ls } ts).bookQuantity
        productId book).map (fun q => 2 * q) := by
  have h0 : PositionService.WF { positions := [], listeners := ls } := by
    simp [PositionService.WF, StdMap.WF]
  rw [PositionService.bookQuantity_AddTradeSeq (h0.AddTradeSeq ts)]
  rw [PositionService.bookQuantity_AddTradeSeq h0] at hr ⊢
  by_cases hp : ts.filter (fun t => decide (t.product.GetProductId = productId)) = []
  · simp [hp, PositionService.bookQuantity, StdMap.find]
  · by_cases hb : ts.filter (fun t => t.hits productId book) = []
    · simp [hp, hb, PositionService.bookQuantity, StdMap.find]
    · simp only [hp, hb, if_false, PositionService.bookQuantity, StdMap.find, Option.none_bind,
        Option.getD_none, Option.getD_some, Option.map_some', Option.some.injEq] at hr ⊢
      have h := hr _ rfl
      generalize ((ts.filter (fun t => t.hits productId book)).map Trade.signedQuantity).sum = S
        at h ⊢
      unfold inLong wrapLong at h
      unfold wrapLong
      omega

/-- Witness of C2 (amended): the sequence of one SELL of 4 in book TRSY1; the book holds
-4 after the first pass and -8 after the second. -/
theorem C2_replay_doubles_in_range_witness :
    (∀ q : Int,
      (PositionService.AddTradeSeq { positions := [], listeners := [0] }
        [Examples.trade]).bookQuantity "P" "TRSY1" = some q → inLong (2 * q)) ∧
    (PositionService.AddTradeSeq { positions := [], listeners := [0] }
        [Examples.trade]).bookQuantity "P" "TRSY1" = some (-4) ∧
    ((PositionService.AddTradeSeq { positions := [], listeners := [0] }
        [Examples.trade]).AddTradeSeq [Examples.trade]).bookQuantity "P" "TRSY1" =
      ((PositionService.AddTradeSeq { positions := [], listeners := [0] }
        [Examples.trade]).bookQuantity "P" "TRSY1").map (fun q => 2 * q) := by
  have hw : wrapLong (-4) = -4 := by decide
  have h1 : (PositionService.AddTradeSeq { positions := [], listeners := [0] }
      [Examples.trade]).bookQuantity "P" "TRSY1" = some (-4) := by
    simp [PositionService.AddTradeSeq, PositionService.bookQuantity, PositionService.AddTrade,
      Examples.trade, Position.AddPosition, Position.new, Position.defaultValue, StdMap.find,
      StdMap.get, StdMap.set, StdMap.touch, Product.GetProductId, hw]
  have hr : ∀ q : Int,
      (PositionService.AddTradeSeq { positions := [], listeners := [0] }
        [Examples.trade]).bookQuantity "P" "TRSY1" = some q → inLong (2 * q) := by
    intro q hq
    rw [h1] at hq
    simp only [Option.some.injEq] at hq
    subst hq
    decide
  exact ⟨hr, h1, C2_replay_doubles_in_range [0] [Examples.trade] "P" "TRSY1" hr⟩

/-- C15 (counterexample). The execution order with visible quantity
`LONG_MAX = 9223372036854775807` and hidden quantity 1, both values of `long`: visible
plus hidden is 9223372036854775808, and the trade that `ProcessAdd` builds has quantity
-9223372036854775808. -/
theorem C15_ProcessAdd_quantity_wraps :
    inLong Examples.longMaxOrder.visibleQuantity ∧
    inLong Examples.longMaxOrder.hiddenQuantity ∧
    Examples.longMaxOrder.visibleQuantity + Examples.longMaxOrder.hiddenQuantity =
      9223372036854775808 ∧
    (TradeBookingToExecutionListener.new.ProcessAdd TradeBookingService.new
      Examples.longMaxOrder).2.2.1.quantity = -9223372036854775808 := by
  refine ⟨by decide, by decide, by decide, ?_⟩
  decide

/-- C15 (amended). Trade-booking bridge mapping: for every execution order processed by
`TradeBookingToExecutionListener::ProcessAdd` (any counter, any service state) whose
visible quantity plus hidden quantity is a value of `long`, the trade built has side
SELL for pricing side BID and BUY for OFFER, quantity visible plus hidden, and the
execution's product, price and order id (as trade id); that trade is the entry of the
trade-booking store under its trade id. -/
theorem C15_ProcessAdd_builds_crossing_trade_in_range (l : TradeBookingToExecutionListener)
    (service : TradeBookingService) (data : ExecutionOrder)
    (hq : inLong (data.visibleQuantity + data.hiddenQuantity)) :
    (data.side = PricingSide.BID → (l.ProcessAdd service data).2.2.1.side = Side.SELL) ∧
    (data.side = PricingSide.OFFER → (l.ProcessAdd service data).2.2.1.side = Side.BUY) ∧
    (l.ProcessAdd service data).2.2.1.quantity = data.visibleQuantity + data.hiddenQuantity ∧
    (l.ProcessAdd service data).2.2.1.product = data.product ∧
    (l.ProcessAdd service data).2.2.1.price = data.price ∧
    (l.ProcessAdd service data).2.2.1.tradeId = data.orderId ∧
    StdMap.find (l.ProcessAdd service data).2.1.trades (l.ProcessAdd service data).2.2.1.tradeId
      = some (l.ProcessAdd service data).2.2.1 := by
  refine ⟨?_, ?_, wrapLong_of_inLong hq, rfl, rfl, rfl, ?_⟩
  · intro h
    simp only [TradeBookingToExecutionListener.ProcessAdd, h]
  · intro h
    simp only [TradeBookingToExecutionListener.ProcessAdd, h]
  · simp only [TradeBookingToExecutionListener.ProcessAdd, TradeBookingService.OnMessage,
      TradeBookingService.BookTrade]
    exact StdMap.find_set_self _ _ _

/-- Witness of C15 (amended): a BID-side execution with visible quantity 2 and hidden
quantity 4 gives a SELL trade of quantity 6. -/
theorem C15_ProcessAdd_builds_crossing_trade_in_range_witness :
    inLong (Examples.executionOrder.visibleQuantity + Examples.executionOrder.hiddenQuantity) ∧
    Examples.executionOrder.side = PricingSide.BID ∧
    (TradeBookingToExecutionListener.new.ProcessAdd TradeBookingService.new
      Examples.executionOrder).2.2.1.side = Side.SELL ∧
    (TradeBookingToExecutionListener.new.ProcessAdd TradeBookingService.new
      Examples.executionOrder).2.2.1.quantity = 2 + 4 :=
  ⟨by decide, rfl,
    (C15_ProcessAdd_builds_crossing_trade_in_range TradeBookingToExecutionListener.new
      TradeBookingService.new Examples.executionOrder (by decide)).1 rfl,
    (C15_ProcessAdd_builds_crossing_trade_in_range TradeBookingToExecutionListener.new
      TradeBookingService.new Examples.executionOrder (by decide)).2.2.1⟩

/-- C19 (counterexample). A store whose Position for `P` holds 10 in book TRSY1 and 3 in
book TRSY2 (aggregate 13), and a BUY of `LONG_MAX = 9223372036854775807` on `P` in
TRSY1: the aggregate before plus the trade's quantity is 9223372036854775820, and the
aggregate position of the Position stored by `AddTrade` is -9223372036854775796. -/
theorem C19_aggregate_wraps_at_long_max :
    Examples.positionService.WF ∧ Examples.positionService.InRange ∧
    inLong Examples.longMaxBuy.quantity ∧
    (StdMap.get Examples.positionService.positions "P"
      Position.defaultValue).GetAggregatePosition = 13 ∧
    (13 : Int) + Examples.longMaxBuy.quantity = 9223372036854775820 ∧
    ∃ p : Position,
      StdMap.find (Examples.positionService.AddTrade Examples.longMaxBuy).1.positions "P" =
        some p ∧
      p.GetAggregatePosition = -9223372036854775796 := by
  have hw : wrapLong 9223372036854775807 = 9223372036854775807 := by decide
  have hw2 : wrapLong 9223372036854775817 = -9223372036854775799 := by decide
  have hw3 : wrapLong 3 = 3 := by decide
  have hw4 : wrapLong (-9223372036854775796) = -9223372036854775796 := by decide
  have hw5 : wrapLong 10 = 10 := by decide
  have hw6 : wrapLong 13 = 13 := by decide
  have hw7 : wrapLong (-9223372036854775799) = -9223372036854775799 := by decide
  refine ⟨?_, ?_, by decide, ?_, by decide, _, PositionService.find_AddTrade_self _ _, ?_⟩
  · simp +decide [PositionService.WF, Position.WF, StdMap.WF, Examples.positionService]
  · simp +decide [PositionService.InRange, Examples.positionService]
  · simp [Position.GetAggregatePosition, StdMap.get, StdMap.find, Examples.positionService,
      hw5, hw6]
  · simp +decide [Position.GetAggregatePosition, Examples.positionService, Examples.longMaxBuy,
      Position.AddPosition, Position.new, Position.defaultValue, StdMap.find, StdMap.get,
      StdMap.set, Product.GetProductId, hw, hw2, hw3, hw4, hw5, hw6, hw7]

/-- C19 (amended). Aggregate position: for every position whose net quantities add up to
a value of `long`, `GetAggregatePosition` is the sum of the net quantities of all its
books; and for every store and trade `t`, provided the aggregate position of the
Position stored before for `t`'s product (0 when there was none) plus `t`'s quantity for
a BUY, minus `t`'s quantity for a SELL, is a value of `long`, that number is the
aggregate position of the Position stored for `t`'s product after `AddTrade(t)`. -/
theorem C19_aggregate_position_in_range (s : PositionService) (t : Trade)
    (hres : inLong (match t.side with
      | Side.BUY =>
        (StdMap.get s.positions t.product.GetProductId
          Position.defaultValue).GetAggregatePosition + t.quantity
      | Side.SELL =>
        (StdMap.get s.positions t.product.GetProductId
          Position.defaultValue).GetAggregatePosition - t.quantity)) :
    (∀ p : Position, inLong (p.positions.map Prod.snd).sum →
      p.GetAggregatePosition = (p.positions.map Prod.snd).sum) ∧
    ∃ p : Position,
      StdMap.find (s.AddTrade t).1.positions t.product.GetProductId = some p ∧
      p.GetAggregatePosition =
        (match t.side with
          | Side.BUY =>
            (StdMap.get s.positions t.product.GetProductId
              Position.defaultValue).GetAggregatePosition + t.quantity
          | Side.SELL =>
            (StdMap.get s.positions t.product.GetProductId
              Position.defaultValue).GetAggregatePosition - t.quantity) := by
  refine ⟨fun p hp => (Position.GetAggregatePosition_eq_sum p).trans (wrapLong_of_inLong hp),
    _, PositionService.find_AddTrade_self s t, ?_⟩
  have hnew : (Position.new t.product).WF := by simp [Position.WF, Position.new, StdMap.WF]
  have hagg : (Position.new t.product).GetAggregatePosition = 0 := rfl
  generalize StdMap.get s.positions t.product.GetProductId Position.defaultValue = old
    at hres ⊢
  cases hside : t.side
  · simp only [hside] at hres ⊢
    rw [Position.GetAggregatePosition_foldl_AddPosition _ (hnew.AddPosition _ _),
      Position.GetAggregatePosition_AddPosition hnew, hagg]
    rw [Position.GetAggregatePosition_eq_sum old] at hres ⊢
    generalize (old.positions.map Prod.snd).sum = S at hres ⊢
    unfold inLong wrapLong at hres
    unfold wrapLong
    omega
  · simp only [hside] at hres ⊢
    rw [Position.GetAggregatePosition_foldl_AddPosition _ (hnew.AddPosition _ _),
      Position.GetAggregatePosition_AddPosition hnew, hagg]
    rw [Position.GetAggregatePosition_eq_sum old] at hres ⊢
    generalize (old.positions.map Prod.snd).sum = S at hres ⊢
    unfold inLong wrapLong at hres
    unfold wrapLong
    omega

/-- Witness of C19 (amended): a SELL of 4 in book TRSY1 against the store holding 10 in
TRSY1 and 3 in TRSY2; the books add up to 13, the aggregate goes from 13 to 9. -/
theorem C19_aggregate_position_in_range_witness :
    (StdMap.get Examples.positionService.positions Examples.trade.product.GetProductId
      Position.defaultValue).GetAggregatePosition = 13 ∧
    inLong ((13 : Int) - Examples.trade.quantity) ∧
    (inLong ((⟨⟨"P", "US2Y"⟩, [("TRSY1", 10), ("TRSY2", 3)]⟩ : Position).positions.map
        Prod.snd).sum ∧
      (⟨⟨"P", "US2Y"⟩, [("TRSY1", 10), ("TRSY2", 3)]⟩ : Position).GetAggregatePosition =
        10 + (3 + 0)) ∧
    ∃ p : Position,
      StdMap.find (Examples.positionService.AddTrade Examples.trade).1.positions
        Examples.trade.product.GetProductId = some p ∧
      p.GetAggregatePosition = 13 - 4 := by
  have hw5 : wrapLong 10 = 10 := by decide
  have hw6 : wrapLong 13 = 13 := by decide
  have h13 : (StdMap.get Examples.positionService.positions
      Examples.trade.product.GetProductId Position.defaultValue).GetAggregatePosition = 13 := by
    simp [Position.GetAggregatePosition, StdMap.get, StdMap.find, Examples.positionService,
      Examples.trade, Product.GetProductId, hw5, hw6]
  have hres : inLong (match Examples.trade.side with
      | Side.BUY =>
        (StdMap.get Examples.positionService.positions Examples.trade.product.GetProductId
          Position.defaultValue).GetAggregatePosition + Examples.trade.quantity
      | Side.SELL =>
        (StdMap.get Examples.positionService.positions Examples.trade.product.GetProductId
          Position.defaultValue).GetAggregatePosition - Examples.trade.quantity) := by
    rw [h13]
    decide
  have hsum : inLong ((⟨⟨"P", "US2Y"⟩, [("TRSY1", 10), ("TRSY2", 3)]⟩ : Position).positions.map
      Prod.snd).sum := by decide
  obtain ⟨hall, p, h1, h2⟩ := C19_aggregate_position_in_range Examples.positionService
    Examples.trade hres
  refine ⟨h13, by decide, ⟨hsum, hall _ hsum⟩, p, h1, ?_⟩
  rw [h2, h13]
  rfl

/-- C25 (counterexample). The non-negative price `2^31 = 2147483648`, whose `floor` is
not a value of `int`: `ConvertPrice(double)` writes `-2147483648-0-2684354560`, and
`ConvertPrice(string)` of that string has an empty first piece, for which `std::stod`
gives no number; the round trip does not give `floor(256 p) / 256 = 2147483648`. -/
theorem C25_roundtrip_fails_at_two_pow_31 :
    (0 : ℚ) ≤ 2147483648 ∧
    ConvertPrice.fromDouble 2147483648 = "-2147483648-0-2684354560" ∧
    ConvertPrice.fromString (ConvertPrice.fromDouble 2147483648) = none ∧
    ¬ ConvertPrice.fromString (ConvertPrice.fromDouble 2147483648) =
      some ((⌊256 * (2147483648 : ℚ)⌋ : ℚ) / 256) := by
  have h : ConvertPrice.fromString (ConvertPrice.fromDouble 2147483648) = none := by
    rw [ConvertPrice.fromDouble_two_pow_31]
    decide
  refine ⟨by norm_num, ConvertPrice.fromDouble_two_pow_31, h, ?_⟩
  rw [h]
  exact fun h2 => Option.noConfusion h2

/-- C25 (amended). Price round trip, number to notation and back: for every price `p`
with `0 ≤ p < 2^31` (so that `floor(p)` is a value of `int`), writing `p` in fractional
notation and reading the notation back gives `floor(256 p) / 256`, which is at most `p`,
less than `1/256` below `p`, and equal to `p` when `p` is a whole number of 256ths.  The
last character written is `+` when the number of 256ths within the 32nd is 4;
`100.140625` is written `100-04+`, which reads back as `100.140625`. -/
theorem C25_number_roundtrip_in_range (p : ℚ) (hp : 0 ≤ p) (hp2 : p < 2147483648) :
    (∃ r : ℚ, ConvertPrice.fromString (ConvertPrice.fromDouble p) = some r ∧
      r = (⌊256 * p⌋ : ℚ) / 256 ∧ r ≤ p ∧ p - r < 1 / 256 ∧
      ((∃ k : Int, p = (k : ℚ) / 256) → r = p)) ∧
    (⌊256 * p⌋ % 8 = 4 → (ConvertPrice.fromDouble p).data.getLast? = some '+') ∧
    ConvertPrice.fromDouble 100.140625 = "100-04+" ∧
    ConvertPrice.fromString "100-04+" = some 100.140625 := by
  obtain ⟨hw, hv⟩ := ConvertPrice.fromDouble_floor p hp hp2
  have hn : (0 : ℤ) ≤ ⌊256 * p⌋ := Int.floor_nonneg.mpr (by positivity)
  have hlo : ((⌊256 * p⌋ : ℤ) : ℚ) ≤ 256 * p := Int.floor_le _
  have hhi : 256 * p < ((⌊256 * p⌋ : ℤ) : ℚ) + 1 := Int.lt_floor_add_one _
  refine ⟨⟨(⌊256 * p⌋ : ℚ) / 256, ?_, rfl, by linarith, by linarith, ?_⟩, ?_, ?_, ?_⟩
  · rw [hw, ConvertPrice.fromString_canonical _ _ _ (by omega) (by omega), hv]
  · rintro ⟨k, hk⟩
    have h256 : 256 * p = (k : ℚ) := by rw [hk]; ring
    rw [h256, Int.floor_intCast, hk]
  · intro h4
    rw [hw, canonicalFraction_getLast _ _ _ (by omega), if_pos (by omega)]
  · exact (ConvertPrice.fromDouble_cell 100 4 4 (by decide) (by decide) (by decide) _
      (by norm_num) (by norm_num)).trans (by decide)
  · rw [show ("100-04+" : String) = canonicalFraction 100 4 4 by decide,
      ConvertPrice.fromString_canonical 100 4 4 (by decide) (by decide)]
    norm_num

/-- Witness of C25 (amended): the price `99.5`. -/
theorem C25_number_roundtrip_in_range_witness :
    ((0 : ℚ) ≤ 99.5 ∧ (99.5 : ℚ) < 2147483648) ∧
    ((∃ r : ℚ, ConvertPrice.fromString (ConvertPrice.fromDouble 99.5) = some r ∧
      r = (⌊256 * (99.5 : ℚ)⌋ : ℚ) / 256 ∧ r ≤ 99.5 ∧ (99.5 : ℚ) - r < 1 / 256 ∧
      ((∃ k : Int, (99.5 : ℚ) = (k : ℚ) / 256) → r = 99.5)) ∧
    (⌊256 * (99.5 : ℚ)⌋ % 8 = 4 →
      (ConvertPrice.fromDouble 99.5).data.getLast? = some '+') ∧
    ConvertPrice.fromDouble 100.140625 = "100-04+" ∧
    ConvertPrice.fromString "100-04+" = some 100.140625) :=
  ⟨⟨by norm_num, by norm_num⟩,
    C25_number_roundtrip_in_range 99.5 (by norm_num) (by norm_num)⟩

/-- C26 (counterexample). The canonical notation `2147483648-000` (whole part `2^31`, no
32nds, no 256ths) reads as the number 2147483648, and `ConvertPrice(double)` writes
that number as `-2147483648-0-2684354560`, not as the notation it was read from. -/
theorem C26_notation_not_written_back_at_two_pow_31 :
    canonicalFraction 2147483648 0 0 = "2147483648-000" ∧
    ConvertPrice.fromString "2147483648-000" = some 2147483648 ∧
    ConvertPrice.fromDouble 2147483648 = "-2147483648-0-2684354560" ∧
    ConvertPrice.fromDouble 2147483648 ≠ "2147483648-000" := by
  have hc : canonicalFraction 2147483648 0 0 = "2147483648-000" := by decide
  refine ⟨hc, ?_, ConvertPrice.fromDouble_two_pow_31, ?_⟩
  · rw [← hc, ConvertPrice.fromString_canonical 2147483648 0 0 (by decide) (by decide)]
    norm_num
  · rw [ConvertPrice.fromDouble_two_pow_31]
    decide

/-- C26 (amended). Price notation round trip, notation to number and back: a canonical
notation `W-XYZ` with `W < 2^31` (`W` in decimal, a value of `int`; the number `X` of
32nds below 32 on two digits; and the number `Z` of 256ths below 8 written as a digit,
or as `+` when it is 4) reads as `W + X/32 + Z/256`, and that number is written back as
the same notation.  The notation with the digit 4 in the last place reads as the same
number as the one with `+` there. -/
theorem C26_notation_roundtrip_in_range (W X Z : Nat) (hW : W < 2147483648) (hX : X < 32)
    (hZ : Z < 8) :
    (canonicalFraction W X Z).data =
      (toString W).data ++ '-' :: Nat.digitChar (X / 10) :: Nat.digitChar (X % 10) ::
        [if Z = 4 then '+' else Nat.digitChar Z] ∧
    (∃ r : ℚ, ConvertPrice.fromString (canonicalFraction W X Z) = some r ∧
      r = (W : ℚ) + (X : ℚ) / 32 + (Z : ℚ) / 256 ∧
      ConvertPrice.fromDouble r = canonicalFraction W X Z) ∧
    ConvertPrice.fromString
        (toString W ++ "-" ++ (if X < 10 then "0" ++ toString X else toString X) ++ "4") =
      ConvertPrice.fromString (canonicalFraction W X 4) := by
  refine ⟨canonicalFraction_data W X Z hX hZ,
    ⟨(W : ℚ) + (X : ℚ) / 32 + (Z : ℚ) / 256, ?_, rfl, ?_⟩, ?_⟩
  · rw [ConvertPrice.fromString_canonical W X Z hX hZ]
    congr 1; ring
  · exact ConvertPrice.fromDouble_cell W X Z hW hX hZ _ (by apply le_of_eq; ring)
      (by linarith)
  · rw [ConvertPrice.fromString_digit_four W X hX,
      ConvertPrice.fromString_canonical W X 4 hX (by decide)]

/-- Witness of C26 (amended): the notation `99-317`. -/
theorem C26_notation_roundtrip_in_range_witness :
    (99 < 2147483648 ∧ 31 < 32 ∧ 7 < 8) ∧ canonicalFraction 99 31 7 = "99-317" ∧
    ((canonicalFraction 99 31 7).data =
      (toString 99).data ++ '-' :: Nat.digitChar (31 / 10) :: Nat.digitChar (31 % 10) ::
        [if 7 = 4 then '+' else Nat.digitChar 7] ∧
    (∃ r : ℚ, ConvertPrice.fromString (canonicalFraction 99 31 7) = some r ∧
      r = ((99 : Nat) : ℚ) + ((31 : Nat) : ℚ) / 32 + ((7 : Nat) : ℚ) / 256 ∧
      ConvertPrice.fromDouble r = canonicalFraction 99 31 7) ∧
    ConvertPrice.fromString
        (toString 99 ++ "-" ++ (if 31 < 10 then "0" ++ toString 31 else toString 31) ++ "4") =
      ConvertPrice.fromString (canonicalFraction 99 31 4)) :=
  ⟨⟨by decide, by decide, by decide⟩, by decide,
    C26_notation_roundtrip_in_range 99 31 7 (by decide) (by decide) (by decide)⟩

end TradingSystem
